import Mathlib

/-!
# FBNetwork: the Server registry, accept path, bulk reads, event queue, start-up and
shut-down, the Client reads, and the locks of the accessors

A shallow embedding of `src/src/server.cpp`, of the epoll and kqueue backends of
`src/src/eventQueue.cpp` and of the constructor and bulk reads of
`src/src/client.cpp`.  Member functions become functions on an
explicit `Server` record; a function that may throw after it has mutated the
object returns the outcome together with the object as it is left behind.
Kernel calls are answered by explicit oracle values and recorded in a trace.
-/

namespace FBNetwork

/-! ## Data model -/

/-- Exception kinds thrown by the server and client code; `std::out_of_range` is thrown by
`unordered_map::at` and by the id check of the getters, `std::length_error` by
`std::vector::resize`. -/
inductive Exn where
  | invalidArgument
  | invalidDomain
  | serverRuntime
  | serverTimeout
  | serverCreation
  | outOfRange
  | lengthError
  | systemRuntime
  | clientRuntime
  | clientTimeout
  deriving DecidableEq

deriving instance DecidableEq for Except

/-- A `std::string` seen as its sequence of bytes. -/
abbrev Bytes := List Char

/-- A peer address record (`sockaddr_in`, `sockaddr_in6` or `sockaddr_un`); only its
identity matters to the registry. -/
structure SockAddr where
  raw : Nat
  deriving DecidableEq

/-- The container `std::unordered_map<int, V>`: a partial map on `int` keys.  The
iteration order of the container is not part of this value. -/
abbrev UnorderedMap (V : Type) := Int → Option V

/-- A default-constructed, empty `std::unordered_map`. -/
def UnorderedMap.empty {V : Type} : UnorderedMap V := fun _ => none

/-- The statement `m[k] = v` of `std::unordered_map`: insert or overwrite. -/
def UnorderedMap.assign {V : Type} (m : UnorderedMap V) (k : Int) (v : V) : UnorderedMap V :=
  fun j => if j = k then some v else m j

/-- The call `m.at(k)` of `std::unordered_map`: throws `std::out_of_range` when the key
is absent. -/
def UnorderedMap.lookupAt {V : Type} (m : UnorderedMap V) (k : Int) : Except Exn V :=
  match m k with
  | some v => .ok v
  | none => .error .outOfRange

/-- The structure `timeval`. -/
structure Timeval where
  tv_sec : Int
  tv_usec : Int
  deriving DecidableEq

/-- The structure `sockaddr_un`: the address family and the character array `sun_path`. -/
structure SockAddrUn where
  sun_family : Int
  sun_path : Bytes
  deriving DecidableEq

/-- The private fields of `class EventQueue` (`src/include/eventQueue.hpp`), with the
initialisers of the header. -/
structure EventQueue where
  m_eventQueueFileDescriptor : Int := -1
  m_serverFileDescriptor : Int := -1
  deriving DecidableEq

/-- Kernel calls issued by the server, in the order they are made. -/
inductive Syscall where
  | epollCtlDel (fd : Int)
  | close (fd : Int)
  | accept (listener : Int)
  | epollCtlAdd (fd : Int)
  | socket (domain : Int)
  | setsockopt (fd : Int)
  | unlink (path : Bytes)
  | bindInet (fd : Int) (port : Nat)
  | bindLocal (fd : Int) (addr : SockAddrUn)
  | epollCreate
  deriving DecidableEq

/-- The private fields of `class Server` (`src/include/server.hpp`) that the modelled
functions touch, with the initialisers of the header, and the trace of kernel calls
made so far.  The header gives `m_timeout` no initialiser; both constructors set it. -/
structure Server where
  m_serverFileDescriptor : Int := -1
  m_maximumCurrentConnections : Int := 0
  m_currentClientID : Int := 0
  m_usesIpv4Domain : Bool := false
  m_usesIpv6Domain : Bool := false
  m_usesLocalDomain : Bool := false
  m_data : UnorderedMap Bytes := UnorderedMap.empty
  m_clientFileDescriptor : UnorderedMap Int := UnorderedMap.empty
  m_clientAddressIpv4 : UnorderedMap SockAddr := UnorderedMap.empty
  m_clientAddressIpv6 : UnorderedMap SockAddr := UnorderedMap.empty
  m_clientAddressLocal : UnorderedMap SockAddr := UnorderedMap.empty
  m_domain : Int := 0
  m_port : Nat := 0
  m_localServerSocketPath : Bytes := []
  m_isServerOnline : Bool := false
  m_startTime : Int := 0
  m_startDate : Bytes := []
  m_timeout : Timeval := ⟨0, 0⟩
  m_serverAddressIpv4 : Option SockAddr := none
  m_serverAddressIpv6 : Option SockAddr := none
  m_serverAddressLocal : Option SockAddrUn := none
  m_eventQueue : Option EventQueue := none
  syscalls : List Syscall := []

/-- The answers of the kernel during one `acceptClient` call.
* `peerGone fd`: the verdict of the `MSG_PEEK | MSG_DONTWAIT` probe of
  `isDisconnected` on the open descriptor `fd` (true: zero bytes or a hard error);
* `epollDelFails fd`: `epoll_ctl(EPOLL_CTL_DEL, fd)` fails with an errno other than
  `ENOENT`;
* `acceptFd`, `acceptAddr`: the value returned by `accept` and the content of the
  address record after it;
* `epollAddFails fd`: `epoll_ctl(EPOLL_CTL_ADD, fd)` fails on a valid descriptor. -/
structure Kernel where
  peerGone : Int → Bool
  epollDelFails : Int → Bool
  acceptFd : Int
  acceptAddr : SockAddr
  epollAddFails : Int → Bool

/-! ## Getters and setters (`server.cpp` lines 131-366) -/

def getCurrentClientID (s : Server) : Int := s.m_currentClientID

def getMaximumCurrentConnections (s : Server) : Int := s.m_maximumCurrentConnections

def getServerFileDescriptor (s : Server) : Int := s.m_serverFileDescriptor

def usesIpv4Domain (s : Server) : Bool := s.m_usesIpv4Domain

def usesIpv6Domain (s : Server) : Bool := s.m_usesIpv6Domain

def usesLocalDomain (s : Server) : Bool := s.m_usesLocalDomain

/-- `return t_clientID > getCurrentClientID();` -/
def thisClientDoesNotExist (s : Server) (t_clientID : Int) : Bool :=
  decide (t_clientID > getCurrentClientID s)

def getClientFileDescriptor (s : Server) (t_clientID : Int) : Except Exn Int :=
  if thisClientDoesNotExist s t_clientID then .error .outOfRange
  else s.m_clientFileDescriptor.lookupAt t_clientID

def getClientAddressIpv4 (s : Server) (t_clientID : Int) : Except Exn SockAddr :=
  if thisClientDoesNotExist s t_clientID then .error .outOfRange
  else s.m_clientAddressIpv4.lookupAt t_clientID

def getClientAddressIpv6 (s : Server) (t_clientID : Int) : Except Exn SockAddr :=
  if thisClientDoesNotExist s t_clientID then .error .outOfRange
  else s.m_clientAddressIpv6.lookupAt t_clientID

def getClientAddressLocal (s : Server) (t_clientID : Int) : Except Exn SockAddr :=
  if thisClientDoesNotExist s t_clientID then .error .outOfRange
  else s.m_clientAddressLocal.lookupAt t_clientID

def setClientFileDescriptor (s : Server) (t_clientID : Int) (fd : Int) : Server :=
  { s with m_clientFileDescriptor := s.m_clientFileDescriptor.assign t_clientID fd }

/-- The shared pointer argument is `none` for `nullptr`. -/
def setClientAddressIpv4 (s : Server) (t_clientID : Int) (p : Option SockAddr) :
    Except Exn Server :=
  match p with
  | none => .error .invalidArgument
  | some a => .ok { s with m_clientAddressIpv4 := s.m_clientAddressIpv4.assign t_clientID a }

def setClientAddressIpv6 (s : Server) (t_clientID : Int) (p : Option SockAddr) :
    Except Exn Server :=
  match p with
  | none => .error .invalidArgument
  | some a => .ok { s with m_clientAddressIpv6 := s.m_clientAddressIpv6.assign t_clientID a }

def setClientAddressLocal (s : Server) (t_clientID : Int) (p : Option SockAddr) :
    Except Exn Server :=
  match p with
  | none => .error .invalidArgument
  | some a => .ok { s with m_clientAddressLocal := s.m_clientAddressLocal.assign t_clientID a }

def setCurrentClientID (s : Server) (t_currentClientID : Int) : Except Exn Server :=
  if t_currentClientID < 0 then .error .invalidArgument
  else .ok { s with m_currentClientID := t_currentClientID }

def setData (s : Server) (t_clientID : Int) (t_data : Bytes) : Server :=
  { s with m_data := s.m_data.assign t_clientID t_data }

def getData (s : Server) (t_clientID : Int) : Except Exn Bytes :=
  s.m_data.lookupAt t_clientID

/-- `Server::getClientID`: walks the descriptor map and returns the first key whose value
is the descriptor.  The map is a `std::unordered_map`, whose iteration order the standard
leaves unspecified; `order` is the order in which this walk visits the keys. -/
def getClientID (order : List Int) (s : Server) (t_clientFileDescriptor : Int) : Except Exn Int :=
  if t_clientFileDescriptor < 0 then .error .invalidArgument
  else
    match order.find?
        (fun key => decide (s.m_clientFileDescriptor key = some t_clientFileDescriptor)) with
    | some key => .ok key
    | none => .error .outOfRange

/-- Appends a kernel call to the trace. -/
def Server.log (s : Server) (c : Syscall) : Server :=
  { s with syscalls := s.syscalls ++ [c] }

/-! ## Disconnect test, reaping and compaction (`server.cpp` lines 333-361, 710-730, 1037-1060) -/

/-- `Server::isDisconnected`, by the verdict of its probe: `recv` on a negative
descriptor fails with `EBADF`, which the function reports as disconnected; on any
other descriptor the verdict is the kernel's. -/
def isDisconnected (k : Kernel) (s : Server) (t_clientID : Int) : Except Exn Bool :=
  match getClientFileDescriptor s t_clientID with
  | .error e => .error e
  | .ok fd => .ok (decide (fd < 0) || k.peerGone fd)

/-- `EventQueue::removeClient` (epoll backend): raises `ServerRuntime` when
`epoll_ctl` fails with an errno other than `ENOENT`. -/
def EventQueue.removeClient (k : Kernel) (fd : Int) : Except Exn Unit :=
  if k.epollDelFails fd then .error .serverRuntime else .ok ()

/-- The result of `epoll_ctl(EPOLL_CTL_ADD, fd)`: `-1` on a negative descriptor
(`EBADF`) and when the kernel refuses, `0` otherwise. -/
def epollCtlAdd (k : Kernel) (fd : Int) : Int :=
  if fd < 0 ∨ k.epollAddFails fd then -1 else 0

/-- `EventQueue::addClient` (epoll backend). -/
def EventQueue.addClient (k : Kernel) (fd : Int) : Except Exn Unit :=
  if epollCtlAdd k fd = -1 then .error .serverRuntime else .ok ()

/-- The loop of `Server::closeDisconnectedClients`, entered at index `i` with at most
`n` iterations left.  Both exceptions of `removeClient` are caught and dropped by the
source, so its outcome does not influence the loop. -/
def closeDisconnectedClientsLoop (k : Kernel) : Nat → Int → Server → Except Exn Unit × Server
  | 0, _, s => (.ok (), s)
  | n + 1, i, s =>
    if i < getCurrentClientID s then
      match isDisconnected k s i with
      | .error e => (.error e, s)
      | .ok false => closeDisconnectedClientsLoop k n (i + 1) s
      | .ok true =>
        match getClientFileDescriptor s i with
        | .error e => (.error e, s)
        | .ok fd =>
          let s1 := s.log (.epollCtlDel fd)
          let s2 := match EventQueue.removeClient k fd with
            | .error _ => s1
            | .ok () => s1
          let s3 := s2.log (.close fd)
          closeDisconnectedClientsLoop k n (i + 1) (setClientFileDescriptor s3 i (-1))
    else (.ok (), s)

def closeDisconnectedClients (k : Kernel) (s : Server) : Except Exn Unit × Server :=
  closeDisconnectedClientsLoop k (getCurrentClientID s).toNat 0 s

/-- The domain chain inside the sweep of `rearrangeClientIDs`: copies the address
record of slot `i` to slot `nextFreeIndex` in the map of the domain in use. -/
def copyClientAddress (s : Server) (nextFreeIndex i : Int) : Except Exn Server :=
  if usesIpv4Domain s then
    match getClientAddressIpv4 s i with
    | .error e => .error e
    | .ok a => setClientAddressIpv4 s nextFreeIndex (some a)
  else if usesIpv6Domain s then
    match getClientAddressIpv6 s i with
    | .error e => .error e
    | .ok a => setClientAddressIpv6 s nextFreeIndex (some a)
  else if usesLocalDomain s then
    match getClientAddressLocal s i with
    | .error e => .error e
    | .ok a => setClientAddressLocal s nextFreeIndex (some a)
  else .ok s

/-- The sweep of `Server::rearrangeClientIDs`, entered at index `i` with write cursor
`nextFreeIndex` and at most `n` iterations left; returns the final cursor. -/
def rearrangeSweep : Nat → Int → Int → Server → Except Exn Int × Server
  | 0, _, nextFreeIndex, s => (.ok nextFreeIndex, s)
  | n + 1, i, nextFreeIndex, s =>
    if i < getCurrentClientID s then
      match getClientFileDescriptor s i with
      | .error e => (.error e, s)
      | .ok fd =>
        if fd ≠ -1 then
          if i ≠ nextFreeIndex then
            let s1 := setClientFileDescriptor s nextFreeIndex fd
            match copyClientAddress s1 nextFreeIndex i with
            | .error e => (.error e, s1)
            | .ok s2 => rearrangeSweep n (i + 1) (nextFreeIndex + 1) s2
          else rearrangeSweep n (i + 1) (nextFreeIndex + 1) s
        else rearrangeSweep n (i + 1) nextFreeIndex s
    else (.ok nextFreeIndex, s)

def rearrangeClientIDs (k : Kernel) (s : Server) : Except Exn Unit × Server :=
  match closeDisconnectedClients k s with
  | (.error e, s1) => (.error e, s1)
  | (.ok (), s1) =>
    match rearrangeSweep (getCurrentClientID s1).toNat 0 0 s1 with
    | (.error e, s2) => (.error e, s2)
    | (.ok nextFreeIndex, s2) =>
      match setCurrentClientID s2 nextFreeIndex with
      | .error e => (.error e, s2)
      | .ok s3 => (.ok (), s3)

/-! ## Accepting a client (`server.cpp` lines 629-708) -/

/-- The domain chain of `Server::acceptClient`: `accept` into a fresh address record of
the family in use, then record descriptor and address under `currentClientID`.  The
`InvalidArgument` of the address setter is caught and rethrown as `ServerRuntime`. -/
def acceptIntoRegistry (k : Kernel) (s : Server) (currentClientID : Int) :
    Except Exn Unit × Server :=
  let serverFileDescriptor := getServerFileDescriptor s
  if usesIpv4Domain s = true then
    let s1 := setClientFileDescriptor (s.log (.accept serverFileDescriptor)) currentClientID k.acceptFd
    match setClientAddressIpv4 s1 currentClientID (some k.acceptAddr) with
    | .error .invalidArgument => (.error .serverRuntime, s1)
    | .error e => (.error e, s1)
    | .ok s2 => (.ok (), s2)
  else if usesIpv6Domain s = true then
    let s1 := setClientFileDescriptor (s.log (.accept serverFileDescriptor)) currentClientID k.acceptFd
    match setClientAddressIpv6 s1 currentClientID (some k.acceptAddr) with
    | .error .invalidArgument => (.error .serverRuntime, s1)
    | .error e => (.error e, s1)
    | .ok s2 => (.ok (), s2)
  else if usesLocalDomain s = true then
    let s1 := setClientFileDescriptor (s.log (.accept serverFileDescriptor)) currentClientID k.acceptFd
    match setClientAddressLocal s1 currentClientID (some k.acceptAddr) with
    | .error .invalidArgument => (.error .serverRuntime, s1)
    | .error e => (.error e, s1)
    | .ok s2 => (.ok (), s2)
  else (.ok (), s)

def acceptClient (k : Kernel) (s : Server) : Except Exn Int × Server :=
  match rearrangeClientIDs k s with
  | (.error e, s1) => (.error e, s1)
  | (.ok (), s1) =>
    let currentClientID := getCurrentClientID s1
    if currentClientID ≥ getMaximumCurrentConnections s1 then (.error .serverRuntime, s1)
    else
      match acceptIntoRegistry k s1 currentClientID with
      | (.error e, s2) => (.error e, s2)
      | (.ok (), s2) =>
        match getClientFileDescriptor s2 currentClientID with
        | .error e => (.error e, s2)
        | .ok fd =>
          let s3 := s2.log (.epollCtlAdd fd)
          match EventQueue.addClient k fd with
          | .error e => (.error e, s3)
          | .ok () =>
            match setCurrentClientID s3 (currentClientID + 1) with
            | .error e => (.error e, s3)
            | .ok s4 => (.ok currentClientID, s4)

/-! ## Vocabulary of the statements -/

/-- The address map of the domain in use, selected by the same chain of flags as the
code; empty when no flag is set. -/
def clientAddress (s : Server) : UnorderedMap SockAddr :=
  if usesIpv4Domain s then s.m_clientAddressIpv4
  else if usesIpv6Domain s then s.m_clientAddressIpv6
  else if usesLocalDomain s then s.m_clientAddressLocal
  else UnorderedMap.empty

/-- Slot `i` passes the disconnect test as live: `isDisconnected` returns `false`. -/
def isLive (k : Kernel) (s : Server) (i : Int) : Bool :=
  match isDisconnected k s i with
  | .ok false => true
  | _ => false

/-- The live slots among `0 .. next-id - 1`, left to right. -/
def liveSlots (k : Kernel) (s : Server) : List Nat :=
  (List.range (getCurrentClientID s).toNat).filter (fun i => isLive k s i)

/-- Every slot below next-id has a descriptor entry and an address record of the domain
in use (what `acceptClient` stores together under each id it hands out). -/
def RegistryOk (s : Server) : Prop :=
  ∀ i : Int, 0 ≤ i → i < getCurrentClientID s →
    (s.m_clientFileDescriptor i).isSome = true ∧ (clientAddress s i).isSome = true

/-- One of the three domain flags is set, as both constructors leave the object. -/
def DomainSet (s : Server) : Prop :=
  usesIpv4Domain s = true ∨ usesIpv6Domain s = true ∨ usesLocalDomain s = true

/-- The server `s'` differs from `s` at most in the registry (descriptor map, address
maps, id counter) and the trace of kernel calls. -/
def SameConfig (s s' : Server) : Prop :=
  s' = { s with m_clientFileDescriptor := s'.m_clientFileDescriptor,
                m_clientAddressIpv4 := s'.m_clientAddressIpv4,
                m_clientAddressIpv6 := s'.m_clientAddressIpv6,
                m_clientAddressLocal := s'.m_clientAddressLocal,
                m_currentClientID := s'.m_currentClientID,
                syscalls := s'.syscalls }

/-- Whether a kernel call is an `accept`. -/
def Syscall.isAccept : Syscall → Bool
  | .accept _ => true
  | _ => false

/-- The number of `accept` calls the server has issued so far. -/
def acceptCalls (s : Server) : Nat := (s.syscalls.filter Syscall.isAccept).length

/-- A server as the constructors and `startServer` leave it: IPv4 domain, listener `3`,
backlog `b`, empty registry. -/
def freshServer (b : Int) : Server :=
  { m_serverFileDescriptor := 3, m_maximumCurrentConnections := b, m_usesIpv4Domain := true }

/-- A kernel in which the peers holding the descriptors in `gone` have disconnected and
`accept` returns `fd` with address record `a`; no `epoll_ctl` call fails. -/
def kernelWith (gone : List Int) (fd : Int) (a : Nat) : Kernel :=
  { peerGone := fun d => decide (d ∈ gone), epollDelFails := fun _ => false,
    acceptFd := fd, acceptAddr := ⟨a⟩, epollAddFails := fun _ => false }

/-- The list `order` is an iteration order of the descriptor map: it visits every key of the
map once and nothing else. -/
def IterationOrder (s : Server) (order : List Int) : Prop :=
  order.Nodup ∧ ∀ key : Int, key ∈ order ↔ (s.m_clientFileDescriptor key).isSome = true

/-- Runs `acceptClient` once per kernel in the list, whatever each call's outcome. -/
def acceptAll : List Kernel → Server → Server
  | [], s => s
  | k :: ks, s => acceptAll ks (acceptClient k s).2

/-- Along the run, `accept` never returns a descriptor that a slot passing the disconnect
test as live holds at that moment. -/
def AcceptsFresh : List Kernel → Server → Prop
  | [], _ => True
  | k :: ks, s =>
    (∀ i ∈ liveSlots k s, s.m_clientFileDescriptor (i : Int) ≠ some k.acceptFd) ∧
      AcceptsFresh ks (acceptClient k s).2

/-- No two ids below next-id hold the same descriptor, the sentinel `-1` apart. -/
def DistinctDescriptors (s : Server) : Prop :=
  ∀ i j : Int, 0 ≤ i → i < getCurrentClientID s → 0 ≤ j → j < getCurrentClientID s → i ≠ j →
    s.m_clientFileDescriptor i ≠ some (-1) → s.m_clientFileDescriptor j ≠ some (-1) →
    s.m_clientFileDescriptor i ≠ s.m_clientFileDescriptor j

/-- The scenario of the descriptor lookup: clients 0, 1, 2 are accepted on descriptors 5, 6, 7;
the peers of 5 and 6 close; a fourth client is accepted, on the lowest free descriptor 5. -/
def lookupScenario : Server :=
  acceptAll [kernelWith [] 5 50, kernelWith [] 6 60, kernelWith [] 7 70, kernelWith [5, 6] 5 80]
    (freshServer 4)

/-- Three clients with ids 0, 1, 2 holding the descriptors 5, 6, 7 (IPv4, backlog `b`). -/
def threeClients (b : Int) : Server :=
  { freshServer b with
    m_currentClientID := 3
    m_clientFileDescriptor := ((UnorderedMap.empty.assign 0 5).assign 1 6).assign 2 7
    m_clientAddressIpv4 := ((UnorderedMap.empty.assign 0 ⟨50⟩).assign 1 ⟨60⟩).assign 2 ⟨70⟩ }

/-! ## Reaping: what `closeDisconnectedClients` leaves behind -/

/-- The verdict of the disconnect test on a descriptor value. -/
def goneFd (k : Kernel) (fd : Int) : Bool := decide (fd < 0) || k.peerGone fd

/-- The descriptor map after the slots `lo .. hi - 1` have been reaped. -/
def reapedFds (k : Kernel) (m : UnorderedMap Int) (lo hi : Int) : UnorderedMap Int :=
  fun j => if lo ≤ j ∧ j < hi ∧ (m j).any (goneFd k) = true then some (-1) else m j

/-! ## The sweep of `rearrangeClientIDs` -/

/-- What a registry slot holds: the descriptor entry and the address record of the
domain in use. -/
def slot (s : Server) (j : Int) : Option Int × Option SockAddr :=
  (s.m_clientFileDescriptor j, clientAddress s j)

/-- The slots among `i .. i + n - 1` whose descriptor is not the sentinel `-1`, left to
right. -/
def keptSlots (s : Server) (i n : Nat) : List Nat :=
  (List.range' i n).filter (fun j => decide (s.m_clientFileDescriptor (j : Int) ≠ some (-1)))

/-! ## The accept path -/

/-- The object after the `accept` and the `epoll_ctl(ADD)` of `acceptClient`, before the id
counter is advanced: the post-compaction object `s1` with the accepted descriptor and
address stored under `c`. -/
def Accepted (k : Kernel) (s1 s3 : Server) (c : Int) : Prop :=
  s3.m_clientFileDescriptor = s1.m_clientFileDescriptor.assign c k.acceptFd ∧
  clientAddress s3 = (clientAddress s1).assign c k.acceptAddr ∧
  s3.syscalls = s1.syscalls ++ [.accept (getServerFileDescriptor s1), .epollCtlAdd k.acceptFd] ∧
  getCurrentClientID s3 = getCurrentClientID s1 ∧
  SameConfig s1 s3

/-! ## Bulk reads (`server.cpp` lines 744-992) -/

/-- The constant `Constants::BUFFER_SIZE` of `constants.hpp`. -/
def BUFFER_SIZE : Nat := 1024

/-- What `select` on the client descriptor reports in one iteration of a read loop: its
return value, whether `errno` is `EINTR` afterwards, and whether the descriptor is still
set in `readfds`. -/
structure SelectOutcome where
  activity : Int
  eintr : Bool
  isSet : Bool
  deriving DecidableEq

/-- What `recv(fd, buffer, sizeof(buffer), 0)` reports: `-1` (with `errno == EINTR` or
not), or the bytes it placed in the buffer, their number being the return value (none:
the peer has closed). -/
inductive RecvOutcome where
  | failed (eintr : Bool)
  | bytes (data : Bytes)
  deriving DecidableEq

/-- The kernel's answers to one iteration of a read loop; `rcv` is consulted only if the
iteration reaches its `recv`. -/
structure ReadStep where
  sel : SelectOutcome
  rcv : RecvOutcome
  deriving DecidableEq

/-- How a bulk read ends on a recorded sequence of kernel answers: `outcome` is `none` when
the loop is still waiting after the last recorded answer, `server` is the object as the call
leaves it, `rest` the answers the call did not consume. -/
structure ReadRun where
  outcome : Option (Except Exn Unit)
  server : Server
  rest : List ReadStep

/-- The loop of `Server::readXData`, with the locals `totalBytesRead` and `dataBuffer`. -/
def readXDataLoop (t_clientID : Int) (t_x : Int) : Int → Bytes → Server → List ReadStep → ReadRun
  | _, _, s, [] => ⟨none, s, []⟩
  | totalBytesRead, dataBuffer, s, step :: steps =>
    if step.sel.activity < 0 ∧ step.sel.eintr = false then ⟨some (.error .serverRuntime), s, steps⟩
    else if step.sel.activity = 0 then ⟨some (.error .serverTimeout), s, steps⟩
    else if step.sel.isSet = true then
      match step.rcv with
      | .failed true => readXDataLoop t_clientID t_x totalBytesRead dataBuffer s steps
      | .failed false => ⟨some (.error .serverRuntime), s, steps⟩
      | .bytes data =>
        if data.length = 0 then ⟨some (.error .serverRuntime), s, steps⟩
        else
          let bytesToAdd : Int := min (data.length : Int) (t_x - totalBytesRead)
          let dataBuffer1 := dataBuffer ++ data.take bytesToAdd.toNat
          let totalBytesRead1 := totalBytesRead + bytesToAdd
          if totalBytesRead1 = t_x then ⟨some (.ok ()), setData s t_clientID dataBuffer1, steps⟩
          else readXDataLoop t_clientID t_x totalBytesRead1 dataBuffer1 s steps
    else readXDataLoop t_clientID t_x totalBytesRead dataBuffer s steps

def readXData (s : Server) (t_clientID : Int) (t_x : Int) (steps : List ReadStep) : ReadRun :=
  match getClientFileDescriptor s t_clientID with
  | .error e => ⟨some (.error e), s, steps⟩
  | .ok clientFileDescriptor =>
    if clientFileDescriptor = -1 then ⟨some (.error .invalidArgument), s, steps⟩
    else
      let s1 := setData s t_clientID []
      if t_x ≤ 0 then ⟨some (.error .invalidArgument), s1, steps⟩
      else readXDataLoop t_clientID t_x 0 [] s1 steps

/-- The search of `std::string::find` in the part `l` of the buffer that starts at position
`pos`: the first position at which `x` occurs, `none` for `npos`. -/
def findFrom (x : Bytes) : Bytes → Nat → Option Nat
  | [], pos => if x.isPrefixOf [] then some pos else none
  | c :: cs, pos => if x.isPrefixOf (c :: cs) then some pos else findFrom x cs (pos + 1)

/-- The call `dataBuffer.find(x, pos)` of `std::string`. -/
def find (dataBuffer x : Bytes) (pos : Nat) : Option Nat :=
  if pos ≤ dataBuffer.length then findFrom x (dataBuffer.drop pos) pos else none

/-- The loop of `Server::readTillXData`, with the local `dataBuffer`. -/
def readTillXDataLoop (t_clientID : Int) (t_x : Bytes) : Bytes → Server → List ReadStep → ReadRun
  | _, s, [] => ⟨none, s, []⟩
  | dataBuffer, s, step :: steps =>
    if step.sel.activity < 0 ∧ step.sel.eintr = false then ⟨some (.error .serverRuntime), s, steps⟩
    else if step.sel.activity = 0 then ⟨some (.error .serverTimeout), s, steps⟩
    else if step.sel.isSet = true then
      match step.rcv with
      | .failed true => readTillXDataLoop t_clientID t_x dataBuffer s steps
      | .failed false => ⟨some (.error .serverRuntime), s, steps⟩
      | .bytes data =>
        if data.length = 0 then ⟨some (.error .serverRuntime), s, steps⟩
        else
          let dataBuffer1 := dataBuffer ++ data
          match find dataBuffer1 t_x 0 with
          | some pos =>
            ⟨some (.ok ()), setData s t_clientID (dataBuffer1.take (pos + t_x.length)), steps⟩
          | none => readTillXDataLoop t_clientID t_x dataBuffer1 s steps
    else readTillXDataLoop t_clientID t_x dataBuffer s steps

def readTillXData (s : Server) (t_clientID : Int) (t_x : Bytes) (steps : List ReadStep) : ReadRun :=
  match getClientFileDescriptor s t_clientID with
  | .error e => ⟨some (.error e), s, steps⟩
  | .ok clientFileDescriptor =>
    if clientFileDescriptor = -1 then ⟨some (.error .invalidArgument), s, steps⟩
    else
      let s1 := setData s t_clientID []
      if t_x.isEmpty then ⟨some (.error .invalidArgument), s1, steps⟩
      else readTillXDataLoop t_clientID t_x [] s1 steps

/-- How the inner `while` of `readTillXComesYTimesData` ends: with the `t_y`-th match found
(`bufferPos` is its end), or with `find` returning `npos` and the locals as they stand. -/
inductive ScanResult where
  | found (bufferPos : Nat)
  | notYet (count : Int) (bufferPos : Nat)
  deriving DecidableEq

/-- The inner `while ((pos = dataBuffer.find(t_x, bufferPos)) != npos)` of
`readTillXComesYTimesData`, with at most `fuel` iterations: every iteration moves
`bufferPos` forward by at least the length of `t_x`, so `dataBuffer.length + 1` iterations
are never exhausted for a non-empty `t_x`. -/
def scanDelimiters (dataBuffer t_x : Bytes) (t_y : Int) : Nat → Int → Nat → ScanResult
  | 0, count, bufferPos => .notYet count bufferPos
  | fuel + 1, count, bufferPos =>
    match find dataBuffer t_x bufferPos with
    | none => .notYet count bufferPos
    | some pos =>
      let count1 := count + 1
      let bufferPos1 := pos + t_x.length
      if count1 = t_y then .found bufferPos1
      else scanDelimiters dataBuffer t_x t_y fuel count1 bufferPos1

/-- The outer loop of `Server::readTillXComesYTimesData`, with the locals `count`,
`bufferPos` and `dataBuffer`. -/
def readTillXComesYTimesDataLoop (t_clientID : Int) (t_x : Bytes) (t_y : Int) :
    Int → Nat → Bytes → Server → List ReadStep → ReadRun
  | _, _, _, s, [] => ⟨none, s, []⟩
  | count, bufferPos, dataBuffer, s, step :: steps =>
    if step.sel.activity < 0 ∧ step.sel.eintr = false then ⟨some (.error .serverRuntime), s, steps⟩
    else if step.sel.activity = 0 then ⟨some (.error .serverTimeout), s, steps⟩
    else if step.sel.isSet = true then
      match step.rcv with
      | .failed true =>
        readTillXComesYTimesDataLoop t_clientID t_x t_y count bufferPos dataBuffer s steps
      | .failed false => ⟨some (.error .serverRuntime), s, steps⟩
      | .bytes data =>
        if data.length = 0 then ⟨some (.error .serverRuntime), s, steps⟩
        else
          let dataBuffer1 := dataBuffer ++ data
          match scanDelimiters dataBuffer1 t_x t_y (dataBuffer1.length + 1) count bufferPos with
          | .found bufferPos1 =>
            ⟨some (.ok ()), setData s t_clientID (dataBuffer1.take bufferPos1), steps⟩
          | .notYet count1 bufferPos1 =>
            readTillXComesYTimesDataLoop t_clientID t_x t_y count1 bufferPos1 dataBuffer1 s steps
    else readTillXComesYTimesDataLoop t_clientID t_x t_y count bufferPos dataBuffer s steps

def readTillXComesYTimesData (s : Server) (t_clientID : Int) (t_x : Bytes) (t_y : Int)
    (steps : List ReadStep) : ReadRun :=
  match getClientFileDescriptor s t_clientID with
  | .error e => ⟨some (.error e), s, steps⟩
  | .ok clientFileDescriptor =>
    if clientFileDescriptor = -1 then ⟨some (.error .invalidArgument), s, steps⟩
    else
      let s1 := setData s t_clientID []
      if t_x.isEmpty then ⟨some (.error .invalidArgument), s1, steps⟩
      else if t_y ≤ 0 then ⟨some (.error .invalidArgument), s1, steps⟩
      else readTillXComesYTimesDataLoop t_clientID t_x t_y 0 0 [] s1 steps

/-! ### Vocabulary of the read statements -/

/-- The bytes a step's `recv` delivers (none when it fails). -/
def ReadStep.payload (st : ReadStep) : Bytes :=
  match st.rcv with
  | .bytes data => data
  | .failed _ => []

/-- A successful read: `select` reports the descriptor ready and `recv` returns between 1
and `BUFFER_SIZE` bytes. -/
def ReadStep.successful (st : ReadStep) : Bool :=
  decide (0 < st.sel.activity) && st.sel.isSet &&
    decide (1 ≤ st.payload.length ∧ st.payload.length ≤ BUFFER_SIZE) &&
    (match st.rcv with
      | .bytes _ => true
      | .failed _ => false)

/-- The concatenation of the bytes delivered by a sequence of steps. -/
def received (steps : List ReadStep) : Bytes := (steps.map ReadStep.payload).flatten

/-- The scan the spec describes for the delimiter count ("non-overlapping, advancing past
each match"): the position just past the `k`-th occurrence of `d` in `w` when scanning left
to right from `start` and resuming after each match; `none` when `w` holds fewer than `k`
such occurrences. -/
def nthOccurrenceEnd (d w : Bytes) : Nat → Nat → Option Nat
  | 0, start => some start
  | k + 1, start =>
    match find w d start with
    | none => none
    | some pos => nthOccurrenceEnd d w k (pos + d.length)

/-- The piece `p` ends with `d`, and `d` occurs nowhere else in it. -/
def EndsWithOnly (d p : Bytes) : Prop :=
  (∃ a, p = a ++ d) ∧ ∀ a' b', p = a' ++ d ++ b' → b' = []

/-- The buffer `t` consists of exactly `k` consecutive pieces, each ending with its only
occurrence of `d`: it holds exactly `k` non-overlapping occurrences of `d`, the last one
ending at the end of the buffer. -/
def Occurrences (d : Bytes) (k : Nat) (t : Bytes) : Prop :=
  ∃ pieces : List Bytes, pieces.length = k ∧ t = pieces.flatten ∧ ∀ p ∈ pieces, EndsWithOnly d p

/-- A successful read delivering `data`. -/
def readOf (data : String) : ReadStep := ⟨⟨1, false, true⟩, .bytes data.toList⟩

/-- One client, id 0 on descriptor 5 (IPv4, backlog 4). -/
def oneClient : Server :=
  { freshServer 4 with
    m_currentClientID := 1
    m_clientFileDescriptor := UnorderedMap.empty.assign 0 5
    m_clientAddressIpv4 := UnorderedMap.empty.assign 0 ⟨50⟩ }

/-! ## Failure kinds of the bulk reads: vocabulary -/

/-- The structure `epoll_event` as the code uses it: the flag word `events` and the
descriptor kept in `data.fd`. -/
structure Event where
  events : Nat
  fd : Int
  deriving DecidableEq

/-- The values of `errno` after a failed `epoll_ctl` on a valid epoll descriptor; the code
tells `ENOENT` apart from the others. -/
inductive Errno where
  | ENOENT
  | EBADF
  | EEXIST
  | EPERM
  | EINVAL
  deriving DecidableEq

/-- What an open descriptor refers to, as far as `epoll_ctl` tells: a file that can be polled
(a socket, a pipe, a terminal), a file that cannot (a regular file, a directory), or the
epoll instance itself. -/
inductive FileKind where
  | pollable
  | notPollable
  | epollInstance
  deriving DecidableEq

/-- The kernel side of an epoll instance: which descriptors of the process are open, what
each open descriptor refers to (a file that can be polled unless said otherwise), and the
interest list of the instance. -/
structure EpollKernel where
  isOpen : Int → Bool
  interest : List Int
  kind : Int → FileKind := fun _ => .pollable

/-- The call `epoll_ctl(epfd, EPOLL_CTL_DEL, fd, ...)` as `epoll_ctl(2)` documents it: `EBADF`
when `fd` is not a valid descriptor, `EPERM` when its file does not support epoll, `EINVAL`
when it is the epoll descriptor itself, `ENOENT` when it is not registered with the
instance, otherwise the entry is removed. -/
def epoll_ctl_del (e : EpollKernel) (fd : Int) : Except Errno EpollKernel :=
  if fd < 0 ∨ e.isOpen fd = false then .error .EBADF
  else if e.kind fd = .notPollable then .error .EPERM
  else if e.kind fd = .epollInstance then .error .EINVAL
  else if fd ∈ e.interest then .ok { e with interest := e.interest.filter (fun x => x ≠ fd) }
  else .error .ENOENT

/-- The call `epoll_ctl(epfd, EPOLL_CTL_ADD, fd, ...)`: `EBADF` when `fd` is not a valid
descriptor, `EPERM` when its file does not support epoll, `EINVAL` when it is the epoll
descriptor itself, `EEXIST` when it is already registered, otherwise the entry is added. -/
def epoll_ctl_add (e : EpollKernel) (fd : Int) : Except Errno EpollKernel :=
  if fd < 0 ∨ e.isOpen fd = false then .error .EBADF
  else if e.kind fd = .notPollable then .error .EPERM
  else if e.kind fd = .epollInstance then .error .EINVAL
  else if fd ∈ e.interest then .error .EEXIST
  else .ok { e with interest := e.interest ++ [fd] }

/-- The constructor `EventQueue::EventQueue()`; `created` is the value returned by
`epoll_create1(0)`. -/
def EventQueue.Epoll.create (created : Int) : Except Exn EventQueue :=
  if created < 0 then .error .serverRuntime
  else .ok { m_eventQueueFileDescriptor := created }

/-- The private setter `EventQueue::setServerFileDescriptor`. -/
def EventQueue.setServerFileDescriptor (q : EventQueue) (t_serverFileDescriptor : Int) :
    Except Exn EventQueue :=
  if t_serverFileDescriptor < 0 then .error .invalidArgument
  else .ok { q with m_serverFileDescriptor := t_serverFileDescriptor }

/-- The call `EventQueue::setServer` against the kernel state `e`. -/
def EventQueue.Epoll.setServer (q : EventQueue) (e : EpollKernel) (t_serverFileDescriptor : Int) :
    Except Exn EventQueue × EpollKernel :=
  match q.setServerFileDescriptor t_serverFileDescriptor with
  | .error x => (.error x, e)
  | .ok q1 =>
    match epoll_ctl_add e q1.m_serverFileDescriptor with
    | .error _ => (.error .serverRuntime, e)
    | .ok e1 => (.ok q1, e1)

/-- The call `EventQueue::addClient` against the kernel state `e`. -/
def EventQueue.Epoll.addClient (e : EpollKernel) (t_clientFileDescriptor : Int) :
    Except Exn Unit × EpollKernel :=
  match epoll_ctl_add e t_clientFileDescriptor with
  | .error _ => (.error .serverRuntime, e)
  | .ok e1 => (.ok (), e1)

/-- The call `EventQueue::removeClient` against the kernel state `e`: a failure of
`epoll_ctl` is raised unless `errno` is `ENOENT`. -/
def EventQueue.Epoll.removeClient (e : EpollKernel) (t_clientFileDescriptor : Int) :
    Except Exn Unit × EpollKernel :=
  match epoll_ctl_del e t_clientFileDescriptor with
  | .ok e1 => (.ok (), e1)
  | .error errno => if errno ≠ .ENOENT then (.error .serverRuntime, e) else (.ok (), e)

/-- The constant `Constants::MAX_EVENTS`. -/
def MAX_EVENTS : Nat := 2048

/-- The constant `Constants::EVENT_ERROR`. -/
def EVENT_ERROR : Int := -1

/-- What one `epoll_wait` reports: `-1`, or the list of ready events. -/
inductive WaitResult where
  | failed
  | events (l : List Event)
  deriving DecidableEq

/-- The call `epoll_wait(epfd, events.data(), MAX_EVENTS, timeout)`: its return value and the
events it wrote to the front of the array (never more than `MAX_EVENTS`). -/
def epollWait (w : WaitResult) : Int × List Event :=
  match w with
  | .failed => (-1, [])
  | .events l => (((l.take MAX_EVENTS).length : Int), l.take MAX_EVENTS)

/-- The value `max_size()` of a `std::vector<epoll_event>`: `PTRDIFF_MAX` divided by the
size of an element (12 bytes on x86-64). -/
def vectorMaxSize : Nat := (2 ^ 63 - 1) / 12

/-- The value-initialised `epoll_event`. -/
def Event.zero : Event := ⟨0, 0⟩

/-- The statement `events.resize(count)` on the vector of `MAX_EVENTS` elements whose front
holds `written`: the `int` is converted to the unsigned `size_type`, and a size beyond
`max_size()` throws `std::length_error`. -/
def vectorResize (count : Int) (written : List Event) : Except Exn (List Event) :=
  let n : Nat := (count % 2 ^ 64).toNat
  let v := written ++ List.replicate (MAX_EVENTS - written.length) Event.zero
  if n > vectorMaxSize then .error .lengthError
  else if n ≤ v.length then .ok (v.take n)
  else .ok (v ++ List.replicate (n - v.length) Event.zero)

/-- The `for` loop of `pollEvents()` over the events of one wait: an event on a descriptor
above 2 is appended to `filteredEvents`, any other descriptor is deregistered (a failure
other than `ENOENT` raises `ServerRuntime`). -/
def EventQueue.Epoll.filterEvents :
    List Event → EpollKernel → List Event → Except Exn (List Event) × EpollKernel
  | [], e, filteredEvents => (.ok filteredEvents, e)
  | ev :: evs, e, filteredEvents =>
    if ev.fd > 2 then EventQueue.Epoll.filterEvents evs e (filteredEvents ++ [ev])
    else
      match epoll_ctl_del e ev.fd with
      | .ok e1 => EventQueue.Epoll.filterEvents evs e1 filteredEvents
      | .error errno =>
        if errno ≠ .ENOENT then (.error .serverRuntime, e)
        else EventQueue.Epoll.filterEvents evs e filteredEvents

/-- How a poll ends on a recorded sequence of kernel waits: `outcome` is `none` when the call
is still waiting after the last recorded wait. -/
structure PollRun where
  outcome : Option (Except Exn (List Event))
  kernel : EpollKernel
  rest : List WaitResult

/-- The call `EventQueue::pollEvents()` of the epoll backend, on the results of the
successive `epoll_wait` calls. -/
def EventQueue.Epoll.pollEvents : List WaitResult → EpollKernel → PollRun
  | [], e => ⟨none, e, []⟩
  | w :: ws, e =>
    match vectorResize (epollWait w).1 (epollWait w).2 with
    | .error x => ⟨some (.error x), e, ws⟩
    | .ok events =>
      if (epollWait w).1 = EVENT_ERROR then ⟨some (.error .serverRuntime), e, ws⟩
      else
        match EventQueue.Epoll.filterEvents events e [] with
        | (.error x, e1) => ⟨some (.error x), e1, ws⟩
        | (.ok filteredEvents, e1) =>
          if filteredEvents ≠ [] then ⟨some (.ok filteredEvents), e1, ws⟩
          else EventQueue.Epoll.pollEvents ws e1

/-- The flag `EPOLLERR` of `sys/epoll.h`. -/
def EPOLLERR : Nat := 0x008

/-- The flag `EPOLLHUP` of `sys/epoll.h`. -/
def EPOLLHUP : Nat := 0x010

/-- The flag `EPOLLRDHUP` of `sys/epoll.h`. -/
def EPOLLRDHUP : Nat := 0x2000

/-- The flag `EPOLLIN` of `sys/epoll.h`. -/
def EPOLLIN : Nat := 0x001

def EventQueue.hasAnError (t_event : Event) : Bool :=
  (t_event.events &&& (EPOLLERR ||| EPOLLHUP ||| EPOLLRDHUP)) != 0

def EventQueue.isServerEvent (q : EventQueue) (t_event : Event) : Bool :=
  t_event.fd == q.m_serverFileDescriptor

def EventQueue.isClientEvent (q : EventQueue) (t_event : Event) : Bool :=
  t_event.fd != q.m_serverFileDescriptor

def EventQueue.getClientFileDescriptor (t_event : Event) : Int := t_event.fd

/-! ## The event queue, kqueue backend (`eventQueue.cpp` lines 85-117) -/

/-- The structure `kevent` as the code uses it; `ident` is unsigned. -/
structure KEvent where
  ident : Nat
  flags : Nat
  deriving DecidableEq

/-- What one `kevent` wait reports: `-1`, or the list of ready events. -/
inductive KWaitResult where
  | failed
  | events (l : List KEvent)
  deriving DecidableEq

/-- The `for` loop of the kqueue `pollEvents()`; `removal ident` is the `errno` of the
`kevent` call that deregisters `ident`, `none` when it succeeds. -/
def EventQueue.Kqueue.filterEvents (removal : Nat → Option Errno) :
    List KEvent → List KEvent → Except Exn (List KEvent)
  | [], filteredEvents => .ok filteredEvents
  | ev :: evs, filteredEvents =>
    if ev.ident > 2 then EventQueue.Kqueue.filterEvents removal evs (filteredEvents ++ [ev])
    else
      match removal ev.ident with
      | none => EventQueue.Kqueue.filterEvents removal evs filteredEvents
      | some errno =>
        if errno ≠ .ENOENT then .error .serverRuntime
        else EventQueue.Kqueue.filterEvents removal evs filteredEvents

/-- The call `EventQueue::pollEvents()` of the kqueue backend: the result of the wait is
checked before the vector is resized. -/
def EventQueue.Kqueue.pollEvents (w : KWaitResult) (removal : Nat → Option Errno) :
    Except Exn (List KEvent) :=
  match w with
  | .failed => .error .serverRuntime
  | .events l => EventQueue.Kqueue.filterEvents removal (l.take MAX_EVENTS) []

/-! ## Pending events (`server.cpp` lines 994-1015) -/

/-- The enumeration `EventType` of `constants.hpp`. -/
inductive EventType where
  | ERROR
  | CLIENT_WANTS_TO_CONNECT
  | CLIENT_WANTS_TO_SEND_DATA
  deriving DecidableEq

/-- The type `eventTuple`: an event type and a client id. -/
abbrev EventTuple := EventType × Int

def getEventQueue (s : Server) : Option EventQueue := s.m_eventQueue

/-- The `for` loop of `Server::getPendingEvents` over the polled events, `returnEvents` being
the vector built so far; `q` is the object behind `getEventQueue()` and `order` the iteration
order of the descriptor map used by `getClientID`.  An exception of `getClientID` leaves the
function. -/
def translateEvents (order : List Int) (s : Server) (q : EventQueue) :
    List Event → List EventTuple → Except Exn (List EventTuple)
  | [], returnEvents => .ok returnEvents
  | e :: es, returnEvents =>
    if EventQueue.hasAnError e then
      translateEvents order s q es (returnEvents ++ [(EventType.ERROR, -1)])
    else if q.isServerEvent e then
      translateEvents order s q es (returnEvents ++ [(EventType.CLIENT_WANTS_TO_CONNECT, -1)])
    else
      match getClientID order s (EventQueue.getClientFileDescriptor e) with
      | .error x => .error x
      | .ok id =>
        translateEvents order s q es (returnEvents ++ [(EventType.CLIENT_WANTS_TO_SEND_DATA, id)])

/-- The call `Server::getPendingEvents` (epoll backend) on the recorded kernel waits: `none`
while `pollEvents()` is still waiting. -/
def getPendingEvents (order : List Int) (s : Server) (q : EventQueue) (waits : List WaitResult)
    (e : EpollKernel) : Option (Except Exn (List EventTuple)) :=
  match (EventQueue.Epoll.pollEvents waits e).outcome with
  | none => none
  | some (.error x) => some (.error x)
  | some (.ok pendingEvents) => some (translateEvents order s q pendingEvents [])

/-- How one polled event and the tuple returned for it are related. -/
def Translates (s : Server) (q : EventQueue) (e : Event) (t : EventTuple) : Prop :=
  (EventQueue.hasAnError e = true → t = (EventType.ERROR, -1)) ∧
  (EventQueue.hasAnError e = false → q.isServerEvent e = true →
    t = (EventType.CLIENT_WANTS_TO_CONNECT, -1)) ∧
  (EventQueue.hasAnError e = false → q.isServerEvent e = false →
    t.1 = EventType.CLIENT_WANTS_TO_SEND_DATA ∧
      s.m_clientFileDescriptor t.2 = some (EventQueue.getClientFileDescriptor e))

/-- A kernel in which the descriptors in `opened` are open, all of them sockets, and those
in `registered` are on the interest list. -/
def epollWith (opened registered : List Int) : EpollKernel :=
  { isOpen := fun fd => decide (fd ∈ opened), interest := registered }

/-- A readable event on descriptor `fd`. -/
def readable (fd : Int) : Event := ⟨EPOLLIN, fd⟩

/-- The server `threeClients 4` once started: its event queue has descriptor 4 and watches
the listener 3. -/
def pollingServer : Server := { threeClients 4 with m_eventQueue := some ⟨4, 3⟩ }

/-- A kernel report on the listener and on two clients: the listener readable, the listener
hung up, client descriptor 6 readable, client descriptor 7 hung up. -/
def pollingEvents : List Event :=
  [readable 3, ⟨EPOLLIN ||| EPOLLHUP, 3⟩, readable 6, ⟨EPOLLHUP, 7⟩]

/-! ## The event queue, epoll backend: `pollEvents(t_timeout)` (`eventQueue.cpp` lines 277-309) -/

/-- One turn of the deadline loop: what `epoll_wait` reports in it, and the reading of the
steady clock (in nanoseconds) that `now = std::chrono::steady_clock::now()` takes at its
end. -/
structure TimedWait where
  wait : WaitResult
  now : Int
  deriving DecidableEq

/-- The conversion of a 64-bit count to `int`. -/
def toInt32 (x : Int) : Int := (x + 2 ^ 31) % 2 ^ 32 - 2 ^ 31

/-- The value `remainingTime`: `duration_cast<milliseconds>(timeout - now).count()`, which
truncates towards zero, stored in an `int`. -/
def remainingTime (timeout now : Int) : Int := toInt32 ((timeout - now).tdiv 1000000)

/-- The `while (now < timeout)` loop of `pollEvents(t_timeout)` and the `return` after it;
`none` when the recorded turns end while the loop is still running. -/
def EventQueue.Epoll.pollEventsUntil (timeout : Int) :
    Int → List Event → List TimedWait → Option (Except Exn (List Event))
  | now, filteredEvents, [] => if now < timeout then none else some (.ok filteredEvents)
  | now, filteredEvents, st :: rest =>
    if now < timeout then
      match vectorResize (epollWait st.wait).1 (epollWait st.wait).2 with
      | .error x => some (.error x)
      | .ok events =>
        if (epollWait st.wait).1 = EVENT_ERROR then some (.error .serverRuntime)
        else if remainingTime timeout now ≤ 0 then some (.ok events)
        else
          EventQueue.Epoll.pollEventsUntil timeout st.now
            (events.filter (fun ev => decide (ev.fd > 2))) rest
    else some (.ok filteredEvents)

/-- The call `EventQueue::pollEvents(t_timeout)` of the epoll backend; `now` is the first
reading of the steady clock, in nanoseconds, and the deadline is `t_timeout` milliseconds
later. -/
def EventQueue.Epoll.pollEventsWithin (t_timeout : Int) (now : Int) (steps : List TimedWait) :
    Option (Except Exn (List Event)) :=
  EventQueue.Epoll.pollEventsUntil (now + t_timeout * 1000000) now [] steps

/-- Every turn of `steps` starts before the deadline with at least one whole millisecond
left, and its wait reports at most `MAX_EVENTS` events; `now` is the clock reading before the
first turn. -/
def WaitsBeforeDeadline (timeout : Int) : Int → List TimedWait → Prop
  | _, [] => True
  | now, st :: rest =>
    now < timeout ∧ 1 ≤ remainingTime timeout now ∧
    (∃ l, st.wait = .events l ∧ l.length ≤ MAX_EVENTS) ∧
    WaitsBeforeDeadline timeout st.now rest

/-! ## Construction (`server.cpp` lines 3-145, 444-492, 1073-1080) -/

/-- The constant `Domain::LOCAL_DOMAIN`: `PF_LOCAL`, 1 on Linux. -/
def LOCAL_DOMAIN : Int := 1

/-- The constant `Domain::IPV4_DOMAIN`: `PF_INET`, 2 on Linux. -/
def IPV4_DOMAIN : Int := 2

/-- The constant `Domain::IPV6_DOMAIN`: `PF_INET6`, 10 on Linux. -/
def IPV6_DOMAIN : Int := 10

/-- The constant `Constants::DEFAULT_TIMEOUT`. -/
def DEFAULT_TIMEOUT : Timeval := ⟨60, 0⟩

def getDomain (s : Server) : Int := s.m_domain

def getPort (s : Server) : Nat := s.m_port

def getLocalServerSocketPath (s : Server) : Bytes := s.m_localServerSocketPath

def getTimeout (s : Server) : Timeval := s.m_timeout

def setServerFileDescriptor (s : Server) (t_serverFileDescriptor : Int) : Except Exn Server :=
  if t_serverFileDescriptor = -1 then .error .invalidArgument
  else .ok { s with m_serverFileDescriptor := t_serverFileDescriptor }

def setUsesIpv4Domain (s : Server) (t_usesIpv4Domain : Bool) : Server :=
  { s with m_usesIpv4Domain := t_usesIpv4Domain }

def setUsesIpv6Domain (s : Server) (t_usesIpv6Domain : Bool) : Server :=
  { s with m_usesIpv6Domain := t_usesIpv6Domain }

def setUsesLocalDomain (s : Server) (t_usesLocalDomain : Bool) : Server :=
  { s with m_usesLocalDomain := t_usesLocalDomain }

def setIsServerOnline (s : Server) (t_isServerOnline : Bool) : Server :=
  { s with m_isServerOnline := t_isServerOnline }

def setLocalServerSocketPath (s : Server) (t_localServerSocketPath : Bytes) : Except Exn Server :=
  if t_localServerSocketPath.isEmpty then .error .invalidArgument
  else if t_localServerSocketPath.length > 104 then .error .invalidArgument
  else .ok { s with m_localServerSocketPath := t_localServerSocketPath }

def setDomain (s : Server) (t_domain : Int) : Except Exn Server :=
  if t_domain ≠ IPV4_DOMAIN ∧ t_domain ≠ IPV6_DOMAIN ∧ t_domain ≠ LOCAL_DOMAIN then
    .error .invalidDomain
  else .ok { s with m_domain := t_domain }

/-- The setter `Server::setPort`; the type `port` is `uint16_t`. -/
def setPort (s : Server) (t_port : Fin 65536) : Except Exn Server :=
  if (t_port.val : Int) < 0 ∨ (t_port.val : Int) > 65535 then .error .invalidArgument
  else .ok { s with m_port := t_port.val }

def setMaximumCurrentConnections (s : Server) (t_maximumCurrentConnections : Int) :
    Except Exn Server :=
  if t_maximumCurrentConnections ≤ 0 then .error .invalidArgument
  else .ok { s with m_maximumCurrentConnections := t_maximumCurrentConnections }

def setStartTime (s : Server) (t_startTime : Int) : Except Exn Server :=
  if t_startTime < 0 then .error .invalidArgument
  else .ok { s with m_startTime := t_startTime }

def setStartDate (s : Server) (t_startDate : Bytes) : Except Exn Server :=
  if t_startDate.isEmpty then .error .invalidArgument
  else .ok { s with m_startDate := t_startDate }

/-- The setter `Server::setServerAddressIpv4`; `none` is the null pointer. -/
def setServerAddressIpv4 (s : Server) (t_serverAddressIpv4 : Option SockAddr) :
    Except Exn Server :=
  match t_serverAddressIpv4 with
  | none => .error .invalidArgument
  | some a => .ok { s with m_serverAddressIpv4 := some a }

/-- The setter `Server::setServerAddressIpv6`; `none` is the null pointer. -/
def setServerAddressIpv6 (s : Server) (t_serverAddressIpv6 : Option SockAddr) :
    Except Exn Server :=
  match t_serverAddressIpv6 with
  | none => .error .invalidArgument
  | some a => .ok { s with m_serverAddressIpv6 := some a }

/-- The setter `Server::setServerAddressLocal`; `none` is the null pointer. -/
def setServerAddressLocal (s : Server) (t_serverAddressLocal : Option SockAddrUn) :
    Except Exn Server :=
  match t_serverAddressLocal with
  | none => .error .invalidArgument
  | some a => .ok { s with m_serverAddressLocal := some a }

/-- The setter `Server::setEventQueue`; `none` is the null pointer. -/
def setEventQueue (s : Server) (t_eventQueue : Option EventQueue) : Except Exn Server :=
  match t_eventQueue with
  | none => .error .invalidArgument
  | some q => .ok { s with m_eventQueue := some q }

/-- The setter `Server::setTimeout`: the outcome and the object after the call. -/
def setTimeout (s : Server) (t_timeout : Timeval) : Except Exn Unit × Server :=
  if t_timeout.tv_sec < 0 ∨ t_timeout.tv_usec < 0 ∨ t_timeout.tv_usec > 999999 then
    (.error .invalidArgument, s)
  else (.ok (), { s with m_timeout := t_timeout })

/-- The tail common to both constructors: `setTimeout(DEFAULT_TIMEOUT)`, whose exception
would leave the constructor. -/
def Server.finish (s : Server) : Except Exn Server :=
  match setTimeout s DEFAULT_TIMEOUT with
  | (.error x, _) => .error x
  | (.ok (), s1) => .ok s1

/-- The constructor `Server(t_domain, t_port, t_maximumCurrentConnections)`.  The members
start from the initialisers of the header; `m_timeout` has none, `garbage` is its
indeterminate first value.  The `catch` clause rethrows what it catches, and an
`InvalidDomain` passes it by. -/
def Server.ofDomain (garbage : Timeval) (t_domain : Int) (t_port : Fin 65536)
    (t_maximumCurrentConnections : Int) : Except Exn Server :=
  match setDomain { m_timeout := garbage } t_domain with
  | .error x => .error x
  | .ok s1 =>
    match setPort s1 t_port with
    | .error x => .error x
    | .ok s2 =>
      match setMaximumCurrentConnections s2 t_maximumCurrentConnections with
      | .error x => .error x
      | .ok s3 =>
        if getDomain s3 = IPV4_DOMAIN then
          (setUsesLocalDomain (setUsesIpv6Domain (setUsesIpv4Domain s3 true) false) false).finish
        else if getDomain s3 = IPV6_DOMAIN then
          (setUsesLocalDomain (setUsesIpv6Domain (setUsesIpv4Domain s3 false) true) false).finish
        else .error .invalidDomain

/-- The constructor `Server(t_socketPath, t_port, t_maximumCurrentConnections)`. -/
def Server.ofSocketPath (garbage : Timeval) (t_socketPath : Bytes) (t_port : Fin 65536)
    (t_maximumCurrentConnections : Int) : Except Exn Server :=
  match setDomain { m_timeout := garbage } LOCAL_DOMAIN with
  | .error x => .error x
  | .ok s1 =>
    match setLocalServerSocketPath s1 t_socketPath with
    | .error x => .error x
    | .ok s2 =>
      match setPort s2 t_port with
      | .error x => .error x
      | .ok s3 =>
        match setMaximumCurrentConnections s3 t_maximumCurrentConnections with
        | .error x => .error x
        | .ok s4 =>
          (setUsesLocalDomain (setUsesIpv6Domain (setUsesIpv4Domain s4 false) false) true).finish

/-- Exactly one of the three domain flags is set, and it is the one of the domain tag. -/
def DomainFlagsMatch (s : Server) : Prop :=
  [s.m_usesIpv4Domain, s.m_usesIpv6Domain, s.m_usesLocalDomain].count true = 1 ∧
  (s.m_usesIpv4Domain = true ↔ s.m_domain = IPV4_DOMAIN) ∧
  (s.m_usesIpv6Domain = true ↔ s.m_domain = IPV6_DOMAIN) ∧
  (s.m_usesLocalDomain = true ↔ s.m_domain = LOCAL_DOMAIN)

/-! ## Starting the server (`server.cpp` lines 499-586) -/

/-- The character that ends a C string. -/
def NUL : Char := Char.ofNat 0

/-- The call `std::string::c_str()`: the bytes of the string followed by the terminator. -/
def c_str (s : Bytes) : Bytes := s ++ [NUL]

/-- The C string that starts at the front of a character array: the bytes before the first
terminator. -/
def cString (buf : Bytes) : Bytes := buf.takeWhile (fun c => c != NUL)

/-- The call `strncpy(dest, src, n)`: the first `n` characters of the C string at `src`, padded
with terminators to `n` characters, are written over the front of `dest`. -/
def strncpy (dest src : Bytes) (n : Nat) : Bytes :=
  let copied := (cString src).take n
  copied ++ List.replicate (n - copied.length) NUL ++ dest.drop n

/-- The size of the array `sun_path` of `sockaddr_un` (Linux). -/
def SUN_PATH_SIZE : Nat := 108

/-- What the platform answers while `startServer` runs.
* `sizeofString`: the value of `sizeof(std::string)` (32 with libstdc++ on x86-64);
* `socketResult`, `setsockoptResult`, `unlinkResult`, `bindResult`, `epollCreateResult`,
  `timeResult`: the values returned by the calls of these names;
* `unlinkNoEntry`: `errno` is `ENOENT` after `unlink`;
* `epoll`: the descriptor table and the interest list of the new epoll instance;
* `currentDate`, `currentTime`: the strings of `ExtendedSystem`, `none` when `localtime`
  returns a null pointer. -/
structure Platform where
  sizeofString : Nat
  socketResult : Int
  setsockoptResult : Int
  unlinkResult : Int
  unlinkNoEntry : Bool
  bindResult : Int
  epollCreateResult : Int
  epoll : EpollKernel
  timeResult : Int
  currentDate : Option Bytes
  currentTime : Option Bytes

/-- The first statements of `startServer`: `socket` and `setsockopt`. -/
def startServer.openSocket (p : Platform) (s : Server) : Except Exn Unit × Server :=
  match setServerFileDescriptor (s.log (.socket (getDomain s))) p.socketResult with
  | .error _ => (.error .serverCreation, s.log (.socket (getDomain s)))
  | .ok s1 =>
    if p.setsockoptResult = -1 then
      (.error .serverCreation,
        (s1.log (.setsockopt (getServerFileDescriptor s1))).log
          (.close (getServerFileDescriptor s1)))
    else (.ok (), s1.log (.setsockopt (getServerFileDescriptor s1)))

/-- The `if` chain of `startServer` over the domain flags: the address record is filled and
bound.  An IP address record is identified by its port; the LOCAL record holds the array
`sun_path`, zeroed and then written by `strncpy` with `sizeof(getLocalServerSocketPath())` as
the count. -/
def startServer.bindAddress (p : Platform) (s : Server) : Except Exn Unit × Server :=
  if usesIpv4Domain s then
    if p.bindResult = -1 then
      (.error .serverCreation,
        (s.log (.bindInet (getServerFileDescriptor s) (getPort s))).log
          (.close (getServerFileDescriptor s)))
    else
      match setServerAddressIpv4 (s.log (.bindInet (getServerFileDescriptor s) (getPort s)))
          (some ⟨getPort s⟩) with
      | .error x => (.error x, s.log (.bindInet (getServerFileDescriptor s) (getPort s)))
      | .ok s1 => (.ok (), s1)
  else if usesIpv6Domain s then
    if p.bindResult = -1 then
      (.error .serverCreation,
        (s.log (.bindInet (getServerFileDescriptor s) (getPort s))).log
          (.close (getServerFileDescriptor s)))
    else
      match setServerAddressIpv6 (s.log (.bindInet (getServerFileDescriptor s) (getPort s)))
          (some ⟨getPort s⟩) with
      | .error x => (.error x, s.log (.bindInet (getServerFileDescriptor s) (getPort s)))
      | .ok s1 => (.ok (), s1)
  else if usesLocalDomain s then
    let serverAddressLocal : SockAddrUn :=
      { sun_family := getDomain s,
        sun_path := strncpy (List.replicate SUN_PATH_SIZE NUL)
          (c_str (getLocalServerSocketPath s)) p.sizeofString }
    let s1 := s.log (.unlink (cString (c_str (getLocalServerSocketPath s))))
    if p.unlinkResult = -1 ∧ p.unlinkNoEntry = false then (.error .serverCreation, s1)
    else
      let s2 := s1.log (.bindLocal (getServerFileDescriptor s) serverAddressLocal)
      if p.bindResult = -1 then (.error .serverCreation, s2)
      else
        match setServerAddressLocal s2 (some serverAddressLocal) with
        | .error x => (.error x, s2)
        | .ok s3 => (.ok (), s3)
  else (.ok (), s)

/-- The `catch (ServerRuntimeException &)` clause of `startServer`: that kind becomes
`ServerCreation`, any other passes. -/
def startServer.convert (x : Exn) : Exn :=
  if x = .serverRuntime then .serverCreation else x

/-- The `try` block of `startServer` that creates the event queue and registers the
listener. -/
def startServer.openEventQueue (p : Platform) (s : Server) : Except Exn Unit × Server :=
  match EventQueue.Epoll.create p.epollCreateResult with
  | .error x => (.error (startServer.convert x), s.log .epollCreate)
  | .ok q =>
    match (EventQueue.Epoll.setServer q p.epoll (getServerFileDescriptor s)).1 with
    | .error x =>
      (.error (startServer.convert x),
        if getServerFileDescriptor s < 0 then s.log .epollCreate
        else (s.log .epollCreate).log (.epollCtlAdd (getServerFileDescriptor s)))
    | .ok q1 =>
      match setEventQueue ((s.log .epollCreate).log (.epollCtlAdd (getServerFileDescriptor s)))
          (some q1) with
      | .error x => (.error (startServer.convert x), s.log .epollCreate)
      | .ok s1 => (.ok (), s1)

/-- The last three statements of `startServer`. -/
def startServer.goOnline (p : Platform) (s : Server) : Except Exn Unit × Server :=
  match setStartTime (setIsServerOnline s true) p.timeResult with
  | .error x => (.error x, setIsServerOnline s true)
  | .ok s1 =>
    match p.currentDate, p.currentTime with
    | some date, some time =>
      match setStartDate s1 (date ++ [' '] ++ time) with
      | .error x => (.error x, s1)
      | .ok s2 => (.ok (), s2)
    | _, _ => (.error .systemRuntime, s1)

/-- The call `Server::startServer`: the outcome and the object after the call. -/
def startServer (p : Platform) (s : Server) : Except Exn Unit × Server :=
  match startServer.openSocket p s with
  | (.error x, s1) => (.error x, s1)
  | (.ok (), s1) =>
    match startServer.bindAddress p s1 with
    | (.error x, s2) => (.error x, s2)
    | (.ok (), s2) =>
      match startServer.openEventQueue p s2 with
      | (.error x, s3) => (.error x, s3)
      | (.ok (), s3) => startServer.goOnline p s3

/-- A platform on which every call of `startServer` succeeds: `socket` returns 3, the epoll
instance gets descriptor 4, and `sizeof(std::string)` is 32. -/
def linuxPlatform : Platform :=
  { sizeofString := 32, socketResult := 3, setsockoptResult := 0, unlinkResult := -1,
    unlinkNoEntry := true, bindResult := 0, epollCreateResult := 4,
    epoll := epollWith [3, 4] [], timeResult := 1700000000,
    currentDate := some "30.10.2026".toList, currentTime := some "12:00:00".toList }

/-- A socket path of 33 bytes: `/tmp/` followed by 28 letters. -/
def longSocketPath : Bytes := "/tmp/".toList ++ List.replicate 28 'a'

/-! ## Sequences of calls on the registry -/

/-- One call on the registry: `acceptClient`, or the compaction `rearrangeClientIDs` alone,
with the kernel's answers during the call. -/
inductive RegistryCall where
  | accept (k : Kernel)
  | compact (k : Kernel)

/-- The object after one call, whatever the call's outcome. -/
def RegistryCall.run : RegistryCall → Server → Server
  | .accept k, s => (acceptClient k s).2
  | .compact k, s => (rearrangeClientIDs k s).2

/-- The object after a sequence of calls. -/
def runCalls : List RegistryCall → Server → Server
  | [], s => s
  | c :: cs, s => runCalls cs (c.run s)

/-- The server `threeClients 4` with the payloads "A", "B", "C" stored under the ids 0, 1,
2. -/
def threeClientsWithData : Server :=
  { threeClients 4 with
    m_data := ((UnorderedMap.empty.assign 0 ['A']).assign 1 ['B']).assign 2 ['C'] }

/-! ## The disconnect test on recorded peeks (`server.cpp` lines 1037-1060) -/

/-- What one `recv(fd, buffer, sizeof(buffer), MSG_PEEK | MSG_DONTWAIT)` of `isDisconnected`
reports: its return value, and whether `errno` is `EAGAIN` or `EWOULDBLOCK` afterwards. -/
structure PeekOutcome where
  bytesRead : Int
  again : Bool
  deriving DecidableEq

/-- The peek that answers "would block". -/
def wouldBlock : PeekOutcome := ⟨-1, true⟩

/-- The call `Server::isDisconnected` on the recorded answers of its successive peeks:
`none` when the loop is still retrying after the last recorded answer.  A peek on a negative
descriptor needs no answer from the record: it fails with `EBADF`. -/
def isDisconnectedPeeks (s : Server) (t_clientID : Int) :
    List PeekOutcome → Option (Except Exn Bool)
  | [] =>
    match getClientFileDescriptor s t_clientID with
    | .error e => some (.error e)
    | .ok fd => if fd < 0 then some (.ok true) else none
  | p :: ps =>
    match getClientFileDescriptor s t_clientID with
    | .error e => some (.error e)
    | .ok fd =>
      if fd < 0 then some (.ok true)
      else if p.bytesRead = 0 then some (.ok true)
      else if p.bytesRead = -1 then
        if p.again = true then isDisconnectedPeeks s t_clientID ps
        else some (.ok true)
      else some (.ok false)

/-! ## Stopping the server (`server.cpp` lines 494-497, 596-618) -/

def isServerOnline (s : Server) : Bool := s.m_isServerOnline

def getStartTime (s : Server) : Int := s.m_startTime

/-- The `for` loop of `Server::stopServer`, entered at index `i` with at most `n` iterations
left; the disconnect test is taken by its verdict, as in the compaction. -/
def stopServerLoop (k : Kernel) : Nat → Int → Server → Except Exn Unit × Server
  | 0, _, s => (.ok (), s)
  | n + 1, i, s =>
    if i < getCurrentClientID s then
      match isDisconnected k s i with
      | .error e => (.error e, s)
      | .ok true => stopServerLoop k n (i + 1) s
      | .ok false =>
        match getClientFileDescriptor s i with
        | .error e => (.error e, s)
        | .ok fd => stopServerLoop k n (i + 1) (s.log (.close fd))
    else (.ok (), s)

/-- The value of `close(fd)` on the listener: `-1` on a negative descriptor (`EBADF`) and
when the kernel reports a failure, `0` otherwise. -/
def closeListener (closeFails : Bool) (fd : Int) : Int :=
  if fd < 0 ∨ closeFails = true then -1 else 0

/-- The call `Server::stopServer`: the outcome and the object after the call.  The `catch`
clause around the loop rethrows what it catches. -/
def stopServer (k : Kernel) (closeFails : Bool) (s : Server) : Except Exn Unit × Server :=
  match stopServerLoop k (getCurrentClientID s).toNat 0 s with
  | (.error e, s1) => (.error e, s1)
  | (.ok (), s1) =>
    if closeListener closeFails (getServerFileDescriptor s1) = -1 then
      (.error .serverRuntime, s1.log (.close (getServerFileDescriptor s1)))
    else
      match setStartTime
          (setIsServerOnline (s1.log (.close (getServerFileDescriptor s1))) false) 0 with
      | .error e =>
        (.error e, setIsServerOnline (s1.log (.close (getServerFileDescriptor s1))) false)
      | .ok s2 => (.ok (), s2)

/-- The destructor `~Server()`, which calls `stopServer`: the object as it is destroyed, or
`none` when an exception leaves the destructor and the program is terminated. -/
def Server.destructor (k : Kernel) (closeFails : Bool) (s : Server) : Option Server :=
  match stopServer k closeFails s with
  | (.ok (), s1) => some s1
  | (.error _, _) => none

/-- Every slot below next-id has an entry in the descriptor map. -/
def SlotsPresent (s : Server) : Prop :=
  ∀ i : Int, 0 ≤ i → i < getCurrentClientID s → (s.m_clientFileDescriptor i).isSome = true

/-- The server `threeClients 4` online since the time 1700000000. -/
def onlineServer : Server :=
  { threeClients 4 with m_isServerOnline := true, m_startTime := 1700000000 }

/-- A server as `Server(IPV4_DOMAIN, 8080, 4)` constructs it, not started. -/
def neverStarted : Server :=
  { m_timeout := DEFAULT_TIMEOUT, m_domain := IPV4_DOMAIN, m_port := 8080,
    m_maximumCurrentConnections := 4, m_usesIpv4Domain := true }

/-! ## The client (`client.cpp` lines 3-158, 191-207) -/

/-- The private fields of `class Client` (`src/include/client.hpp`) that the modelled
functions touch, with the initialisers of the header (`m_serverPort` is a `uint16_t`
initialised with `-1`). -/
structure Client where
  m_serverFileDescriptor : Int := -1
  m_serverDomain : Int := -1
  m_serverPort : Nat := 65535
  m_serverSocketPath : Bytes := []
  m_data : Bytes := []
  m_usesIpv4Domain : Bool := false
  m_usesIpv6Domain : Bool := false
  m_usesLocalDomain : Bool := false
  m_timeout : Timeval := DEFAULT_TIMEOUT
  deriving DecidableEq

def Client.setServerDomain (c : Client) (t_domain : Int) : Except Exn Client :=
  if t_domain ≠ IPV4_DOMAIN ∧ t_domain ≠ IPV6_DOMAIN ∧ t_domain ≠ LOCAL_DOMAIN then
    .error .invalidDomain
  else .ok { c with m_serverDomain := t_domain }

/-- The setter `Client::setServerPort`; the type `port` is `uint16_t`. -/
def Client.setServerPort (c : Client) (t_port : Fin 65536) : Except Exn Client :=
  if (t_port.val : Int) < 0 ∨ (t_port.val : Int) > 65535 then .error .invalidArgument
  else .ok { c with m_serverPort := t_port.val }

def Client.setServerSocketPath (c : Client) (t_socketPath : Bytes) : Except Exn Client :=
  if t_socketPath.isEmpty then .error .invalidArgument
  else .ok { c with m_serverSocketPath := t_socketPath }

def Client.setUsesIpv4Domain (c : Client) (t_usesIpv4Domain : Bool) : Client :=
  { c with m_usesIpv4Domain := t_usesIpv4Domain }

def Client.setUsesIpv6Domain (c : Client) (t_usesIpv6Domain : Bool) : Client :=
  { c with m_usesIpv6Domain := t_usesIpv6Domain }

def Client.setUsesLocalDomain (c : Client) (t_usesLocalDomain : Bool) : Client :=
  { c with m_usesLocalDomain := t_usesLocalDomain }

def Client.setTimeout (c : Client) (t_timeout : Timeval) : Except Exn Client :=
  if t_timeout.tv_sec < 0 ∨ t_timeout.tv_usec < 0 ∨ t_timeout.tv_usec > 999999 then
    .error .invalidArgument
  else .ok { c with m_timeout := t_timeout }

def Client.setData (c : Client) (t_data : Bytes) : Client := { c with m_data := t_data }

def Client.getData (c : Client) : Bytes := c.m_data

def Client.getServerFileDescriptor (c : Client) : Int := c.m_serverFileDescriptor

def Client.getServerSocketPath (c : Client) : Bytes := c.m_serverSocketPath

/-- The constructor `Client(t_socketPath, t_port)`.  The `catch` clause rethrows what it
catches; an exception of another kind passes it by. -/
def Client.ofSocketPath (t_socketPath : Bytes) (t_port : Fin 65536) : Except Exn Client :=
  match Client.setServerDomain {} LOCAL_DOMAIN with
  | .error x => .error x
  | .ok c1 =>
    match c1.setServerSocketPath t_socketPath with
    | .error x => .error x
    | .ok c2 =>
      match c2.setServerPort t_port with
      | .error x => .error x
      | .ok c3 =>
        (((c3.setUsesIpv4Domain false).setUsesIpv6Domain false).setUsesLocalDomain
          true).setTimeout DEFAULT_TIMEOUT

/-! ## Bulk reads of the client (`client.cpp` lines 362-609) -/

/-- How a bulk read of the client ends on a recorded sequence of kernel answers: `outcome` is
`none` when the loop is still waiting after the last recorded answer, `client` is the object
as the call leaves it, `rest` the answers the call did not consume. -/
structure ClientReadRun where
  outcome : Option (Except Exn Unit)
  client : Client
  rest : List ReadStep

/-- The loop of `Client::readXData`, with the locals `totalBytesRead` and `dataBuffer`. -/
def Client.readXDataLoop (t_x : Int) : Int → Bytes → Client → List ReadStep → ClientReadRun
  | _, _, c, [] => ⟨none, c, []⟩
  | totalBytesRead, dataBuffer, c, step :: steps =>
    if step.sel.activity < 0 ∧ step.sel.eintr = false then ⟨some (.error .clientRuntime), c, steps⟩
    else if step.sel.activity = 0 then ⟨some (.error .clientTimeout), c, steps⟩
    else if step.sel.isSet = true then
      match step.rcv with
      | .failed true => Client.readXDataLoop t_x totalBytesRead dataBuffer c steps
      | .failed false => ⟨some (.error .clientRuntime), c, steps⟩
      | .bytes data =>
        if data.length = 0 then ⟨some (.error .clientRuntime), c, steps⟩
        else
          let bytesToAdd : Int := min (data.length : Int) (t_x - totalBytesRead)
          let dataBuffer1 := dataBuffer ++ data.take bytesToAdd.toNat
          let totalBytesRead1 := totalBytesRead + bytesToAdd
          if totalBytesRead1 = t_x then ⟨some (.ok ()), c.setData dataBuffer1, steps⟩
          else Client.readXDataLoop t_x totalBytesRead1 dataBuffer1 c steps
    else Client.readXDataLoop t_x totalBytesRead dataBuffer c steps

def Client.readXData (c : Client) (t_x : Int) (steps : List ReadStep) : ClientReadRun :=
  if c.getServerFileDescriptor = -1 then ⟨some (.error .clientRuntime), c, steps⟩
  else if t_x ≤ 0 then ⟨some (.error .invalidArgument), c.setData [], steps⟩
  else Client.readXDataLoop t_x 0 [] (c.setData []) steps

/-- The loop of `Client::readTillXData`, with the local `dataBuffer`. -/
def Client.readTillXDataLoop (t_x : Bytes) : Bytes → Client → List ReadStep → ClientReadRun
  | _, c, [] => ⟨none, c, []⟩
  | dataBuffer, c, step :: steps =>
    if step.sel.activity < 0 ∧ step.sel.eintr = false then ⟨some (.error .clientRuntime), c, steps⟩
    else if step.sel.activity = 0 then ⟨some (.error .clientTimeout), c, steps⟩
    else if step.sel.isSet = true then
      match step.rcv with
      | .failed true => Client.readTillXDataLoop t_x dataBuffer c steps
      | .failed false => ⟨some (.error .clientRuntime), c, steps⟩
      | .bytes data =>
        if data.length = 0 then ⟨some (.error .clientRuntime), c, steps⟩
        else
          match find (dataBuffer ++ data) t_x 0 with
          | some pos =>
            ⟨some (.ok ()), c.setData ((dataBuffer ++ data).take (pos + t_x.length)), steps⟩
          | none => Client.readTillXDataLoop t_x (dataBuffer ++ data) c steps
    else Client.readTillXDataLoop t_x dataBuffer c steps

def Client.readTillXData (c : Client) (t_x : Bytes) (steps : List ReadStep) : ClientReadRun :=
  if c.getServerFileDescriptor = -1 then ⟨some (.error .clientRuntime), c, steps⟩
  else if t_x.isEmpty then ⟨some (.error .invalidArgument), c.setData [], steps⟩
  else Client.readTillXDataLoop t_x [] (c.setData []) steps

/-- The outer loop of `Client::readTillXComesYTimesData`, with the locals `count`,
`bufferPos` and `dataBuffer`; the inner `while` is the scan of the server variant, the same
statements. -/
def Client.readTillXComesYTimesDataLoop (t_x : Bytes) (t_y : Int) :
    Int → Nat → Bytes → Client → List ReadStep → ClientReadRun
  | _, _, _, c, [] => ⟨none, c, []⟩
  | count, bufferPos, dataBuffer, c, step :: steps =>
    if step.sel.activity < 0 ∧ step.sel.eintr = false then ⟨some (.error .clientRuntime), c, steps⟩
    else if step.sel.activity = 0 then ⟨some (.error .clientTimeout), c, steps⟩
    else if step.sel.isSet = true then
      match step.rcv with
      | .failed true =>
        Client.readTillXComesYTimesDataLoop t_x t_y count bufferPos dataBuffer c steps
      | .failed false => ⟨some (.error .clientRuntime), c, steps⟩
      | .bytes data =>
        if data.length = 0 then ⟨some (.error .clientRuntime), c, steps⟩
        else
          match scanDelimiters (dataBuffer ++ data) t_x t_y ((dataBuffer ++ data).length + 1)
              count bufferPos with
          | .found bufferPos1 =>
            ⟨some (.ok ()), c.setData ((dataBuffer ++ data).take bufferPos1), steps⟩
          | .notYet count1 bufferPos1 =>
            Client.readTillXComesYTimesDataLoop t_x t_y count1 bufferPos1 (dataBuffer ++ data)
              c steps
    else Client.readTillXComesYTimesDataLoop t_x t_y count bufferPos dataBuffer c steps

def Client.readTillXComesYTimesData (c : Client) (t_x : Bytes) (t_y : Int)
    (steps : List ReadStep) : ClientReadRun :=
  if c.getServerFileDescriptor = -1 then ⟨some (.error .clientRuntime), c, steps⟩
  else if t_x.isEmpty then ⟨some (.error .invalidArgument), c.setData [], steps⟩
  else if t_y ≤ 0 then ⟨some (.error .invalidArgument), c.setData [], steps⟩
  else Client.readTillXComesYTimesDataLoop t_x t_y 0 0 [] (c.setData []) steps

/-- The client kind that corresponds to a server kind: `ClientRuntime` for `ServerRuntime`,
`ClientTimeout` for `ServerTimeout`, any other kind for itself. -/
def toClientKind : Exn → Exn
  | .serverRuntime => .clientRuntime
  | .serverTimeout => .clientTimeout
  | x => x

/-- A run of a server read for the client `t_clientID` and a run of the client read end
alike: same outcome up to the correspondence of kinds, same reads left unconsumed, same
stored payload. -/
def Corresponds (t_clientID : Int) (sr : ReadRun) (cr : ClientReadRun) : Prop :=
  cr.outcome = sr.outcome.map (Except.mapError toClientKind) ∧
  cr.rest = sr.rest ∧
  getData sr.server t_clientID = .ok cr.client.getData

/-- A client connected on descriptor 4. -/
def connectedClient : Client :=
  { m_serverFileDescriptor := 4, m_serverDomain := IPV4_DOMAIN, m_serverPort := 8080,
    m_usesIpv4Domain := true }

/-! ## Locks and accesses of the accessors (`server.hpp` lines 37-84, `server.cpp` lines 3-331, 1073-1080) -/

/-- The mutable member fields of `class Server`. -/
inductive Field where
  | serverFileDescriptor
  | port
  | domain
  | maximumCurrentConnections
  | currentClientID
  | startTime
  | localServerSocketPath
  | startDate
  | usesIpv4Domain
  | usesIpv6Domain
  | usesLocalDomain
  | isServerOnline
  | serverAddressIpv4
  | serverAddressIpv6
  | serverAddressLocal
  | eventQueue
  | timeout
  | data
  | clientFileDescriptor
  | clientAddressIpv4
  | clientAddressIpv6
  | clientAddressLocal
  deriving DecidableEq

/-- What a thread does to the shared object, one step at a time; a mutex is named by the
field it belongs to (`m_portMutex` is the mutex of `port`).
* `lockShared m`: `std::shared_lock<std::shared_mutex> lock(m)`;
* `lockExclusive m`: `std::unique_lock<std::shared_mutex> lock(m)`;
* `unlock m`: the lock object goes out of scope;
* `read f`, `write f`: an access to the member field. -/
inductive Action where
  | lockShared (m : Field)
  | lockExclusive (m : Field)
  | unlock (m : Field)
  | read (f : Field)
  | write (f : Field)
  deriving DecidableEq

/-- The body of the getter of a field: every getter takes the shared lock of its field's
mutex around `return m_field;`, except `getTimeout`, whose body is `return m_timeout;`
(the class has no mutex for `m_timeout`). -/
def getterActions : Field → List Action
  | .timeout => [.read .timeout]
  | f => [.lockShared f, .read f, .unlock f]

/-- The body of the setter of a field on an accepted argument: every setter takes the
exclusive lock of its field's mutex around the assignment, except `setTimeout`, whose body
is the argument check and `m_timeout = t_timeout;`. -/
def setterActions : Field → List Action
  | .timeout => [.write .timeout]
  | f => [.lockExclusive f, .write f, .unlock f]

/-- A thread: the steps it still has to make and the mutexes it holds (`true`: held
exclusively). -/
structure Thread where
  todo : List Action
  held : List (Field × Bool)
  deriving DecidableEq

/-- Whether the next step of `me` can be made while `other` holds what it holds: a shared
lock waits for an exclusive holder, an exclusive lock for any holder. -/
def Thread.canStep (me other : Thread) : Bool :=
  match me.todo with
  | [] => false
  | .lockShared m :: _ => !other.held.contains (m, true)
  | .lockExclusive m :: _ => !other.held.any (fun h => h.1 == m)
  | _ :: _ => true

/-- The thread after its next step. -/
def Thread.step (me : Thread) : Thread :=
  match me.todo with
  | [] => me
  | .lockShared m :: rest => ⟨rest, (m, false) :: me.held⟩
  | .lockExclusive m :: rest => ⟨rest, (m, true) :: me.held⟩
  | .unlock m :: rest => ⟨rest, me.held.filter (fun h => h.1 != m)⟩
  | _ :: rest => ⟨rest, me.held⟩

/-- Two threads working on one `Server`. -/
structure Config where
  t1 : Thread
  t2 : Thread
  deriving DecidableEq

/-- The configurations that the interleavings of the two threads reach from `c0`. -/
inductive Reachable (c0 : Config) : Config → Prop where
  | start : Reachable c0 c0
  | left {c : Config} : Reachable c0 c → c.t1.canStep c.t2 = true →
      Reachable c0 ⟨c.t1.step, c.t2⟩
  | right {c : Config} : Reachable c0 c → c.t2.canStep c.t1 = true →
      Reachable c0 ⟨c.t1, c.t2.step⟩

/-- Two accesses conflict: the same field, and at least one of them a write. -/
def Action.conflicts : Action → Action → Bool
  | .write f, .write g => f == g
  | .write f, .read g => f == g
  | .read f, .write g => f == g
  | _, _ => false

/-- The next steps of the two threads are conflicting accesses: nothing orders them. -/
def Config.racy (c : Config) : Bool :=
  match c.t1.todo, c.t2.todo with
  | a :: _, b :: _ => a.conflicts b
  | _, _ => false

/-- Two calls made by two threads on one object have a data race: some interleaving
reaches a configuration in which their next steps are conflicting accesses. -/
def DataRace (p q : List Action) : Prop :=
  ∃ c, Reachable ⟨⟨p, []⟩, ⟨q, []⟩⟩ c ∧ c.racy = true

/-- The configurations one step away. -/
def Config.successors (c : Config) : List Config :=
  (if c.t1.canStep c.t2 then [⟨c.t1.step, c.t2⟩] else []) ++
    (if c.t2.canStep c.t1 then [⟨c.t1, c.t2.step⟩] else [])

/-- The configurations at most `n` steps away from those in `seen`. -/
def explore : Nat → List Config → List Config
  | 0, seen => seen
  | n + 1, seen => explore n (seen ++ seen.flatMap Config.successors).eraseDups

/-! ## Evaluations of the accept path on concrete inputs -/

theorem acceptClient_first_id : (acceptClient (kernelWith [] 5 50) (freshServer 4)).1 = .ok 0 := by decide

theorem acceptClient_second_id : (acceptClient (kernelWith [] 6 60) (acceptClient (kernelWith [] 5 50) (freshServer 4)).2).1 = .ok 1 := by decide

theorem acceptClient_second_descriptor : ((acceptClient (kernelWith [] 6 60) (acceptClient (kernelWith [] 5 50) (freshServer 4)).2).2.m_clientFileDescriptor 1) = some 6 := by decide

/-! ## Lemmas on the containers -/

theorem UnorderedMap.assign_same {V : Type} (m : UnorderedMap V) (k : Int) (v : V) :
    m.assign k v k = some v := by
  simp [UnorderedMap.assign]

theorem UnorderedMap.assign_other {V : Type} (m : UnorderedMap V) (k j : Int) (v : V)
    (h : j ≠ k) : m.assign k v j = m j := by
  simp [UnorderedMap.assign, h]

/-! ## Reaping: what `closeDisconnectedClients` leaves behind -/

theorem closeDisconnectedClientsLoop_spec (k : Kernel) :
    ∀ (n : Nat) (i : Int) (s : Server),
      (∀ j : Int, i ≤ j → j < getCurrentClientID s → (s.m_clientFileDescriptor j).isSome = true) →
      ∃ s', closeDisconnectedClientsLoop k n i s = (.ok (), s') ∧
        s'.m_clientFileDescriptor =
          reapedFds k s.m_clientFileDescriptor i (min (i + n) (getCurrentClientID s)) ∧
        s' = { s with m_clientFileDescriptor := s'.m_clientFileDescriptor,
                      syscalls := s'.syscalls } ∧
        acceptCalls s' = acceptCalls s := by
  intro n
  induction n with
  | zero =>
    intro i s _
    refine ⟨s, rfl, ?_, rfl, rfl⟩
    funext j
    simp only [reapedFds]
    rw [if_neg]
    intro h
    have := h.1; have := h.2.1
    simp at *
    omega
  | succ n ih =>
    intro i s hpres
    by_cases hlt : i < getCurrentClientID s
    · obtain ⟨fd, hfd⟩ := Option.isSome_iff_exists.mp (hpres i le_rfl hlt)
      have hget : getClientFileDescriptor s i = .ok fd := by
        simp [getClientFileDescriptor, thisClientDoesNotExist, UnorderedMap.lookupAt, hfd]
        omega
      by_cases hg : goneFd k fd = true
      · -- the slot is reaped
        have hpres' : ∀ j : Int, i + 1 ≤ j →
            j < getCurrentClientID
              (setClientFileDescriptor (((s.log (.epollCtlDel fd))).log (.close fd)) i (-1)) →
            ((setClientFileDescriptor (((s.log (.epollCtlDel fd))).log (.close fd)) i
              (-1)).m_clientFileDescriptor j).isSome = true := by
          intro j hj hjc
          have hne : j ≠ i := by omega
          simp only [setClientFileDescriptor, Server.log, UnorderedMap.assign_other _ _ _ _ hne]
          exact hpres j (by omega) hjc
        obtain ⟨s', hrun, hmap, hframe, hacc⟩ := ih (i + 1) _ hpres'
        refine ⟨s', ?_, ?_, ?_, ?_⟩
        rotate_left 3
        · rw [hacc]
          simp [acceptCalls, setClientFileDescriptor, Server.log, List.filter_append,
            Syscall.isAccept]
        · rw [closeDisconnectedClientsLoop, if_pos hlt]
          simp only [isDisconnected, hget]
          have : (decide (fd < 0) || k.peerGone fd) = true := hg
          rw [this]
          simp only
          cases hrm : EventQueue.removeClient k fd <;> simpa using hrun
        · rw [hmap]
          funext j
          simp only [reapedFds, setClientFileDescriptor, Server.log, getCurrentClientID] at *
          by_cases hji : j = i
          · subst hji
            have c1 : ¬ (j + 1 ≤ j) := by omega
            rw [if_neg (fun h => c1 h.1), UnorderedMap.assign_same, if_pos]
            refine ⟨le_rfl, lt_min_iff.mpr ⟨?_, hlt⟩, by simp [hfd, hg]⟩
            push_cast
            omega
          · simp only [UnorderedMap.assign_other _ _ _ _ hji]
            have e : (i + 1 ≤ j ∧ j < min (i + 1 + ↑n) s.m_currentClientID ∧
                (s.m_clientFileDescriptor j).any (goneFd k) = true) ↔
                (i ≤ j ∧ j < min (i + ↑(n + 1)) s.m_currentClientID ∧
                (s.m_clientFileDescriptor j).any (goneFd k) = true) := by
              simp only [lt_min_iff]
              push_cast
              constructor
              · rintro ⟨a, ⟨b1, b2⟩, c⟩; exact ⟨by omega, ⟨by omega, b2⟩, c⟩
              · rintro ⟨a, ⟨b1, b2⟩, c⟩; exact ⟨by omega, ⟨by omega, b2⟩, c⟩
            simp only [e]
        · rw [hframe]
          simp [setClientFileDescriptor, Server.log]
      · -- the slot is live
        obtain ⟨s', hrun, hmap, hframe, hacc⟩ :=
          ih (i + 1) s (fun j hj hjc => hpres j (by omega) hjc)
        refine ⟨s', ?_, ?_, hframe, hacc⟩
        · rw [closeDisconnectedClientsLoop, if_pos hlt]
          simp only [isDisconnected, hget]
          have : (decide (fd < 0) || k.peerGone fd) = false := by
            simpa [goneFd] using hg
          rw [this]
          exact hrun
        · rw [hmap]
          funext j
          simp only [reapedFds, getCurrentClientID] at *
          by_cases hji : j = i
          · subst hji
            simp [hfd, hg]
          · have e : (i + 1 ≤ j ∧ j < min (i + 1 + ↑n) s.m_currentClientID ∧
                (s.m_clientFileDescriptor j).any (goneFd k) = true) ↔
                (i ≤ j ∧ j < min (i + ↑(n + 1)) s.m_currentClientID ∧
                (s.m_clientFileDescriptor j).any (goneFd k) = true) := by
              simp only [lt_min_iff]
              push_cast
              constructor
              · rintro ⟨a, ⟨b1, b2⟩, c⟩; exact ⟨by omega, ⟨by omega, b2⟩, c⟩
              · rintro ⟨a, ⟨b1, b2⟩, c⟩; exact ⟨by omega, ⟨by omega, b2⟩, c⟩
            simp only [e]
    · refine ⟨s, ?_, ?_, rfl, rfl⟩
      · rw [closeDisconnectedClientsLoop, if_neg hlt]
      · funext j
        simp only [reapedFds]
        rw [if_neg]
        rintro ⟨a, b, _⟩
        have := lt_min_iff.mp b
        omega

/-! ## The sweep of `rearrangeClientIDs` -/

theorem copyClientAddress_spec (s : Server) (kc i : Int) (a : SockAddr)
    (hi : i ≤ getCurrentClientID s) (ha : clientAddress s i = some a) :
    ∃ s2, copyClientAddress s kc i = .ok s2 ∧
      clientAddress s2 = (clientAddress s).assign kc a ∧
      s2 = { s with m_clientAddressIpv4 := s2.m_clientAddressIpv4,
                    m_clientAddressIpv6 := s2.m_clientAddressIpv6,
                    m_clientAddressLocal := s2.m_clientAddressLocal } := by
  have hex : thisClientDoesNotExist s i = false := by
    simp [thisClientDoesNotExist]; exact hi
  unfold copyClientAddress
  unfold clientAddress at ha
  by_cases h4 : usesIpv4Domain s = true
  · rw [if_pos h4] at ha
    refine ⟨{ s with m_clientAddressIpv4 := s.m_clientAddressIpv4.assign kc a }, ?_, ?_, rfl⟩
    · simp [h4, getClientAddressIpv4, hex, UnorderedMap.lookupAt, ha, setClientAddressIpv4]
    · simp only [clientAddress, usesIpv4Domain] at h4 ⊢
      simp [h4]
  · rw [if_neg h4] at ha
    by_cases h6 : usesIpv6Domain s = true
    · rw [if_pos h6] at ha
      refine ⟨{ s with m_clientAddressIpv6 := s.m_clientAddressIpv6.assign kc a }, ?_, ?_, rfl⟩
      · simp [h4, h6, getClientAddressIpv6, hex, UnorderedMap.lookupAt, ha, setClientAddressIpv6]
      · simp only [clientAddress, usesIpv4Domain, usesIpv6Domain] at h4 h6 ⊢
        simp [h4, h6]
    · rw [if_neg h6] at ha
      by_cases hl : usesLocalDomain s = true
      · rw [if_pos hl] at ha
        refine ⟨{ s with m_clientAddressLocal := s.m_clientAddressLocal.assign kc a }, ?_, ?_, rfl⟩
        · simp [h4, h6, hl, getClientAddressLocal, hex, UnorderedMap.lookupAt, ha,
            setClientAddressLocal]
        · simp only [clientAddress, usesIpv4Domain, usesIpv6Domain, usesLocalDomain] at h4 h6 hl ⊢
          simp [h4, h6, hl]
      · rw [if_neg hl] at ha
        simp [UnorderedMap.empty] at ha

theorem keptSlots_succ (s : Server) (i n : Nat) :
    keptSlots s i (n + 1) =
      if s.m_clientFileDescriptor (i : Int) ≠ some (-1) then i :: keptSlots s (i + 1) n
      else keptSlots s (i + 1) n := by
  simp only [keptSlots, List.range'_succ, List.filter_cons]
  by_cases h : s.m_clientFileDescriptor (i : Int) = some (-1) <;> simp [h]

theorem keptSlots_ge (s : Server) (i n j : Nat) (h : j ∈ keptSlots s i n) : i ≤ j ∧ j < i + n := by
  simp only [keptSlots, List.mem_filter, List.mem_range'_1] at h
  exact h.1

theorem keptSlots_congr (s t : Server) (i n : Nat)
    (h : ∀ j : Nat, i ≤ j → t.m_clientFileDescriptor (j : Int) = s.m_clientFileDescriptor (j : Int)) :
    keptSlots t i n = keptSlots s i n := by
  simp only [keptSlots]
  apply List.filter_congr
  intro j hj
  rw [h j (List.mem_range'_1.mp hj).1]

theorem rearrangeSweep_spec :
    ∀ (n i kc : Nat) (s : Server),
      kc ≤ i → getCurrentClientID s = ((i + n : Nat) : Int) →
      (∀ j : Nat, i ≤ j → j < i + n →
        (s.m_clientFileDescriptor (j : Int)).isSome = true ∧
          (clientAddress s (j : Int)).isSome = true) →
      ∃ s', rearrangeSweep n i kc s = (.ok (((kc + (keptSlots s i n).length : Nat)) : Int), s') ∧
        (∀ j : Int, (j < kc ∨ (((kc + (keptSlots s i n).length : Nat)) : Int) ≤ j) →
          slot s' j = slot s j) ∧
        (List.range' kc (keptSlots s i n).length).map (fun j : Nat => slot s' (j : Int)) =
          (keptSlots s i n).map (fun j : Nat => slot s (j : Int)) ∧
        s' = { s with m_clientFileDescriptor := s'.m_clientFileDescriptor,
                      m_clientAddressIpv4 := s'.m_clientAddressIpv4,
                      m_clientAddressIpv6 := s'.m_clientAddressIpv6,
                      m_clientAddressLocal := s'.m_clientAddressLocal } := by
  intro n
  induction n with
  | zero =>
    intro i kc s _ _ _
    refine ⟨s, ?_, ?_, ?_, rfl⟩
    · simp [rearrangeSweep, keptSlots]
    · intro j _; rfl
    · simp [keptSlots]
  | succ n ih =>
    intro i kc s hk hc hp
    have hlt : (i : Int) < getCurrentClientID s := by rw [hc]; push_cast; omega
    obtain ⟨hfdp, hap⟩ := hp i le_rfl (by omega)
    obtain ⟨fd, hfd⟩ := Option.isSome_iff_exists.mp hfdp
    obtain ⟨a, ha⟩ := Option.isSome_iff_exists.mp hap
    have hget : getClientFileDescriptor s i = .ok fd := by
      simp [getClientFileDescriptor, thisClientDoesNotExist, UnorderedMap.lookupAt, hfd]
      omega
    by_cases hfd1 : fd = -1
    · -- a freed slot: skipped
      have hks : keptSlots s i (n + 1) = keptSlots s (i + 1) n := by
        rw [keptSlots_succ, hfd, hfd1]; simp
      obtain ⟨s', hrun, hout, hmap, hframe⟩ := ih (i + 1) kc s (by omega)
        (by rw [hc]; push_cast; omega) (fun j h1 h2 => hp j (by omega) (by omega))
      refine ⟨s', ?_, ?_, ?_, hframe⟩
      · rw [rearrangeSweep, if_pos hlt, hget]
        simp only [hfd1, ne_eq, not_true_eq_false, if_false]
        rw [hks]
        push_cast at hrun ⊢
        exact hrun
      · rw [hks]; exact hout
      · rw [hks]; exact hmap
    · have hks : keptSlots s i (n + 1) = i :: keptSlots s (i + 1) n := by
        rw [keptSlots_succ, hfd]; simp [hfd1]
      by_cases hik : i = kc
      · -- already in place
        subst hik
        obtain ⟨s', hrun, hout, hmap, hframe⟩ := ih (i + 1) (i + 1) s le_rfl
          (by rw [hc]; push_cast; omega) (fun j h1 h2 => hp j (by omega) (by omega))
        refine ⟨s', ?_, ?_, ?_, hframe⟩
        · rw [rearrangeSweep, if_pos hlt, hget]
          simp only [ne_eq, hfd1, not_false_eq_true, if_true, not_true_eq_false, if_false]
          rw [hks]
          simp only [List.length_cons]
          push_cast at hrun ⊢
          rw [hrun]
          congr 2
          omega
        · intro j hj
          apply hout
          rw [hks] at hj
          simp only [List.length_cons] at hj
          push_cast at hj ⊢
          omega
        · rw [hks]
          simp only [List.length_cons, List.range'_succ, List.map_cons]
          rw [hmap, hout i (by left; push_cast; omega)]
      · -- moved from slot i to slot kc
        have hikz : (i : Int) ≠ (kc : Int) := by exact_mod_cast hik
        have hs1a : clientAddress (setClientFileDescriptor s kc fd) (i : Int) = some a := by
          simpa [clientAddress, setClientFileDescriptor, usesIpv4Domain, usesIpv6Domain,
            usesLocalDomain] using ha
        obtain ⟨s2, hcopy, haddr, hframe2⟩ :=
          copyClientAddress_spec (setClientFileDescriptor s kc fd) kc i a (le_of_lt hlt) hs1a
        have hs2fd : s2.m_clientFileDescriptor = s.m_clientFileDescriptor.assign kc fd := by
          rw [hframe2]; rfl
        have hs2cur : getCurrentClientID s2 = getCurrentClientID s := by
          rw [hframe2]; rfl
        have haddr' : clientAddress s2 = (clientAddress s).assign kc a := by
          rw [haddr]
          simp [clientAddress, setClientFileDescriptor, usesIpv4Domain, usesIpv6Domain,
            usesLocalDomain]
        have hslot : ∀ j : Int, j ≠ kc → slot s2 j = slot s j := by
          intro j hj
          simp only [slot, hs2fd, haddr', UnorderedMap.assign_other _ _ _ _ hj]
        have hslotk : slot s2 kc = slot s i := by
          simp only [slot, hs2fd, haddr', UnorderedMap.assign_same, hfd, ha]
        have hkc : keptSlots s2 (i + 1) n = keptSlots s (i + 1) n := by
          apply keptSlots_congr
          intro j hj
          rw [hs2fd, UnorderedMap.assign_other]
          exact_mod_cast (by omega : j ≠ kc)
        obtain ⟨s', hrun, hout, hmap, hframe⟩ := ih (i + 1) (kc + 1) s2 (by omega)
          (by rw [hs2cur, hc]; push_cast; omega)
          (fun j h1 h2 => by
            have hj : (j : Int) ≠ kc := by exact_mod_cast (by omega : j ≠ kc)
            have := hslot j hj
            simp only [slot, Prod.mk.injEq] at this
            rw [this.1, this.2]
            exact hp j (by omega) (by omega))
        rw [hkc] at hrun hout hmap
        refine ⟨s', ?_, ?_, ?_, ?_⟩
        · rw [rearrangeSweep, if_pos hlt, hget]
          simp only [ne_eq, hfd1, not_false_eq_true, if_true, hikz]
          rw [hcopy]
          simp only
          rw [hks]
          simp only [List.length_cons]
          push_cast at hrun ⊢
          rw [hrun]
          congr 2
          omega
        · intro j hj
          rw [hks] at hj
          simp only [List.length_cons] at hj
          rw [hout j (by push_cast at hj ⊢; omega)]
          apply hslot
          push_cast at hj
          omega
        · rw [hks]
          simp only [List.length_cons, List.range'_succ, List.map_cons]
          rw [hmap, hout kc (by left; push_cast; omega), hslotk]
          congr 1
          apply List.map_congr_left
          intro j hj
          apply hslot
          have := (keptSlots_ge s _ _ _ hj).1
          exact_mod_cast (by omega : j ≠ kc)
        · rw [hframe, hframe2]
          simp [setClientFileDescriptor]

/-! ## Compaction as a whole -/

theorem isLive_iff (k : Kernel) (s : Server) (i : Int) (fd : Int)
    (hi : i ≤ getCurrentClientID s) (hfd : s.m_clientFileDescriptor i = some fd) :
    isLive k s i = !goneFd k fd := by
  have hget : getClientFileDescriptor s i = .ok fd := by
    simp [getClientFileDescriptor, thisClientDoesNotExist, UnorderedMap.lookupAt, hfd]
    exact hi
  simp only [isLive, isDisconnected, hget, goneFd]
  cases (decide (fd < 0) || k.peerGone fd) <;> rfl

theorem goneFd_neg_one (k : Kernel) : goneFd k (-1) = true := by
  simp [goneFd]

theorem rearrangeClientIDs_spec (k : Kernel) (s : Server) (hreg : RegistryOk s) :
    ∃ s', rearrangeClientIDs k s = (.ok (), s') ∧
      getCurrentClientID s' = ((liveSlots k s).length : Int) ∧
      (List.range (liveSlots k s).length).map (fun j : Nat => slot s' (j : Int)) =
        (liveSlots k s).map (fun j : Nat => slot s (j : Int)) ∧
      (∀ j : Int, (j < 0 ∨ ((liveSlots k s).length : Int) ≤ j) →
        s'.m_clientFileDescriptor j =
          reapedFds k s.m_clientFileDescriptor 0 (getCurrentClientID s) j ∧
        clientAddress s' j = clientAddress s j) ∧
      s' = { s with m_clientFileDescriptor := s'.m_clientFileDescriptor,
                    m_clientAddressIpv4 := s'.m_clientAddressIpv4,
                    m_clientAddressIpv6 := s'.m_clientAddressIpv6,
                    m_clientAddressLocal := s'.m_clientAddressLocal,
                    m_currentClientID := s'.m_currentClientID,
                    syscalls := s'.syscalls } ∧
      acceptCalls s' = acceptCalls s := by
  obtain ⟨s1, hclose, hfd1, hframe1, hacc1⟩ :=
    closeDisconnectedClientsLoop_spec k (getCurrentClientID s).toNat 0 s
      (fun j h0 hj => (hreg j h0 hj).1)
  have hcur1 : getCurrentClientID s1 = getCurrentClientID s := by rw [hframe1]; rfl
  have haddr1 : clientAddress s1 = clientAddress s := by
    rw [hframe1]; rfl
  have hmin : min ((0 : Int) + ((getCurrentClientID s).toNat : Int)) (getCurrentClientID s)
      = getCurrentClientID s := by
    rw [min_eq_right]
    have := Int.self_le_toNat (getCurrentClientID s)
    omega
  rw [hmin] at hfd1
  -- slots below next-id after reaping
  have hre : ∀ j : Nat, (j : Int) < getCurrentClientID s →
      ∃ fd, s.m_clientFileDescriptor (j : Int) = some fd ∧
        s1.m_clientFileDescriptor (j : Int) = (if goneFd k fd then some (-1) else some fd) ∧
        isLive k s (j : Int) = !goneFd k fd := by
    intro j hj
    obtain ⟨fd, hfd⟩ := Option.isSome_iff_exists.mp (hreg j (by omega) hj).1
    refine ⟨fd, hfd, ?_, isLive_iff k s j fd (le_of_lt hj) hfd⟩
    rw [hfd1]
    simp only [reapedFds, hfd, Option.any_some]
    by_cases hg : goneFd k fd = true
    · rw [if_pos ⟨by omega, hj, hg⟩, if_pos hg]
    · rw [if_neg (fun h => hg h.2.2), if_neg hg]
  have hkept : keptSlots s1 0 (getCurrentClientID s).toNat = liveSlots k s := by
    simp only [keptSlots, liveSlots, List.range_eq_range']
    apply List.filter_congr
    intro j hj
    have hjlt : (j : Int) < getCurrentClientID s := by
      have := (List.mem_range'_1.mp hj).2
      omega
    obtain ⟨fd, _, h1, h2⟩ := hre j hjlt
    rw [h1, h2]
    by_cases hg : goneFd k fd = true
    · simp [hg]
    · have hne : fd ≠ -1 := by
        intro h; rw [h] at hg; exact hg (goneFd_neg_one k)
      simp [hg, hne]
  have hliveslot : ∀ j ∈ liveSlots k s, slot s1 (j : Int) = slot s (j : Int) := by
    intro j hj
    simp only [liveSlots, List.mem_filter, List.mem_range] at hj
    have hjlt : (j : Int) < getCurrentClientID s := by omega
    obtain ⟨fd, h0, h1, h2⟩ := hre j hjlt
    rw [h2] at hj
    have hg : goneFd k fd = false := by simpa using hj.2
    simp only [slot, haddr1, h1, h0, hg]
    rfl
  by_cases hneg : getCurrentClientID s < 0
  · -- a negative counter: both loops are skipped
    have htn : (getCurrentClientID s).toNat = 0 := by
      apply Int.toNat_of_nonpos; omega
    have hlive : liveSlots k s = [] := by simp [liveSlots, htn]
    have hs1 : s1 = s := by
      have := hclose
      rw [htn] at this
      simp only [closeDisconnectedClientsLoop] at this
      exact (Prod.mk.inj this).2.symm
    refine ⟨{ s with m_currentClientID := 0 }, ?_, ?_, ?_, ?_, rfl, rfl⟩
    · simp only [rearrangeClientIDs, closeDisconnectedClients, htn, closeDisconnectedClientsLoop,
        rearrangeSweep, setCurrentClientID]
      simp
    · simp [hlive, getCurrentClientID]
    · simp [hlive]
    · intro j _
      refine ⟨?_, rfl⟩
      simp only [reapedFds]
      rw [if_neg]
      rintro ⟨a, b, _⟩
      omega
  · have hN : ((0 + (getCurrentClientID s).toNat : Nat) : Int) = getCurrentClientID s := by
      push_cast
      rw [Int.toNat_of_nonneg (by omega)]
      simp
    obtain ⟨s2, hsweep, hout, hmap, hframe2⟩ :=
      rearrangeSweep_spec (getCurrentClientID s).toNat 0 0 s1 le_rfl (by rw [hcur1, hN])
        (fun j _ hj => by
          have hjlt : (j : Int) < getCurrentClientID s := by omega
          obtain ⟨fd, _, h1, _⟩ := hre j hjlt
          refine ⟨?_, ?_⟩
          · rw [h1]; split <;> rfl
          · rw [haddr1]; exact (hreg j (by omega) hjlt).2)
    rw [hkept] at hsweep hout hmap
    simp only [Nat.zero_add, Nat.cast_zero] at hsweep hout hmap
    refine ⟨{ s2 with m_currentClientID := ((liveSlots k s).length : Int) }, ?_, rfl, ?_, ?_, ?_,
      ?_⟩
    rotate_left 4
    · rw [← hacc1, hframe2]
      rfl
    · simp only [rearrangeClientIDs, closeDisconnectedClients, hclose, hcur1, hsweep,
        setCurrentClientID]
      rw [if_neg (by omega)]
    · have : ∀ j : Int, slot { s2 with m_currentClientID := ((liveSlots k s).length : Int) } j
          = slot s2 j := fun j => rfl
      simp only [this]
      rw [List.range_eq_range', hmap]
      exact List.map_congr_left hliveslot
    · intro j hj
      have h := hout j (by omega)
      simp only [slot, Prod.mk.injEq] at h
      refine ⟨?_, ?_⟩
      · show s2.m_clientFileDescriptor j = _
        rw [h.1, hfd1]
      · show clientAddress s2 j = _
        rw [h.2, haddr1]
    · rw [hframe2, hframe1]

/-! ## The accept path -/

theorem SameConfig.domainSet {s s' : Server} (h : SameConfig s s') (hd : DomainSet s) :
    DomainSet s' := by
  unfold SameConfig at h
  rw [h]
  exact hd

theorem SameConfig.maximum {s s' : Server} (h : SameConfig s s') :
    getMaximumCurrentConnections s' = getMaximumCurrentConnections s := by
  unfold SameConfig at h
  rw [h]
  rfl

theorem SameConfig.data {s s' : Server} (h : SameConfig s s') : s'.m_data = s.m_data := by
  unfold SameConfig at h
  rw [h]

theorem SameConfig.trans {s s' s'' : Server} (h : SameConfig s s') (h' : SameConfig s' s'') :
    SameConfig s s'' := by
  unfold SameConfig at *
  rw [h', h]

theorem acceptIntoRegistry_spec (k : Kernel) (s : Server) (c : Int) (hdom : DomainSet s) :
    ∃ s2, acceptIntoRegistry k s c = (.ok (), s2) ∧
      s2.m_clientFileDescriptor = s.m_clientFileDescriptor.assign c k.acceptFd ∧
      clientAddress s2 = (clientAddress s).assign c k.acceptAddr ∧
      s2.syscalls = s.syscalls ++ [.accept (getServerFileDescriptor s)] ∧
      getCurrentClientID s2 = getCurrentClientID s ∧
      SameConfig s s2 := by
  unfold acceptIntoRegistry
  by_cases h4 : usesIpv4Domain s = true
  · refine ⟨{ (setClientFileDescriptor (s.log (.accept (getServerFileDescriptor s))) c k.acceptFd)
        with m_clientAddressIpv4 := s.m_clientAddressIpv4.assign c k.acceptAddr },
      ?_, rfl, ?_, rfl, rfl, rfl⟩
    · simp only [h4, if_true, setClientAddressIpv4]
      rfl
    · simp only [clientAddress, usesIpv4Domain, setClientFileDescriptor, Server.log] at h4 ⊢
      simp [h4]
  · by_cases h6 : usesIpv6Domain s = true
    · refine ⟨{ (setClientFileDescriptor (s.log (.accept (getServerFileDescriptor s))) c k.acceptFd)
          with m_clientAddressIpv6 := s.m_clientAddressIpv6.assign c k.acceptAddr },
        ?_, rfl, ?_, rfl, rfl, rfl⟩
      · simp only [h4, h6, if_true, setClientAddressIpv6]
        simp
        rfl
      · simp only [clientAddress, usesIpv4Domain, usesIpv6Domain, setClientFileDescriptor,
          Server.log] at h4 h6 ⊢
        simp [h4, h6]
    · have hl : usesLocalDomain s = true := by
        rcases hdom with h | h | h
        · exact absurd h h4
        · exact absurd h h6
        · exact h
      refine ⟨{ (setClientFileDescriptor (s.log (.accept (getServerFileDescriptor s))) c k.acceptFd)
          with m_clientAddressLocal := s.m_clientAddressLocal.assign c k.acceptAddr },
        ?_, rfl, ?_, rfl, rfl, rfl⟩
      · simp only [h4, h6, hl, if_true, setClientAddressLocal]
        simp
        rfl
      · simp only [clientAddress, usesIpv4Domain, usesIpv6Domain, usesLocalDomain,
          setClientFileDescriptor, Server.log] at h4 h6 hl ⊢
        simp [h4, h6, hl]

theorem acceptClient_spec (k : Kernel) (s : Server) (hreg : RegistryOk s) (hdom : DomainSet s) :
    ∃ s1, rearrangeClientIDs k s = (.ok (), s1) ∧
      (getMaximumCurrentConnections s ≤ getCurrentClientID s1 →
        acceptClient k s = (.error .serverRuntime, s1)) ∧
      (getCurrentClientID s1 < getMaximumCurrentConnections s →
        ∃ s3, Accepted k s1 s3 (getCurrentClientID s1) ∧
          ((k.acceptFd < 0 ∨ k.epollAddFails k.acceptFd = true) →
            acceptClient k s = (.error .serverRuntime, s3)) ∧
          (¬ (k.acceptFd < 0 ∨ k.epollAddFails k.acceptFd = true) →
            acceptClient k s = (.ok (getCurrentClientID s1),
              { s3 with m_currentClientID := getCurrentClientID s1 + 1 }))) := by
  obtain ⟨s1, hrun, hcur, hmap, hstale, hframe, hacc⟩ := rearrangeClientIDs_spec k s hreg
  have hcfg : SameConfig s s1 := hframe
  have hmax : getMaximumCurrentConnections s1 = getMaximumCurrentConnections s := hcfg.maximum
  refine ⟨s1, hrun, ?_, ?_⟩
  · intro hfull
    simp only [acceptClient, hrun, hmax]
    rw [if_pos (by omega)]
  · intro hroom
    obtain ⟨s2, hinto, hfd2, haddr2, hsys2, hcur2, hcfg2⟩ :=
      acceptIntoRegistry_spec k s1 (getCurrentClientID s1) (hcfg.domainSet hdom)
    have hget : getClientFileDescriptor s2 (getCurrentClientID s1) = .ok k.acceptFd := by
      simp [getClientFileDescriptor, thisClientDoesNotExist, hcur2, UnorderedMap.lookupAt, hfd2,
        UnorderedMap.assign_same]
    refine ⟨s2.log (.epollCtlAdd k.acceptFd), ⟨hfd2, ?_, ?_, hcur2, ?_⟩, ?_, ?_⟩
    · rw [← haddr2]; rfl
    · simp [Server.log, hsys2]
    · unfold SameConfig at hcfg2 ⊢
      rw [hcfg2]
      rfl
    · intro hfail
      simp only [acceptClient, hrun, hmax]
      rw [if_neg (by omega), hinto]
      have e : epollCtlAdd k k.acceptFd = -1 := if_pos hfail
      simp only [hget, EventQueue.addClient, e]
      rfl
    · intro hgood
      simp only [acceptClient, hrun, hmax]
      rw [if_neg (by omega), hinto]
      have e : epollCtlAdd k k.acceptFd = 0 := if_neg hgood
      simp only [hget, EventQueue.addClient, e]
      have hnn : ¬ (getCurrentClientID s1 + 1 < 0) := by rw [hcur]; omega
      simp [setCurrentClientID, hnn, Server.log]

/-! ## The registry invariant along the accept path -/

theorem slot_of_map_eq (s1 s : Server) (L : List Nat)
    (hmap : (List.range L.length).map (fun j : Nat => slot s1 (j : Int)) =
      L.map (fun j : Nat => slot s (j : Int)))
    (j : Nat) (hj : j < L.length) : slot s1 (j : Int) = slot s ((L[j] : Nat) : Int) := by
  have h := congrArg (fun l => l[j]?) hmap
  simp only [List.getElem?_map, List.getElem?_range hj, Option.map_some',
    List.getElem?_eq_getElem hj] at h
  exact Option.some.inj h

theorem liveSlots_lt (k : Kernel) (s : Server) (i : Nat) (h : i ∈ liveSlots k s) :
    (i : Int) < getCurrentClientID s ∧ isLive k s (i : Int) = true := by
  simp only [liveSlots, List.mem_filter, List.mem_range] at h
  exact ⟨by omega, h.2⟩

theorem slot_isSome_of_registryOk (s : Server) (hreg : RegistryOk s) (i : Nat)
    (hi : (i : Int) < getCurrentClientID s) :
    (slot s (i : Int)).1.isSome = true ∧ (slot s (i : Int)).2.isSome = true :=
  hreg i (by omega) hi

theorem registryOk_of_slots (s : Server)
    (h : ∀ j : Nat, (j : Int) < getCurrentClientID s →
      (slot s (j : Int)).1.isSome = true ∧ (slot s (j : Int)).2.isSome = true) :
    RegistryOk s := by
  intro i h0 hi
  obtain ⟨n, rfl⟩ := Int.eq_ofNat_of_zero_le h0
  exact h n hi

theorem rearranged_registryOk (k : Kernel) (s s1 : Server) (hreg : RegistryOk s)
    (hcur : getCurrentClientID s1 = ((liveSlots k s).length : Int))
    (hmap : (List.range (liveSlots k s).length).map (fun j : Nat => slot s1 (j : Int)) =
      (liveSlots k s).map (fun j : Nat => slot s (j : Int))) :
    RegistryOk s1 := by
  apply registryOk_of_slots
  intro j hj
  have hjl : j < (liveSlots k s).length := by omega
  rw [slot_of_map_eq s1 s _ hmap j hjl]
  exact slot_isSome_of_registryOk s hreg _
    (liveSlots_lt k s _ (List.getElem_mem hjl)).1

theorem acceptClient_preserves (k : Kernel) (s : Server) (hreg : RegistryOk s)
    (hdom : DomainSet s) :
    RegistryOk (acceptClient k s).2 ∧ DomainSet (acceptClient k s).2 ∧
      SameConfig s (acceptClient k s).2 := by
  obtain ⟨s1, hrun, hcur, hmap, -, hframe, -⟩ := rearrangeClientIDs_spec k s hreg
  obtain ⟨s1', hrun', hfull, hroom⟩ := acceptClient_spec k s hreg hdom
  obtain rfl : s1' = s1 := by
    have := hrun'.symm.trans hrun
    exact (Prod.mk.inj this).2
  have hcfg : SameConfig s s1' := hframe
  have hreg1 : RegistryOk s1' := rearranged_registryOk k s s1' hreg hcur hmap
  by_cases hm : getMaximumCurrentConnections s ≤ getCurrentClientID s1'
  · rw [hfull hm]
    exact ⟨hreg1, hcfg.domainSet hdom, hcfg⟩
  · obtain ⟨s3, ⟨hfd3, haddr3, hsys3, hcur3, hcfg3⟩, hbad, hgood⟩ := hroom (by omega)
    have hslot3 : ∀ j : Int, j ≠ getCurrentClientID s1' → slot s3 j = slot s1' j := by
      intro j hj
      simp only [slot, hfd3, haddr3, UnorderedMap.assign_other _ _ _ _ hj]
    by_cases hf : k.acceptFd < 0 ∨ k.epollAddFails k.acceptFd = true
    · rw [hbad hf]
      refine ⟨?_, (hcfg.trans hcfg3).domainSet hdom, hcfg.trans hcfg3⟩
      apply registryOk_of_slots
      intro j hj
      rw [hcur3] at hj
      rw [hslot3 j (by omega)]
      exact slot_isSome_of_registryOk s1' hreg1 j hj
    · rw [hgood hf]
      have hcfg4 : SameConfig s3 { s3 with m_currentClientID := getCurrentClientID s1' + 1 } := rfl
      refine ⟨?_, ((hcfg.trans hcfg3).trans hcfg4).domainSet hdom,
        (hcfg.trans hcfg3).trans hcfg4⟩
      apply registryOk_of_slots
      intro j hj
      have hj' : (j : Int) < getCurrentClientID s1' + 1 := hj
      have hs : slot { s3 with m_currentClientID := getCurrentClientID s1' + 1 } (j : Int)
          = slot s3 (j : Int) := rfl
      rw [hs]
      by_cases hjc : (j : Int) = getCurrentClientID s1'
      · simp only [slot, hfd3, haddr3, hjc, UnorderedMap.assign_same]
        exact ⟨rfl, rfl⟩
      · rw [hslot3 j hjc]
        exact slot_isSome_of_registryOk s1' hreg1 j (by omega)

theorem acceptClient_cases (k : Kernel) (s : Server) (hreg : RegistryOk s) (hdom : DomainSet s) :
    ∃ s1, rearrangeClientIDs k s = (.ok (), s1) ∧
      getCurrentClientID s1 = ((liveSlots k s).length : Int) ∧
      (List.range (liveSlots k s).length).map (fun j : Nat => slot s1 (j : Int)) =
        (liveSlots k s).map (fun j : Nat => slot s (j : Int)) ∧
      SameConfig s s1 ∧ acceptCalls s1 = acceptCalls s ∧ RegistryOk s1 ∧
      (getMaximumCurrentConnections s ≤ getCurrentClientID s1 →
        acceptClient k s = (.error .serverRuntime, s1)) ∧
      (getCurrentClientID s1 < getMaximumCurrentConnections s →
        ∃ s3, Accepted k s1 s3 (getCurrentClientID s1) ∧
          ((k.acceptFd < 0 ∨ k.epollAddFails k.acceptFd = true) →
            acceptClient k s = (.error .serverRuntime, s3)) ∧
          (¬ (k.acceptFd < 0 ∨ k.epollAddFails k.acceptFd = true) →
            acceptClient k s = (.ok (getCurrentClientID s1),
              { s3 with m_currentClientID := getCurrentClientID s1 + 1 }))) := by
  obtain ⟨s1, hrun, hcur, hmap, -, hframe, hacc⟩ := rearrangeClientIDs_spec k s hreg
  obtain ⟨s1', hrun', hfull, hroom⟩ := acceptClient_spec k s hreg hdom
  obtain rfl : s1' = s1 := by
    have := hrun'.symm.trans hrun
    exact (Prod.mk.inj this).2
  exact ⟨s1', hrun, hcur, hmap, hframe, hacc, rearranged_registryOk k s s1' hreg hcur hmap,
    hfull, hroom⟩

theorem acceptCalls_accepted (k : Kernel) (s1 s3 : Server) (c : Int) (h : Accepted k s1 s3 c) :
    acceptCalls s3 = acceptCalls s1 + 1 := by
  obtain ⟨-, -, hsys, -, -⟩ := h
  simp [acceptCalls, hsys, List.filter_append, Syscall.isAccept, List.filter_cons]

/-! ## C1: compaction -/

theorem threeClients_registryOk (b : Int) : RegistryOk (threeClients b) := by
  intro i h0 h3
  have h3' : i < 3 := h3
  have : i = 0 ∨ i = 1 ∨ i = 2 := by omega
  rcases this with rfl | rfl | rfl <;> exact ⟨rfl, rfl⟩

/-- C1: for every registry state (each slot below next-id holding a descriptor entry and an
address record) and every outcome of the disconnect test, `rearrangeClientIDs` returns
normally, next-id afterwards is the number `k` of slots that passed the test as live, and
slots `0 .. k-1` hold the descriptors and the address records of exactly those live slots,
in their original left-to-right order. -/
theorem C1_rearrangeClientIDs_compacts (k : Kernel) (s : Server) (hreg : RegistryOk s) :
    ∃ s', rearrangeClientIDs k s = (.ok (), s') ∧
      getCurrentClientID s' = ((liveSlots k s).length : Int) ∧
      (List.range (liveSlots k s).length).map (fun j : Nat => s'.m_clientFileDescriptor (j : Int)) =
        (liveSlots k s).map (fun i : Nat => s.m_clientFileDescriptor (i : Int)) ∧
      (List.range (liveSlots k s).length).map (fun j : Nat => clientAddress s' (j : Int)) =
        (liveSlots k s).map (fun i : Nat => clientAddress s (i : Int)) := by
  obtain ⟨s', hrun, hcur, hmap, -, -, -⟩ := rearrangeClientIDs_spec k s hreg
  refine ⟨s', hrun, hcur, ?_, ?_⟩
  · have := congrArg (List.map Prod.fst) hmap
    simpa [List.map_map, Function.comp_def, slot] using this
  · have := congrArg (List.map Prod.snd) hmap
    simpa [List.map_map, Function.comp_def, slot] using this

/-- Witness for C1: clients 0, 1, 2 on descriptors 5, 6, 7, the peer of descriptor 6 gone. -/
theorem C1_rearrangeClientIDs_compacts_witness :
    RegistryOk (threeClients 4) ∧
    ∃ s', rearrangeClientIDs (kernelWith [6] 8 80) (threeClients 4) = (.ok (), s') ∧
      getCurrentClientID s' = ((liveSlots (kernelWith [6] 8 80) (threeClients 4)).length : Int) ∧
      (List.range (liveSlots (kernelWith [6] 8 80) (threeClients 4)).length).map
          (fun j : Nat => s'.m_clientFileDescriptor (j : Int)) =
        (liveSlots (kernelWith [6] 8 80) (threeClients 4)).map
          (fun i : Nat => (threeClients 4).m_clientFileDescriptor (i : Int)) ∧
      (List.range (liveSlots (kernelWith [6] 8 80) (threeClients 4)).length).map
          (fun j : Nat => clientAddress s' (j : Int)) =
        (liveSlots (kernelWith [6] 8 80) (threeClients 4)).map
          (fun i : Nat => clientAddress (threeClients 4) (i : Int)) :=
  ⟨threeClients_registryOk 4,
    C1_rearrangeClientIDs_compacts (kernelWith [6] 8 80) (threeClients 4) (threeClients_registryOk 4)⟩

theorem threeClients_liveSlots : liveSlots (kernelWith [6] 8 80) (threeClients 4) = [0, 2] := by decide

theorem threeClients_rearranged_next_id : getCurrentClientID (rearrangeClientIDs (kernelWith [6] 8 80) (threeClients 4)).2 = 2 := by
  decide

theorem threeClients_rearranged_descriptors : (List.range 3).map (fun j : Nat =>
    (rearrangeClientIDs (kernelWith [6] 8 80) (threeClients 4)).2.m_clientFileDescriptor j)
    = [some 5, some 7, some 7] := by decide

/-! ## C2: the id handed out by `acceptClient` -/

/-- C2: for every registry state, when `acceptClient` succeeds it returns `k`, the number of
clients that passed the disconnect test at entry; the ids `0 .. k-1` are then exactly those
live clients (in order), the accepted descriptor (a real one, `>= 0`) and its address record
are stored in slot `k`, and next-id is left at `k + 1`, the number of live clients. -/
theorem C2_acceptClient_returns_live_count (k : Kernel) (s : Server) (hreg : RegistryOk s)
    (hdom : DomainSet s) (r : Int) (h : (acceptClient k s).1 = .ok r) :
    r = ((liveSlots k s).length : Int) ∧
    (List.range (liveSlots k s).length).map (fun j : Nat => slot (acceptClient k s).2 (j : Int)) =
      (liveSlots k s).map (fun i : Nat => slot s (i : Int)) ∧
    (acceptClient k s).2.m_clientFileDescriptor r = some k.acceptFd ∧
    0 ≤ k.acceptFd ∧
    clientAddress (acceptClient k s).2 r = some k.acceptAddr ∧
    getCurrentClientID (acceptClient k s).2 = r + 1 := by
  obtain ⟨s1, -, hcur, hmap, -, -, -, hfull, hroom⟩ := acceptClient_cases k s hreg hdom
  by_cases hm : getMaximumCurrentConnections s ≤ getCurrentClientID s1
  · rw [hfull hm] at h
    cases h
  · obtain ⟨s3, ⟨hfd3, haddr3, -, -, -⟩, hbad, hgood⟩ := hroom (by omega)
    by_cases hf : k.acceptFd < 0 ∨ k.epollAddFails k.acceptFd = true
    · rw [hbad hf] at h
      cases h
    · rw [hgood hf] at h ⊢
      have hr : r = getCurrentClientID s1 := by
        simp only [Except.ok.injEq] at h
        exact h.symm
      subst hr
      have hs : ∀ j : Int, slot { s3 with m_currentClientID := getCurrentClientID s1 + 1 } j
          = slot s3 j := fun _ => rfl
      refine ⟨hcur, ?_, ?_, by omega, ?_, rfl⟩
      · rw [← hmap]
        apply List.map_congr_left
        intro j hj
        have hjne : (j : Int) ≠ getCurrentClientID s1 := by
          have := List.mem_range.mp hj
          omega
        rw [hs]
        simp only [slot, hfd3, haddr3, UnorderedMap.assign_other _ _ _ _ hjne]
      · show s3.m_clientFileDescriptor _ = _
        rw [hfd3, UnorderedMap.assign_same]
      · show clientAddress s3 _ = _
        rw [haddr3, UnorderedMap.assign_same]

/-- Witness for C2: clients 0, 1, 2, client 1 disconnects, the next `acceptClient` returns 2. -/
theorem C2_acceptClient_returns_live_count_witness :
    (acceptClient (kernelWith [6] 8 80) (threeClients 4)).1 = .ok 2 ∧
    liveSlots (kernelWith [6] 8 80) (threeClients 4) = [0, 2] ∧
    (2 : Int) = ((liveSlots (kernelWith [6] 8 80) (threeClients 4)).length : Int) ∧
    getCurrentClientID (acceptClient (kernelWith [6] 8 80) (threeClients 4)).2 = 2 + 1 :=
  have h := C2_acceptClient_returns_live_count (kernelWith [6] 8 80) (threeClients 4)
    (threeClients_registryOk 4) (Or.inl rfl) 2 (by decide)
  ⟨by decide, by decide, h.1, h.2.2.2.2.2⟩

/-! ## C3: the backlog limit -/

/-- C3: `acceptClient` raises `ServerRuntime` without having called `accept` exactly when
next-id after compaction has reached the backlog, and it then leaves the object as
compaction left it (next-id unchanged).  Consequently a full server refuses the next client,
and once the disconnect test finds fewer live clients than the backlog a following
`acceptClient` (whose `accept` and queue registration succeed) returns the new id. -/
theorem C3_acceptClient_backlog (k : Kernel) (s : Server) (hreg : RegistryOk s)
    (hdom : DomainSet s) :
    (((acceptClient k s).1 = .error .serverRuntime ∧
        acceptCalls (acceptClient k s).2 = acceptCalls s) ↔
      getMaximumCurrentConnections s ≤ getCurrentClientID (rearrangeClientIDs k s).2) ∧
    (getMaximumCurrentConnections s ≤ getCurrentClientID (rearrangeClientIDs k s).2 →
      (acceptClient k s).2 = (rearrangeClientIDs k s).2) ∧
    (getCurrentClientID s = getMaximumCurrentConnections s →
      (liveSlots k s).length = (getCurrentClientID s).toNat →
      (acceptClient k s).1 = .error .serverRuntime ∧
      ∀ k2 : Kernel,
        ((liveSlots k2 (acceptClient k s).2).length : Int) < getMaximumCurrentConnections s →
        0 ≤ k2.acceptFd → k2.epollAddFails k2.acceptFd = false →
        (acceptClient k2 (acceptClient k s).2).1 =
          .ok ((liveSlots k2 (acceptClient k s).2).length : Int)) := by
  obtain ⟨s1, hrun, hcur, hmap, hcfg, hacc, hreg1, hfull, hroom⟩ :=
    acceptClient_cases k s hreg hdom
  have hs1 : (rearrangeClientIDs k s).2 = s1 := by rw [hrun]
  rw [hs1]
  refine ⟨⟨?_, ?_⟩, ?_, ?_⟩
  · rintro ⟨-, hno⟩
    by_contra hm
    obtain ⟨s3, hA, hbad, hgood⟩ := hroom (by omega)
    have h3 := acceptCalls_accepted k s1 s3 _ hA
    by_cases hf : k.acceptFd < 0 ∨ k.epollAddFails k.acceptFd = true
    · rw [hbad hf] at hno
      simp only at hno
      omega
    · rw [hgood hf] at hno
      have : acceptCalls { s3 with m_currentClientID := getCurrentClientID s1 + 1 }
          = acceptCalls s3 := rfl
      simp only at hno
      omega
  · intro hm
    rw [hfull hm]
    exact ⟨rfl, hacc⟩
  · intro hm
    rw [hfull hm]
  · intro hb hall
    have hm : getMaximumCurrentConnections s ≤ getCurrentClientID s1 := by
      rw [hcur, hall, ← hb]
      exact Int.self_le_toNat _
    rw [hfull hm]
    refine ⟨rfl, ?_⟩
    intro k2 hlt hfd hadd
    obtain ⟨t1, -, hcur', -, -, -, -, -, hroom'⟩ :=
      acceptClient_cases k2 s1 hreg1 (hcfg.domainSet hdom)
    obtain ⟨t3, -, -, hgood⟩ := hroom' (by rw [hcur', hcfg.maximum]; exact hlt)
    rw [hgood (by simp [hadd]; omega), hcur']

/-- Witness for C3: backlog 3 with three live clients on descriptors 5, 6, 7. -/
theorem C3_acceptClient_backlog_witness :
    RegistryOk (threeClients 3) ∧ DomainSet (threeClients 3) ∧
    (acceptClient (kernelWith [] 8 80) (threeClients 3)).1 = .error .serverRuntime ∧
    (acceptClient (kernelWith [6] 8 80)
      (acceptClient (kernelWith [] 8 80) (threeClients 3)).2).1 = .ok 2 :=
  have h := C3_acceptClient_backlog (kernelWith [] 8 80) (threeClients 3)
    (threeClients_registryOk 3) (Or.inl rfl)
  ⟨threeClients_registryOk 3, Or.inl rfl, (h.2.2 rfl (by decide)).1,
    (h.2.2 rfl (by decide)).2 (kernelWith [6] 8 80) (by decide) (by decide) rfl⟩

/-! ## C4: the descriptor-to-id lookup after compaction -/

theorem lookupScenario_fds :
    lookupScenario.m_clientFileDescriptor =
      (((((UnorderedMap.empty.assign 0 5).assign 1 6).assign 2 7).assign 0 (-1)).assign 1 (-1)
        |>.assign 0 7).assign 1 5 := rfl

theorem lookupScenario_order : IterationOrder lookupScenario [2, 1, 0] := by
  refine ⟨by decide, ?_⟩
  intro key
  rw [lookupScenario_fds]
  simp only [UnorderedMap.assign, UnorderedMap.empty, List.mem_cons, List.mem_singleton,
    List.not_mem_nil, or_false]
  constructor
  · rintro (rfl | rfl | rfl) <;> rfl
  · intro h
    by_contra hne
    push_neg at hne
    simp [hne.1, hne.2.1, hne.2.2] at h

/-- C4 (evaluation at the failing input): clients 0, 1, 2 are accepted on descriptors 5, 6, 7,
the peers of 5 and 6 close and a fourth client is accepted.  Next-id is then 2 and the
surviving client (descriptor 7, still live) has id 0, but the copy that compaction left in
slot 2 is still in the map: walked in the order 2, 1, 0, `getClientID 7` returns 2, outside
`[0, next-id)`. -/
theorem C4_getClientID_returns_stale_id :
    getCurrentClientID lookupScenario = 2 ∧
    lookupScenario.m_clientFileDescriptor 0 = some 7 ∧
    lookupScenario.m_clientFileDescriptor 2 = some 7 ∧
    isLive (kernelWith [] 6 60) lookupScenario 0 = true ∧
    IterationOrder lookupScenario [2, 1, 0] ∧
    getClientID [2, 1, 0] lookupScenario 7 = .ok 2 ∧
    ¬ ((2 : Int) < getCurrentClientID lookupScenario) :=
  ⟨by decide, by decide, by decide, by decide, lookupScenario_order, by decide, by decide⟩

/-! ## C5: no two clients hold the same descriptor -/

theorem liveSlots_nodup (k : Kernel) (s : Server) : (liveSlots k s).Nodup :=
  (List.nodup_range _).filter _

theorem liveSlots_fd_ne_sentinel (k : Kernel) (s : Server) (hreg : RegistryOk s) (i : Nat)
    (h : i ∈ liveSlots k s) : s.m_clientFileDescriptor (i : Int) ≠ some (-1) := by
  obtain ⟨hlt, hlive⟩ := liveSlots_lt k s i h
  obtain ⟨fd, hfd⟩ := Option.isSome_iff_exists.mp (hreg i (by omega) hlt).1
  rw [isLive_iff k s i fd (le_of_lt hlt) hfd] at hlive
  intro hc
  rw [hfd] at hc
  cases hc
  simp [goneFd_neg_one] at hlive

theorem acceptClient_distinct (k : Kernel) (s : Server) (hreg : RegistryOk s)
    (hdom : DomainSet s) (hd : DistinctDescriptors s)
    (hfresh : ∀ i ∈ liveSlots k s, s.m_clientFileDescriptor (i : Int) ≠ some k.acceptFd) :
    DistinctDescriptors (acceptClient k s).2 := by
  obtain ⟨s1, -, hcur, hmap, -, -, -, hfull, hroom⟩ := acceptClient_cases k s hreg hdom
  -- below the new next-id the compacted registry holds the live descriptors
  have hs1 : ∀ j : Nat, (hj : j < (liveSlots k s).length) →
      s1.m_clientFileDescriptor (j : Int) =
        s.m_clientFileDescriptor (((liveSlots k s)[j] : Nat) : Int) := by
    intro j hj
    have := slot_of_map_eq s1 s _ hmap j hj
    exact congrArg Prod.fst this
  have hd1 : ∀ i j : Nat, i < (liveSlots k s).length → j < (liveSlots k s).length → i ≠ j →
      s1.m_clientFileDescriptor (i : Int) ≠ s1.m_clientFileDescriptor (j : Int) := by
    intro i j hi hj hij
    rw [hs1 i hi, hs1 j hj]
    have hmi := List.getElem_mem hi
    have hmj := List.getElem_mem hj
    apply hd _ _ (by omega) (liveSlots_lt k s _ hmi).1 (by omega) (liveSlots_lt k s _ hmj).1
    · intro h
      have h' : (liveSlots k s)[i] = (liveSlots k s)[j] := by exact_mod_cast h
      exact hij ((List.Nodup.getElem_inj_iff (liveSlots_nodup k s)).mp h')
    · exact liveSlots_fd_ne_sentinel k s hreg _ hmi
    · exact liveSlots_fd_ne_sentinel k s hreg _ hmj
  have hbelow : ∀ t : Server, (∀ j : Int, j ≠ getCurrentClientID s1 →
      t.m_clientFileDescriptor j = s1.m_clientFileDescriptor j) →
      ∀ i j : Int, 0 ≤ i → i < getCurrentClientID s1 → 0 ≤ j → j < getCurrentClientID s1 →
        i ≠ j → t.m_clientFileDescriptor i ≠ t.m_clientFileDescriptor j := by
    intro t ht i j hi0 hi hj0 hj hij
    obtain ⟨a, rfl⟩ := Int.eq_ofNat_of_zero_le hi0
    obtain ⟨b, rfl⟩ := Int.eq_ofNat_of_zero_le hj0
    rw [ht _ (by omega), ht _ (by omega)]
    exact hd1 a b (by omega) (by omega) (by omega)
  by_cases hm : getMaximumCurrentConnections s ≤ getCurrentClientID s1
  · rw [hfull hm]
    intro i j hi0 hi hj0 hj hij _ _
    exact hbelow s1 (fun _ _ => rfl) i j hi0 hi hj0 hj hij
  · obtain ⟨s3, ⟨hfd3, -, -, hcur3, -⟩, hbad, hgood⟩ := hroom (by omega)
    have h3 : ∀ j : Int, j ≠ getCurrentClientID s1 →
        s3.m_clientFileDescriptor j = s1.m_clientFileDescriptor j := by
      intro j hj
      rw [hfd3, UnorderedMap.assign_other _ _ _ _ hj]
    by_cases hf : k.acceptFd < 0 ∨ k.epollAddFails k.acceptFd = true
    · rw [hbad hf]
      intro i j hi0 hi hj0 hj hij _ _
      rw [hcur3] at hi hj
      exact hbelow s3 h3 i j hi0 hi hj0 hj hij
    · rw [hgood hf]
      have hnew : ∀ i : Int, 0 ≤ i → i < getCurrentClientID s1 →
          s3.m_clientFileDescriptor i ≠ s3.m_clientFileDescriptor (getCurrentClientID s1) := by
        intro i hi0 hi
        obtain ⟨a, rfl⟩ := Int.eq_ofNat_of_zero_le hi0
        rw [h3 _ (by omega), hfd3, UnorderedMap.assign_same, hs1 a (by omega)]
        exact hfresh _ (List.getElem_mem _)
      intro i j hi0 hi hj0 hj hij _ _
      have hi' : i < getCurrentClientID s1 + 1 := hi
      have hj' : j < getCurrentClientID s1 + 1 := hj
      show s3.m_clientFileDescriptor i ≠ s3.m_clientFileDescriptor j
      by_cases hik : i = getCurrentClientID s1
      · rw [hik]
        exact (hnew j hj0 (by omega)).symm
      · by_cases hjk : j = getCurrentClientID s1
        · rw [hjk]
          exact hnew i hi0 (by omega)
        · exact hbelow s3 h3 i j hi0 (by omega) hj0 (by omega) hij

theorem acceptAll_invariant :
    ∀ (ks : List Kernel) (s : Server), RegistryOk s → DomainSet s → DistinctDescriptors s →
      AcceptsFresh ks s → DistinctDescriptors (acceptAll ks s) := by
  intro ks
  induction ks with
  | nil => intro s _ _ hd _; exact hd
  | cons k ks ih =>
    intro s hreg hdom hd hfresh
    obtain ⟨hreg', hdom', -⟩ := acceptClient_preserves k s hreg hdom
    exact ih _ hreg' hdom' (acceptClient_distinct k s hreg hdom hd hfresh.1) hfresh.2

/-- C5: in every state reached from an empty registry (next-id 0) by `acceptClient` calls,
each running its compaction step first, and under the assumption that `accept` never returns
a descriptor held by a slot that is live at that moment, any two distinct ids in
`[0, next-id)` whose descriptors are not `-1` hold different descriptors. -/
theorem C5_no_descriptor_shared (ks : List Kernel) (s0 : Server)
    (hempty : getCurrentClientID s0 = 0) (hdom : DomainSet s0) (hfresh : AcceptsFresh ks s0)
    (i j : Int) (hi0 : 0 ≤ i) (hi : i < getCurrentClientID (acceptAll ks s0))
    (hj0 : 0 ≤ j) (hj : j < getCurrentClientID (acceptAll ks s0)) (hij : i ≠ j)
    (hfi : (acceptAll ks s0).m_clientFileDescriptor i ≠ some (-1))
    (hfj : (acceptAll ks s0).m_clientFileDescriptor j ≠ some (-1)) :
    (acceptAll ks s0).m_clientFileDescriptor i ≠ (acceptAll ks s0).m_clientFileDescriptor j := by
  have hreg : RegistryOk s0 := by
    intro a h0 ha
    rw [hempty] at ha
    omega
  have hd : DistinctDescriptors s0 := by
    intro a b h0 ha
    rw [hempty] at ha
    omega
  exact acceptAll_invariant ks s0 hreg hdom hd hfresh i j hi0 hi hj0 hj hij hfi hfj

/-- Witness for C5: two clients accepted on descriptors 5 and 6 hold different descriptors. -/
theorem C5_no_descriptor_shared_witness :
    (acceptAll [kernelWith [] 5 50, kernelWith [] 6 60] (freshServer 4)).m_clientFileDescriptor 0 ≠
      (acceptAll [kernelWith [] 5 50, kernelWith [] 6 60] (freshServer 4)).m_clientFileDescriptor 1 :=
  C5_no_descriptor_shared [kernelWith [] 5 50, kernelWith [] 6 60] (freshServer 4) rfl (Or.inl rfl)
    ⟨by decide, by decide, trivial⟩ 0 1 (by decide) (by decide) (by decide) (by decide)
    (by decide) (by decide) (by decide)

/-! ## Evaluations of the bulk reads on concrete inputs -/

theorem readXData_two_writes_outcome : (readXData oneClient 0 10 [readOf "ABCD", readOf "EFGHIJ"]).outcome = some (.ok ()) := by
  decide

theorem readXData_two_writes_data : getData (readXData oneClient 0 10 [readOf "ABCD", readOf "EFGHIJ"]).server 0
    = .ok "ABCDEFGHIJ".toList := by
  decide

theorem readTillXData_ping : getData (readTillXData oneClient 0 "\n".toList [readOf "ping\n"]).server 0
    = .ok "ping\n".toList := by
  decide

theorem readTillXComesYTimesData_pipes : getData (readTillXComesYTimesData oneClient 0 "|".toList 3 [readOf "a|b|c|d|"]).server 0
    = .ok "a|b|c|".toList := by
  decide

theorem readTillXComesYTimesData_straddling : getData (readTillXComesYTimesData oneClient 0 "ab".toList 2
    [readOf "xa", readOf "bya", readOf "bz"]).server 0 = .ok "xabyab".toList := by
  decide

/-! ## C6, C7: `readXData` -/

theorem ReadStep.successful_iff (st : ReadStep) :
    st.successful = true ↔
      0 < st.sel.activity ∧ st.sel.isSet = true ∧
        ∃ data, st.rcv = .bytes data ∧ st.payload = data ∧ 1 ≤ data.length ∧
          data.length ≤ BUFFER_SIZE := by
  unfold ReadStep.successful ReadStep.payload
  cases hr : st.rcv with
  | failed e => simp
  | bytes data => simp [and_assoc]

theorem received_cons (st : ReadStep) (steps : List ReadStep) :
    received (st :: steps) = st.payload ++ received steps := by
  simp [received]

theorem received_append (u v : List ReadStep) : received (u ++ v) = received u ++ received v := by
  simp [received]

theorem received_nil : received [] = [] := rfl

theorem readXDataLoop_success (t_clientID t_x : Int) :
    ∀ (steps : List ReadStep) (total : Int) (buf : Bytes) (s : Server),
      (∀ st ∈ steps, st.successful = true) → (buf.length : Int) = total → total < t_x →
      t_x ≤ total + ((received steps).length : Int) →
      ∃ u last unused, steps = u ++ last :: unused ∧
        total + ((received u).length : Int) < t_x ∧
        t_x ≤ total + ((received (u ++ [last])).length : Int) ∧
        readXDataLoop t_clientID t_x total buf s steps =
          ⟨some (.ok ()), setData s t_clientID ((buf ++ received steps).take t_x.toNat), unused⟩ := by
  intro steps
  induction steps with
  | nil =>
    intro total buf s _ _ hlt hle
    simp [received] at hle
    omega
  | cons st steps ih =>
    intro total buf s hall hbuf hlt hle
    obtain ⟨hact, hset, data, hrcv, hpay, h1, _⟩ :=
      (ReadStep.successful_iff st).mp (hall st (List.mem_cons_self _ _))
    have hc1 : ¬ (st.sel.activity < 0 ∧ st.sel.eintr = false) := fun h => by omega
    have hc2 : ¬ (st.sel.activity = 0) := by omega
    have hc3 : ¬ (data.length = 0) := by omega
    rw [received_cons, hpay, List.length_append] at hle
    push_cast at hle
    subst hbuf
    obtain ⟨N, rfl⟩ := Int.eq_ofNat_of_zero_le (by omega : 0 ≤ t_x)
    by_cases hdone : (N : Int) ≤ (buf.length : Int) + (data.length : Int)
    · -- this read completes the count
      refine ⟨[], st, steps, rfl, by simpa [received] using hlt, ?_, ?_⟩
      · rw [List.nil_append, received_cons, hpay, received_nil, List.append_nil]
        exact hdone
      · rw [readXDataLoop, if_neg hc1, if_neg hc2, if_pos hset, hrcv]
        simp only [hc3, if_false]
        have hmin : min (data.length : Int) ((N : Int) - (buf.length : Int))
            = (N : Int) - (buf.length : Int) := by
          apply min_eq_right; omega
        rw [hmin, if_pos (by omega)]
        have e : ((N : Int) - (buf.length : Int)).toNat = N - buf.length := by omega
        have h0 : N - buf.length - data.length = 0 := by omega
        have hb : List.take N buf = buf := List.take_of_length_le (by omega)
        have hR : (buf ++ (data ++ received steps)).take N = buf ++ data.take (N - buf.length) := by
          rw [List.take_append_eq_append_take, hb, List.take_append_eq_append_take, h0,
            List.take_zero, List.append_nil]
        rw [e, Int.toNat_ofNat, received_cons, hpay, hR]
    · -- more reads are needed
      have hall' : ∀ st' ∈ steps, st'.successful = true :=
        fun st' h => hall st' (List.mem_cons_of_mem _ h)
      obtain ⟨u, last, unused, hsplit, hlow, hhigh, hrun⟩ :=
        ih ((buf.length : Int) + (data.length : Int)) (buf ++ data) s hall'
          (by simp) (by omega) (by omega)
      refine ⟨st :: u, last, unused, by rw [hsplit]; rfl, ?_, ?_, ?_⟩
      · rw [received_cons, hpay, List.length_append]
        push_cast
        omega
      · rw [List.cons_append, received_cons, hpay, List.length_append]
        push_cast
        omega
      · rw [readXDataLoop, if_neg hc1, if_neg hc2, if_pos hset, hrcv]
        simp only [hc3, if_false]
        have hmin : min (data.length : Int) ((N : Int) - (buf.length : Int))
            = (data.length : Int) := by
          apply min_eq_left; omega
        rw [hmin, if_neg (by omega)]
        simp only [Int.toNat_ofNat, List.take_length]
        rw [hrun, received_cons, hpay, List.append_assoc]
        simp

theorem readXDataLoop_error (t_clientID t_x : Int) :
    ∀ (steps : List ReadStep) (total : Int) (buf : Bytes) (s : Server) (e : Exn),
      (readXDataLoop t_clientID t_x total buf s steps).outcome = some (.error e) →
      (e = .serverRuntime ∨ e = .serverTimeout) ∧
        (readXDataLoop t_clientID t_x total buf s steps).server = s := by
  intro steps
  induction steps with
  | nil => intro total buf s e h; simp [readXDataLoop] at h
  | cons st steps ih =>
    intro total buf s e
    rw [readXDataLoop]
    split_ifs with h1 h2 h3
    · intro h; simp only [Option.some.injEq, Except.error.injEq] at h; exact ⟨Or.inl h.symm, rfl⟩
    · intro h; simp only [Option.some.injEq, Except.error.injEq] at h; exact ⟨Or.inr h.symm, rfl⟩
    · split
      · exact ih _ _ _ _
      · intro h; simp only [Option.some.injEq, Except.error.injEq] at h; exact ⟨Or.inl h.symm, rfl⟩
      · dsimp only
        split_ifs with h4 h5
        · intro h
          simp only [Option.some.injEq, Except.error.injEq] at h
          exact ⟨Or.inl h.symm, rfl⟩
        · intro h; simp at h
        · exact ih _ _ _ _
    · exact ih _ _ _ _

/-- C6: for every `n > 0` and every sequence of successful reads (each delivering between 1
and 1024 bytes) whose total length is at least `n`, `readXData` succeeds, `getData` is then
exactly the first `n` bytes of the concatenation of the reads, and the call consumes reads
only until `n` bytes are accumulated: the reads before the last consumed one deliver fewer
than `n` bytes, and what the last one delivers beyond `n` is not stored. -/
theorem C6_readXData_stores_first_n (s : Server) (t_clientID fd : Int) (n : Int)
    (steps : List ReadStep)
    (hfd : getClientFileDescriptor s t_clientID = .ok fd) (hfd1 : fd ≠ -1) (hn : 0 < n)
    (hall : ∀ st ∈ steps, st.successful = true)
    (htot : n ≤ ((received steps).length : Int)) :
    (readXData s t_clientID n steps).outcome = some (.ok ()) ∧
    getData (readXData s t_clientID n steps).server t_clientID =
      .ok ((received steps).take n.toNat) ∧
    ((received steps).take n.toNat).length = n.toNat ∧
    ∃ u last unused, steps = u ++ last :: unused ∧
      (readXData s t_clientID n steps).rest = unused ∧
      ((received u).length : Int) < n ∧ n ≤ ((received (u ++ [last])).length : Int) := by
  obtain ⟨u, last, unused, hsplit, hlow, hhigh, hrun⟩ :=
    readXDataLoop_success t_clientID n steps 0 [] (setData s t_clientID []) hall rfl hn
      (by simpa using htot)
  have hrd : readXData s t_clientID n steps =
      ⟨some (.ok ()),
        setData (setData s t_clientID []) t_clientID (([] ++ received steps).take n.toNat),
        unused⟩ := by
    rw [← hrun]
    simp only [readXData, hfd, hfd1, if_false]
    rw [if_neg (by omega)]
  rw [hrd]
  refine ⟨rfl, ?_, ?_, u, last, unused, hsplit, rfl, by simpa using hlow, by simpa using hhigh⟩
  · simp [getData, setData, UnorderedMap.lookupAt, UnorderedMap.assign_same]
  · rw [List.length_take]
    omega

/-- Witness for C6: the reads "ABCD" and "EFGHIJ" with `n = 10` store "ABCDEFGHIJ". -/
theorem C6_readXData_stores_first_n_witness :
    (readXData oneClient 0 10 [readOf "ABCD", readOf "EFGHIJ"]).outcome = some (.ok ()) ∧
    getData (readXData oneClient 0 10 [readOf "ABCD", readOf "EFGHIJ"]).server 0 =
      .ok "ABCDEFGHIJ".toList ∧
    "ABCDEFGHIJ".toList.length = 10 :=
  have h := C6_readXData_stores_first_n oneClient 0 5 10 [readOf "ABCD", readOf "EFGHIJ"]
    (by decide) (by decide) (by decide) (by decide) (by decide)
  ⟨h.1, h.2.1, h.2.2.1⟩

/-- C7: for every client whose registered descriptor is not `-1`, if `readXData` raises, for
whatever reason and after any number of successful reads, `getData` afterwards returns the
empty string: no part of the bytes received during the failed call is stored. -/
theorem C7_readXData_no_partial_result (s : Server) (t_clientID fd : Int) (n : Int)
    (steps : List ReadStep) (e : Exn)
    (hfd : getClientFileDescriptor s t_clientID = .ok fd) (hfd1 : fd ≠ -1)
    (hraise : (readXData s t_clientID n steps).outcome = some (.error e)) :
    getData (readXData s t_clientID n steps).server t_clientID = .ok [] := by
  have hd : getData (setData s t_clientID []) t_clientID = .ok [] := by
    simp [getData, setData, UnorderedMap.lookupAt, UnorderedMap.assign_same]
  simp only [readXData, hfd, hfd1, if_false] at hraise ⊢
  by_cases hx : n ≤ 0
  · rw [if_pos hx]
    exact hd
  · rw [if_neg hx] at hraise ⊢
    rw [(readXDataLoop_error t_clientID n steps 0 [] _ e hraise).2]
    exact hd

/-- Witness for C7: "ABCD" arrives, then the wait times out before 10 bytes are there. -/
theorem C7_readXData_no_partial_result_witness :
    (readXData oneClient 0 10 [readOf "ABCD", ⟨⟨0, false, false⟩, .failed false⟩]).outcome =
      some (.error .serverTimeout) ∧
    getData (readXData oneClient 0 10
      [readOf "ABCD", ⟨⟨0, false, false⟩, .failed false⟩]).server 0 = .ok [] :=
  ⟨by decide,
    C7_readXData_no_partial_result oneClient 0 5 10
      [readOf "ABCD", ⟨⟨0, false, false⟩, .failed false⟩] .serverTimeout (by decide) (by decide)
      (by decide)⟩

/-! ## C8: `readTillXData` -/

theorem findFrom_some (x : Bytes) :
    ∀ (l : Bytes) (p q : Nat), findFrom x l p = some q →
      ∃ a b, l = a ++ x ++ b ∧ q = p + a.length ∧
        ∀ a' b', l = a' ++ x ++ b' → a.length ≤ a'.length := by
  intro l
  induction l with
  | nil =>
    intro p q h
    simp only [findFrom, List.isPrefixOf_iff_prefix, List.prefix_nil] at h
    split_ifs at h with hx
    subst hx
    refine ⟨[], [], rfl, ?_, fun _ _ _ => Nat.zero_le _⟩
    simpa using h.symm
  | cons c cs ih =>
    intro p q h
    rw [findFrom] at h
    split_ifs at h with hp
    · obtain ⟨b, hb⟩ := List.isPrefixOf_iff_prefix.mp hp
      refine ⟨[], b, by simpa using hb.symm, by simpa using h.symm, fun _ _ _ => Nat.zero_le _⟩
    · obtain ⟨a, b, hl, hq, hmin⟩ := ih (p + 1) q h
      refine ⟨c :: a, b, by rw [hl]; rfl, by rw [hq, List.length_cons]; omega, ?_⟩
      intro a' b' h'
      cases a' with
      | nil =>
        exfalso
        apply hp
        exact List.isPrefixOf_iff_prefix.mpr ⟨b', by simpa using h'.symm⟩
      | cons c' a'' =>
        simp only [List.cons_append, List.cons.injEq] at h'
        have := hmin a'' b' (by rw [h'.2])
        simp only [List.length_cons]
        omega

theorem findFrom_none (x : Bytes) :
    ∀ (l : Bytes) (p : Nat), findFrom x l p = none → ¬ x <:+: l := by
  intro l
  induction l with
  | nil =>
    intro p h
    simp only [findFrom, List.isPrefixOf_iff_prefix, List.prefix_nil] at h
    split_ifs at h with hx
    simpa using hx
  | cons c cs ih =>
    intro p h
    rw [findFrom] at h
    split_ifs at h with hp
    rw [List.infix_cons_iff]
    rintro (h1 | h2)
    · exact hp (List.isPrefixOf_iff_prefix.mpr h1)
    · exact ih (p + 1) h h2

theorem find_zero (l x : Bytes) : find l x 0 = findFrom x l 0 := by
  simp [find]

theorem readTillXDataLoop_success (t_clientID : Int) (d : Bytes) :
    ∀ (steps : List ReadStep) (buf : Bytes) (s : Server),
      (∀ st ∈ steps, st.successful = true) → ¬ d <:+: buf → d <:+: buf ++ received steps →
      ∃ u last unused a b, steps = u ++ last :: unused ∧
        ¬ d <:+: buf ++ received u ∧
        buf ++ received (u ++ [last]) = a ++ d ++ b ∧
        (∀ a' b', buf ++ received (u ++ [last]) = a' ++ d ++ b' → a.length ≤ a'.length) ∧
        readTillXDataLoop t_clientID d buf s steps =
          ⟨some (.ok ()), setData s t_clientID (a ++ d), unused⟩ := by
  intro steps
  induction steps with
  | nil =>
    intro buf s _ hno hyes
    rw [received_nil, List.append_nil] at hyes
    exact absurd hyes hno
  | cons st steps ih =>
    intro buf s hall hno hyes
    obtain ⟨hact, hset, data, hrcv, hpay, h1, _⟩ :=
      (ReadStep.successful_iff st).mp (hall st (List.mem_cons_self _ _))
    have hc1 : ¬ (st.sel.activity < 0 ∧ st.sel.eintr = false) := fun h => by omega
    have hc2 : ¬ (st.sel.activity = 0) := by omega
    have hc3 : ¬ (data.length = 0) := by omega
    cases hf : find (buf ++ data) d 0 with
    | some pos =>
      rw [find_zero] at hf
      obtain ⟨a, b, hl, hq, hmin⟩ := findFrom_some d _ _ _ hf
      have hrec : buf ++ received ([] ++ [st]) = buf ++ data := by
        rw [List.nil_append, received_cons, hpay, received_nil, List.append_nil]
      refine ⟨[], st, steps, a, b, rfl, by rwa [received_nil, List.append_nil], ?_, ?_, ?_⟩
      · rw [hrec, hl]
      · rw [hrec]; exact hmin
      · rw [readTillXDataLoop, if_neg hc1, if_neg hc2, if_pos hset, hrcv]
        simp only [hc3, if_false, find_zero, hf]
        congr 2
        rw [hl, List.append_assoc a d b, ← List.append_assoc a d b]
        apply List.take_left'
        rw [List.length_append, hq]
        omega
    | none =>
      have hno' : ¬ d <:+: buf ++ data := by
        rw [find_zero] at hf
        exact findFrom_none d _ _ hf
      have hall' : ∀ st' ∈ steps, st'.successful = true :=
        fun st' h => hall st' (List.mem_cons_of_mem _ h)
      obtain ⟨u, last, unused, a, b, hsplit, hnou, hab, hmin, hrun⟩ :=
        ih (buf ++ data) s hall' hno'
          (by rwa [received_cons, hpay, ← List.append_assoc] at hyes)
      have hrec : ∀ w, buf ++ received (st :: w) = buf ++ data ++ received w := by
        intro w
        rw [received_cons, hpay, List.append_assoc]
      refine ⟨st :: u, last, unused, a, b, by rw [hsplit]; rfl, ?_, ?_, ?_, ?_⟩
      · rwa [hrec]
      · rw [List.cons_append, hrec]; exact hab
      · rw [List.cons_append, hrec]; exact hmin
      · rw [readTillXDataLoop, if_neg hc1, if_neg hc2, if_pos hset, hrcv]
        simp only [hc3, if_false, hf]
        exact hrun

/-- C8: for every non-empty delimiter `d` and every sequence of successful reads whose
concatenation contains `d`, `readTillXData` succeeds at the first read after which the
accumulated bytes contain `d` (the later reads are left unconsumed) and stores the prefix of
the accumulated bytes that ends with the first occurrence of `d`: the stored buffer has `d`
as a suffix and `d` occurs nowhere else in it, wherever the read boundaries fall. -/
theorem C8_readTillXData_stores_through_first_delimiter (s : Server) (t_clientID fd : Int)
    (d : Bytes) (steps : List ReadStep)
    (hfd : getClientFileDescriptor s t_clientID = .ok fd) (hfd1 : fd ≠ -1) (hd : d ≠ [])
    (hall : ∀ st ∈ steps, st.successful = true) (hin : d <:+: received steps) :
    (readTillXData s t_clientID d steps).outcome = some (.ok ()) ∧
    ∃ u last unused a, steps = u ++ last :: unused ∧
      (readTillXData s t_clientID d steps).rest = unused ∧
      ¬ d <:+: received u ∧ d <:+: received (u ++ [last]) ∧
      getData (readTillXData s t_clientID d steps).server t_clientID = .ok (a ++ d) ∧
      a ++ d <+: received (u ++ [last]) ∧
      (∀ a' b', received (u ++ [last]) = a' ++ d ++ b' → a.length ≤ a'.length) ∧
      (∀ a' b', a ++ d = a' ++ d ++ b' → b' = []) := by
  have hno : ¬ d <:+: ([] : Bytes) := by simpa using hd
  obtain ⟨u, last, unused, a, b, hsplit, hnou, hab, hmin, hrun⟩ :=
    readTillXDataLoop_success t_clientID d steps [] (setData s t_clientID []) hall hno
      (by simpa using hin)
  simp only [List.nil_append] at hnou hab hmin
  have hde : d.isEmpty = false := by
    cases d with
    | nil => exact absurd rfl hd
    | cons _ _ => rfl
  have hrd : readTillXData s t_clientID d steps =
      ⟨some (.ok ()), setData (setData s t_clientID []) t_clientID (a ++ d), unused⟩ := by
    rw [← hrun]
    simp only [readTillXData, hfd, hfd1, if_false, hde]
    rfl
  rw [hrd]
  refine ⟨rfl, u, last, unused, a, hsplit, rfl, hnou, ?_, ?_, ?_, hmin, ?_⟩
  · exact ⟨a, b, hab.symm⟩
  · simp [getData, setData, UnorderedMap.lookupAt, UnorderedMap.assign_same]
  · exact ⟨b, by rw [hab]⟩
  · intro a' b' h'
    have h1 := hmin a' (b' ++ b) (by rw [hab, h', List.append_assoc])
    have h2 := congrArg List.length h'
    simp only [List.length_append] at h2
    exact List.length_eq_zero.mp (by omega)

/-- Witness for C8: the read "ping\n" with delimiter "\n" stores "ping\n". -/
theorem C8_readTillXData_stores_through_first_delimiter_witness :
    (readTillXData oneClient 0 "\n".toList [readOf "ping\n"]).outcome = some (.ok ()) ∧
    getData (readTillXData oneClient 0 "\n".toList [readOf "ping\n"]).server 0 =
      .ok "ping\n".toList :=
  have h := C8_readTillXData_stores_through_first_delimiter oneClient 0 5 "\n".toList
    [readOf "ping\n"] (by decide) (by decide) (by decide) (by decide)
    ⟨"ping".toList, [], rfl⟩
  ⟨h.1, by decide⟩

theorem readTillXData_straddling : getData (readTillXData oneClient 0 "ab".toList
    [readOf "xa", readOf "bab", readOf "zz"]).server 0 = .ok "xab".toList := by decide

theorem readTillXData_straddling_rest : (readTillXData oneClient 0 "ab".toList
    [readOf "xa", readOf "bab", readOf "zz"]).rest = [readOf "zz"] := by decide

/-! ## C9: `readTillXComesYTimesData` -/

theorem find_eq (l x : Bytes) (p : Nat) (hp : p ≤ l.length) :
    find l x p = findFrom x (l.drop p) p := by
  simp [find, hp]

theorem find_some (l x : Bytes) (p q : Nat) (h : find l x p = some q) :
    p ≤ l.length ∧ ∃ a b, l.drop p = a ++ x ++ b ∧ q = p + a.length ∧
      ∀ a' b', l.drop p = a' ++ x ++ b' → a.length ≤ a'.length := by
  unfold find at h
  split_ifs at h with hp
  exact ⟨hp, findFrom_some x _ _ _ h⟩

theorem find_some_le (l x : Bytes) (p q : Nat) (h : find l x p = some q) :
    p ≤ q ∧ q + x.length ≤ l.length := by
  obtain ⟨hp, a, b, hl, hq, -⟩ := find_some l x p q h
  have := congrArg List.length hl
  simp only [List.length_drop, List.length_append] at this
  omega

theorem findFrom_append (x : Bytes) :
    ∀ (l t : Bytes) (p q : Nat), findFrom x l p = some q → findFrom x (l ++ t) p = some q := by
  intro l
  induction l with
  | nil =>
    intro t p q h
    simp only [findFrom, List.isPrefixOf_iff_prefix, List.prefix_nil] at h
    split_ifs at h with hx
    subst hx
    cases t with
    | nil => simpa [findFrom] using h
    | cons c cs => simpa [findFrom] using h
  | cons c cs ih =>
    intro t p q h
    rw [findFrom] at h
    rw [List.cons_append, findFrom]
    split_ifs at h with hp
    · have hp' : x <+: c :: (cs ++ t) :=
        (List.isPrefixOf_iff_prefix.mp hp).trans (List.prefix_append (c :: cs) t)
      rw [if_pos (List.isPrefixOf_iff_prefix.mpr hp')]
      exact h
    · have hnp : ¬ x.isPrefixOf (c :: (cs ++ t)) = true := by
        intro hc
        have hc' : x <+: (c :: cs) ++ t := List.isPrefixOf_iff_prefix.mp hc
        obtain ⟨a, b, hl, -, -⟩ := findFrom_some x cs (p + 1) q h
        have hlen : x.length ≤ (c :: cs).length := by
          have := congrArg List.length hl
          simp only [List.length_append, List.length_cons] at this ⊢
          omega
        exact hp (List.isPrefixOf_iff_prefix.mpr
          (List.prefix_of_prefix_length_le hc' (List.prefix_append _ _) hlen))
      rw [if_neg hnp]
      exact ih t (p + 1) q h

theorem find_append_some (buf t x : Bytes) (p q : Nat) (h : find buf x p = some q) :
    find (buf ++ t) x p = some q := by
  have hp := (find_some buf x p q h).1
  rw [find_eq _ _ _ hp] at h
  rw [find_eq _ _ _ (by rw [List.length_append]; omega), List.drop_append_of_le_length hp]
  exact findFrom_append x _ t p q h

theorem find_append_none (buf t x : Bytes) (p q : Nat) (hp : p ≤ buf.length)
    (hn : find buf x p = none) (h : find (buf ++ t) x p = some q) :
    buf.length < q + x.length := by
  by_contra hle
  obtain ⟨-, a, b, hl, hq, -⟩ := find_some _ _ _ _ h
  rw [List.drop_append_of_le_length hp] at hl
  rw [find_eq _ _ _ hp] at hn
  apply findFrom_none x _ _ hn
  have hpre : a ++ x <+: buf.drop p ++ t := ⟨b, hl.symm⟩
  have hlen : (a ++ x).length ≤ (buf.drop p).length := by
    simp only [List.length_append, List.length_drop]
    omega
  obtain ⟨r, hr⟩ := List.prefix_of_prefix_length_le hpre (List.prefix_append _ _) hlen
  exact ⟨a, r, hr⟩

theorem nthOccurrenceEnd_ge (d w : Bytes) :
    ∀ (j start e : Nat), nthOccurrenceEnd d w j start = some e → start ≤ e := by
  intro j
  induction j with
  | zero => intro start e h; simp only [nthOccurrenceEnd, Option.some.injEq] at h; omega
  | succ j ih =>
    intro start e h
    rw [nthOccurrenceEnd] at h
    cases hf : find w d start with
    | none => rw [hf] at h; cases h
    | some pos =>
      rw [hf] at h
      have := ih _ _ h
      have := (find_some_le w d start pos hf).1
      omega

theorem scanDelimiters_spec (buf t d : Bytes) (hd : d ≠ []) (t_y : Int) (e : Nat) :
    ∀ (fuel : Nat) (count : Int) (p j : Nat), 1 ≤ j → t_y - count = (j : Int) →
      p ≤ buf.length → buf.length < fuel + p →
      nthOccurrenceEnd d (buf ++ t) j p = some e →
      (scanDelimiters buf d t_y fuel count p = .found e ∧ e ≤ buf.length) ∨
      (∃ (count1 : Int) (p1 j1 : Nat), scanDelimiters buf d t_y fuel count p = .notYet count1 p1 ∧
        1 ≤ j1 ∧ t_y - count1 = (j1 : Int) ∧ p1 ≤ buf.length ∧
        nthOccurrenceEnd d (buf ++ t) j1 p1 = some e ∧ find buf d p1 = none) := by
  have hdl : 1 ≤ d.length := by
    cases d with
    | nil => exact absurd rfl hd
    | cons _ _ => simp
  intro fuel
  induction fuel with
  | zero => intro count p j _ _ hp hfuel _; omega
  | succ fuel ih =>
    intro count p j hj hcnt hp hfuel hR
    rw [scanDelimiters]
    cases hf : find buf d p with
    | none => exact Or.inr ⟨count, p, j, rfl, hj, hcnt, hp, hR, hf⟩
    | some pos =>
      have hw := find_append_some buf t d p pos hf
      obtain ⟨hpp, hpl⟩ := find_some_le buf d p pos hf
      obtain ⟨j0, rfl⟩ : ∃ j0, j = j0 + 1 := ⟨j - 1, by omega⟩
      rw [nthOccurrenceEnd, hw] at hR
      simp only at hR ⊢
      by_cases hlast : count + 1 = t_y
      · rw [if_pos hlast]
        have hj0 : j0 = 0 := by push_cast at hcnt; omega
        subst hj0
        simp only [nthOccurrenceEnd, Option.some.injEq] at hR
        subst hR
        exact Or.inl ⟨rfl, hpl⟩
      · rw [if_neg hlast]
        exact ih (count + 1) (pos + d.length) j0 (by push_cast at hcnt; omega)
          (by push_cast at hcnt; omega) hpl (by omega) hR

theorem scanDelimiters_fuel (buf d : Bytes) (hd : d ≠ []) (t_y : Int) :
    ∀ (fuel : Nat) (count : Int) (p : Nat), buf.length < fuel + p →
      scanDelimiters buf d t_y (fuel + 1) count p = scanDelimiters buf d t_y fuel count p := by
  have hdl : 1 ≤ d.length := by
    cases d with
    | nil => exact absurd rfl hd
    | cons _ _ => simp
  intro fuel
  induction fuel with
  | zero =>
    intro count p h
    have hf : find buf d p = none := by
      unfold find
      rw [if_neg (by omega)]
    simp only [scanDelimiters, hf]
  | succ fuel ih =>
    intro count p h
    have e1 : ∀ f : Nat, scanDelimiters buf d t_y (f + 1) count p =
        match find buf d p with
        | none => .notYet count p
        | some pos =>
          if count + 1 = t_y then .found (pos + d.length)
          else scanDelimiters buf d t_y f (count + 1) (pos + d.length) := fun _ => rfl
    rw [e1 (fuel + 1), e1 fuel]
    cases hf : find buf d p with
    | none => rfl
    | some pos =>
      obtain ⟨hpp, -⟩ := find_some_le buf d p pos hf
      simp only
      split_ifs
      · rfl
      · exact ih _ _ (by omega)

theorem readTillXComesYTimesDataLoop_success (t_clientID : Int) (d : Bytes) (hd : d ≠ [])
    (t_y : Int) (w : Bytes) (e : Nat) :
    ∀ (steps : List ReadStep) (count : Int) (p : Nat) (buf : Bytes) (s : Server) (j : Nat),
      (∀ st ∈ steps, st.successful = true) → w = buf ++ received steps →
      1 ≤ j → t_y - count = (j : Int) → p ≤ buf.length →
      nthOccurrenceEnd d w j p = some e → find buf d p = none →
      ∃ u last unused, steps = u ++ last :: unused ∧
        (buf ++ received u).length < e ∧ e ≤ (buf ++ received (u ++ [last])).length ∧
        readTillXComesYTimesDataLoop t_clientID d t_y count p buf s steps =
          ⟨some (.ok ()), setData s t_clientID (w.take e), unused⟩ := by
  intro steps
  induction steps with
  | nil =>
    intro count p buf s j _ hw hj _ _ hR hnone
    exfalso
    rw [received_nil, List.append_nil] at hw
    subst hw
    obtain ⟨j0, rfl⟩ : ∃ j0, j = j0 + 1 := ⟨j - 1, by omega⟩
    rw [nthOccurrenceEnd, hnone] at hR
    cases hR
  | cons st steps ih =>
    intro count p buf s j hall hw hj hcnt hp hR hnone
    obtain ⟨hact, hset, data, hrcv, hpay, h1, _⟩ :=
      (ReadStep.successful_iff st).mp (hall st (List.mem_cons_self _ _))
    have hc1 : ¬ (st.sel.activity < 0 ∧ st.sel.eintr = false) := fun h => by omega
    have hc2 : ¬ (st.sel.activity = 0) := by omega
    have hc3 : ¬ (data.length = 0) := by omega
    have hall' : ∀ st' ∈ steps, st'.successful = true :=
      fun st' h => hall st' (List.mem_cons_of_mem _ h)
    have hw1 : w = (buf ++ data) ++ received steps := by
      rw [hw, received_cons, hpay, List.append_assoc]
    -- the match that is still missing ends beyond the bytes scanned so far
    have hbeyond : buf.length < e := by
      obtain ⟨j0, rfl⟩ : ∃ j0, j = j0 + 1 := ⟨j - 1, by omega⟩
      have hR' := hR
      rw [nthOccurrenceEnd] at hR'
      cases hf : find w d p with
      | none => rw [hf] at hR'; cases hR'
      | some q =>
        rw [hf] at hR'
        have h1 := nthOccurrenceEnd_ge d w _ _ _ hR'
        rw [hw] at hf
        have h2 := find_append_none buf _ d p q hp hnone hf
        omega
    have hrec : ∀ v, buf ++ received (st :: v) = buf ++ data ++ received v := by
      intro v
      rw [received_cons, hpay, List.append_assoc]
    rw [hw1] at hR
    rcases scanDelimiters_spec (buf ++ data) (received steps) d hd t_y e
        ((buf ++ data).length + 1) count p j hj hcnt
        (by rw [List.length_append]; omega) (by omega) hR with
      ⟨hscan, hle⟩ | ⟨count1, p1, j1, hscan, hj1, hcnt1, hp1, hR1, hnone1⟩
    · refine ⟨[], st, steps, rfl, by rwa [received_nil, List.append_nil], ?_, ?_⟩
      · rw [List.nil_append, hrec, received_nil, List.append_nil]
        exact hle
      · rw [readTillXComesYTimesDataLoop, if_neg hc1, if_neg hc2, if_pos hset, hrcv]
        simp only [hc3, if_false, hscan]
        rw [hw1, List.take_append_of_le_length hle]
    · rw [← hw1] at hR1
      obtain ⟨u, last, unused, hsplit, hlow, hhigh, hrun⟩ :=
        ih count1 p1 (buf ++ data) s j1 hall' hw1 hj1 hcnt1 hp1 hR1 hnone1
      refine ⟨st :: u, last, unused, by rw [hsplit]; rfl, ?_, ?_, ?_⟩
      · rwa [hrec]
      · rwa [List.cons_append, hrec]
      · rw [readTillXComesYTimesDataLoop, if_neg hc1, if_neg hc2, if_pos hset, hrcv]
        simp only [hc3, if_false, hscan]
        exact hrun

theorem nthOccurrenceEnd_pieces (d w : Bytes) :
    ∀ (k start e : Nat), nthOccurrenceEnd d w k start = some e → start ≤ w.length →
      e ≤ w.length ∧ ∃ pieces : List Bytes, pieces.length = k ∧
        (w.drop start).take (e - start) = pieces.flatten ∧ ∀ p ∈ pieces, EndsWithOnly d p := by
  intro k
  induction k with
  | zero =>
    intro start e h hs
    simp only [nthOccurrenceEnd, Option.some.injEq] at h
    subst h
    exact ⟨hs, [], rfl, by simp, by simp⟩
  | succ k ih =>
    intro start e h hs
    rw [nthOccurrenceEnd] at h
    cases hf : find w d start with
    | none => rw [hf] at h; cases h
    | some pos =>
      rw [hf] at h
      simp only at h
      obtain ⟨-, a, b, hl, hq, hmin⟩ := find_some w d start pos hf
      obtain ⟨-, hpl⟩ := find_some_le w d start pos hf
      obtain ⟨hew, pieces, hlen, hflat, hall⟩ := ih _ _ h hpl
      have hge := nthOccurrenceEnd_ge d w _ _ _ h
      have hdrop : w.drop (pos + d.length) = b := by
        have : w.drop (pos + d.length) = (w.drop start).drop ((a ++ d).length) := by
          rw [List.drop_drop, List.length_append, hq]
          congr 1
          omega
        rw [this, hl]
        exact List.drop_left' rfl
      refine ⟨hew, (a ++ d) :: pieces, by simp [hlen], ?_, ?_⟩
      · rw [List.flatten_cons, ← hflat, hdrop, hl]
        have : e - start = (a ++ d).length + (e - (pos + d.length)) := by
          rw [List.length_append]; omega
        rw [this, List.take_append]
      · intro p hp
        rcases List.mem_cons.mp hp with rfl | hp'
        · refine ⟨⟨a, rfl⟩, ?_⟩
          intro a' b' h'
          have h1 := hmin a' (b' ++ b) (by rw [hl, h', List.append_assoc])
          have h2 := congrArg List.length h'
          simp only [List.length_append] at h2
          exact List.length_eq_zero.mp (by omega)
        · exact hall p hp'

theorem find_nil_none (d : Bytes) (hd : d ≠ []) : find [] d 0 = none := by
  cases d with
  | nil => exact absurd rfl hd
  | cons c cs => rfl

theorem readTillXComesYTimesData_success (s : Server) (t_clientID fd : Int) (d : Bytes) (k : Nat)
    (steps : List ReadStep) (e : Nat)
    (hfd : getClientFileDescriptor s t_clientID = .ok fd) (hfd1 : fd ≠ -1) (hd : d ≠ [])
    (hk : 0 < k) (hall : ∀ st ∈ steps, st.successful = true)
    (hocc : nthOccurrenceEnd d (received steps) k 0 = some e) :
    ∃ u last unused, steps = u ++ last :: unused ∧
      (received u).length < e ∧ e ≤ (received (u ++ [last])).length ∧
      readTillXComesYTimesData s t_clientID d (k : Int) steps =
        ⟨some (.ok ()),
          setData (setData s t_clientID []) t_clientID ((received steps).take e), unused⟩ := by
  obtain ⟨u, last, unused, hsplit, hlow, hhigh, hrun⟩ :=
    readTillXComesYTimesDataLoop_success t_clientID d hd (k : Int) (received steps) e steps 0 0 []
      (setData s t_clientID []) k hall (by simp) hk (by simp) (Nat.zero_le _) hocc
      (find_nil_none d hd)
  have hde : d.isEmpty = false := by
    cases d with
    | nil => exact absurd rfl hd
    | cons _ _ => rfl
  refine ⟨u, last, unused, hsplit, by simpa using hlow, by simpa using hhigh, ?_⟩
  rw [← hrun]
  simp only [readTillXComesYTimesData, hfd, hfd1, if_false, hde]
  rw [if_neg (show ¬ ((k : Int) ≤ 0) by omega)]
  rfl

/-- C9: for every non-empty delimiter `d`, every `k > 0` and every sequence of successful
reads whose concatenation holds at least `k` non-overlapping occurrences of `d` (scanning
left to right, resuming after each match, the `k`-th ending at position `e`),
`readTillXComesYTimesData` succeeds and stores the prefix of the concatenation that ends
with the `k`-th occurrence.  The stored buffer consists of exactly `k` pieces, each ending
with its only occurrence of `d`; the call consumes reads only until that prefix is
complete; and any other split of the same bytes into successful reads stores the same
buffer. -/
theorem C9_readTillXComesYTimesData_stores_through_kth (s : Server) (t_clientID fd : Int)
    (d : Bytes) (k : Nat) (steps : List ReadStep) (e : Nat)
    (hfd : getClientFileDescriptor s t_clientID = .ok fd) (hfd1 : fd ≠ -1) (hd : d ≠ [])
    (hk : 0 < k) (hall : ∀ st ∈ steps, st.successful = true)
    (hocc : nthOccurrenceEnd d (received steps) k 0 = some e) :
    (readTillXComesYTimesData s t_clientID d (k : Int) steps).outcome = some (.ok ()) ∧
    getData (readTillXComesYTimesData s t_clientID d (k : Int) steps).server t_clientID =
      .ok ((received steps).take e) ∧
    Occurrences d k ((received steps).take e) ∧
    (∃ u last unused, steps = u ++ last :: unused ∧
      (readTillXComesYTimesData s t_clientID d (k : Int) steps).rest = unused ∧
      (received u).length < e ∧ e ≤ (received (u ++ [last])).length) ∧
    (∀ steps2 : List ReadStep, (∀ st ∈ steps2, st.successful = true) →
      received steps2 = received steps →
      getData (readTillXComesYTimesData s t_clientID d (k : Int) steps2).server t_clientID =
        .ok ((received steps).take e)) := by
  have hget : ∀ t : Bytes, getData (setData (setData s t_clientID []) t_clientID t) t_clientID
      = .ok t := by
    intro t
    simp [getData, setData, UnorderedMap.lookupAt, UnorderedMap.assign_same]
  obtain ⟨u, last, unused, hsplit, hlow, hhigh, hrun⟩ :=
    readTillXComesYTimesData_success s t_clientID fd d k steps e hfd hfd1 hd hk hall hocc
  refine ⟨by rw [hrun], by rw [hrun]; exact hget _, ?_, ⟨u, last, unused, hsplit, by rw [hrun],
    hlow, hhigh⟩, ?_⟩
  · obtain ⟨-, pieces, hlen, hflat, hp⟩ :=
      nthOccurrenceEnd_pieces d (received steps) k 0 e hocc (Nat.zero_le _)
    exact ⟨pieces, hlen, by simpa using hflat, hp⟩
  · intro steps2 hall2 hsame
    obtain ⟨_, _, unused2, -, -, -, hrun2⟩ :=
      readTillXComesYTimesData_success s t_clientID fd d k steps2 e hfd hfd1 hd hk hall2
        (by rw [hsame]; exact hocc)
    rw [hrun2, hsame]
    exact hget _

/-- Witness for C9: "a|b|c|d|" with delimiter "|" and `k = 3` stores "a|b|c|" (6 bytes). -/
theorem C9_readTillXComesYTimesData_stores_through_kth_witness :
    (readTillXComesYTimesData oneClient 0 "|".toList 3 [readOf "a|b|c|d|"]).outcome =
      some (.ok ()) ∧
    getData (readTillXComesYTimesData oneClient 0 "|".toList 3 [readOf "a|b|c|d|"]).server 0 =
      .ok "a|b|c|".toList ∧
    "a|b|c|".toList.length = 6 ∧
    getData (readTillXComesYTimesData oneClient 0 "|".toList 3
      [readOf "a|b", readOf "|c|d", readOf "|"]).server 0 = .ok "a|b|c|".toList :=
  have h := C9_readTillXComesYTimesData_stores_through_kth oneClient 0 5 "|".toList 3
    [readOf "a|b|c|d|"] 6 (by decide) (by decide) (by decide) (by decide) (by decide) (by decide)
  ⟨h.1, h.2.1, by decide,
    h.2.2.2.2 [readOf "a|b", readOf "|c|d", readOf "|"] (by decide) (by decide)⟩

/-! ## C10: argument validation of the bulk reads -/

theorem readTillXDataLoop_error (t_clientID : Int) (d : Bytes) :
    ∀ (steps : List ReadStep) (buf : Bytes) (s : Server) (e : Exn),
      (readTillXDataLoop t_clientID d buf s steps).outcome = some (.error e) →
      (e = .serverRuntime ∨ e = .serverTimeout) ∧
        (readTillXDataLoop t_clientID d buf s steps).server = s := by
  intro steps
  induction steps with
  | nil => intro buf s e h; simp [readTillXDataLoop] at h
  | cons st steps ih =>
    intro buf s e
    rw [readTillXDataLoop]
    split_ifs with h1 h2 h3
    · intro h; simp only [Option.some.injEq, Except.error.injEq] at h; exact ⟨Or.inl h.symm, rfl⟩
    · intro h; simp only [Option.some.injEq, Except.error.injEq] at h; exact ⟨Or.inr h.symm, rfl⟩
    · split
      · exact ih _ _ _
      · intro h; simp only [Option.some.injEq, Except.error.injEq] at h; exact ⟨Or.inl h.symm, rfl⟩
      · dsimp only
        split_ifs with h4
        · intro h
          simp only [Option.some.injEq, Except.error.injEq] at h
          exact ⟨Or.inl h.symm, rfl⟩
        · split
          · intro h; simp at h
          · exact ih _ _ _
    · exact ih _ _ _

theorem readTillXComesYTimesDataLoop_error (t_clientID : Int) (d : Bytes) (t_y : Int) :
    ∀ (steps : List ReadStep) (count : Int) (p : Nat) (buf : Bytes) (s : Server) (e : Exn),
      (readTillXComesYTimesDataLoop t_clientID d t_y count p buf s steps).outcome =
        some (.error e) →
      (e = .serverRuntime ∨ e = .serverTimeout) ∧
        (readTillXComesYTimesDataLoop t_clientID d t_y count p buf s steps).server = s := by
  intro steps
  induction steps with
  | nil => intro count p buf s e h; simp [readTillXComesYTimesDataLoop] at h
  | cons st steps ih =>
    intro count p buf s e
    rw [readTillXComesYTimesDataLoop]
    split_ifs with h1 h2 h3
    · intro h; simp only [Option.some.injEq, Except.error.injEq] at h; exact ⟨Or.inl h.symm, rfl⟩
    · intro h; simp only [Option.some.injEq, Except.error.injEq] at h; exact ⟨Or.inr h.symm, rfl⟩
    · split
      · exact ih _ _ _ _ _
      · intro h; simp only [Option.some.injEq, Except.error.injEq] at h; exact ⟨Or.inl h.symm, rfl⟩
      · dsimp only
        split_ifs with h4
        · intro h
          simp only [Option.some.injEq, Except.error.injEq] at h
          exact ⟨Or.inl h.symm, rfl⟩
        · split
          · intro h; simp at h
          · exact ih _ _ _ _ _
    · exact ih _ _ _ _ _

/-- C10: for every client with a registered descriptor (not the sentinel `-1`), `readXData`
with `n <= 0`, `readTillXData` with an empty delimiter and `readTillXComesYTimesData` with an
empty delimiter or `k <= 0` raise `InvalidArgument` without consuming any answer of the
kernel (no readiness wait, no read); with valid arguments none of the three raises
`InvalidArgument`, whatever the kernel answers. -/
theorem C10_bulk_reads_validate_arguments (s : Server) (t_clientID fd : Int)
    (steps : List ReadStep)
    (hfd : getClientFileDescriptor s t_clientID = .ok fd) (hfd1 : fd ≠ -1) :
    (∀ n : Int, n ≤ 0 →
      (readXData s t_clientID n steps).outcome = some (.error .invalidArgument) ∧
      (readXData s t_clientID n steps).rest = steps) ∧
    ((readTillXData s t_clientID [] steps).outcome = some (.error .invalidArgument) ∧
      (readTillXData s t_clientID [] steps).rest = steps) ∧
    (∀ (d : Bytes) (k : Int), d = [] ∨ k ≤ 0 →
      (readTillXComesYTimesData s t_clientID d k steps).outcome = some (.error .invalidArgument) ∧
      (readTillXComesYTimesData s t_clientID d k steps).rest = steps) ∧
    (∀ n : Int, 0 < n →
      (readXData s t_clientID n steps).outcome ≠ some (.error .invalidArgument)) ∧
    (∀ d : Bytes, d ≠ [] →
      (readTillXData s t_clientID d steps).outcome ≠ some (.error .invalidArgument)) ∧
    (∀ (d : Bytes) (k : Int), d ≠ [] → 0 < k →
      (readTillXComesYTimesData s t_clientID d k steps).outcome ≠
        some (.error .invalidArgument)) := by
  have hne : ∀ d : Bytes, d ≠ [] → d.isEmpty = false := by
    intro d hd
    cases d with
    | nil => exact absurd rfl hd
    | cons _ _ => rfl
  refine ⟨?_, ?_, ?_, ?_, ?_, ?_⟩
  · intro n hn
    simp only [readXData, hfd, hfd1, if_false]
    rw [if_pos hn]
    exact ⟨rfl, rfl⟩
  · simp only [readTillXData, hfd, hfd1, if_false]
    exact ⟨rfl, rfl⟩
  · intro d k h
    simp only [readTillXComesYTimesData, hfd, hfd1, if_false]
    cases d with
    | nil => exact ⟨rfl, rfl⟩
    | cons c cs =>
      have hk : k ≤ 0 := by
        rcases h with h | h
        · cases h
        · exact h
      rw [List.isEmpty_cons, if_neg (by decide), if_pos hk]
      exact ⟨rfl, rfl⟩
  · intro n hn h
    simp only [readXData, hfd, hfd1, if_false] at h
    rw [if_neg (show ¬ n ≤ 0 by omega)] at h
    rcases (readXDataLoop_error _ _ _ _ _ _ _ h).1 with h' | h' <;> cases h'
  · intro d hd h
    simp only [readTillXData, hfd, hfd1, if_false, hne d hd] at h
    rcases (readTillXDataLoop_error _ _ _ _ _ _ h).1 with h' | h' <;> cases h'
  · intro d k hd hk h
    simp only [readTillXComesYTimesData, hfd, hfd1, if_false, hne d hd] at h
    rw [if_neg (show ¬ k ≤ 0 by omega)] at h
    rcases (readTillXComesYTimesDataLoop_error _ _ _ _ _ _ _ _ _ h).1 with h' | h' <;> cases h'

/-- Witness for C10: client 0 on descriptor 5 with one pending read. -/
theorem C10_bulk_reads_validate_arguments_witness :
    (readXData oneClient 0 0 [readOf "ABCD"]).outcome = some (.error .invalidArgument) ∧
    (readXData oneClient 0 0 [readOf "ABCD"]).rest = [readOf "ABCD"] ∧
    (readTillXComesYTimesData oneClient 0 "|".toList 0 [readOf "ABCD"]).outcome =
      some (.error .invalidArgument) ∧
    (readXData oneClient 0 4 [readOf "ABCD"]).outcome ≠ some (.error .invalidArgument) :=
  have h := C10_bulk_reads_validate_arguments oneClient 0 5 [readOf "ABCD"] (by decide)
    (by decide)
  ⟨(h.1 0 (by decide)).1, (h.1 0 (by decide)).2, (h.2.2.1 "|".toList 0 (Or.inr (by decide))).1,
    h.2.2.2.1 4 (by decide)⟩

/-! ## C11: failure kinds of the bulk reads -/

theorem getClientID_ok (order : List Int) (s : Server) (fd id : Int)
    (h : getClientID order s fd = .ok id) :
    0 ≤ fd ∧ id ∈ order ∧ s.m_clientFileDescriptor id = some fd := by
  unfold getClientID at h
  split_ifs at h with hneg
  cases hf : order.find? (fun key => decide (s.m_clientFileDescriptor key = some fd)) with
  | none => rw [hf] at h; cases h
  | some key =>
    rw [hf] at h
    simp only [Except.ok.injEq] at h
    subst h
    have h1 := List.find?_some hf
    exact ⟨by omega, List.mem_of_find?_eq_some hf, by simpa using h1⟩

theorem getClientID_registered (order : List Int) (s : Server) (fd id : Int)
    (horder : IterationOrder s order) (hfd : 0 ≤ fd)
    (hid : s.m_clientFileDescriptor id = some fd) :
    ∃ id1, getClientID order s fd = .ok id1 := by
  unfold getClientID
  rw [if_neg (by omega)]
  cases hf : order.find? (fun key => decide (s.m_clientFileDescriptor key = some fd)) with
  | some key => exact ⟨key, rfl⟩
  | none =>
    exfalso
    rw [List.find?_eq_none] at hf
    have hmem : id ∈ order := (horder.2 id).mpr (by rw [hid]; rfl)
    exact hf id hmem (by simpa using hid)

theorem translateEvents_spec (order : List Int) (s : Server) (q : EventQueue) :
    ∀ (events : List Event) (acc tuples : List EventTuple),
      translateEvents order s q events acc = .ok tuples →
      ∃ new, tuples = acc ++ new ∧ List.Forall₂ (Translates s q) events new := by
  intro events
  induction events with
  | nil =>
    intro acc tuples h
    simp only [translateEvents, Except.ok.injEq] at h
    exact ⟨[], by simp [h], List.Forall₂.nil⟩
  | cons ev evs ih =>
    intro acc tuples h
    rw [translateEvents] at h
    by_cases herr : EventQueue.hasAnError ev = true
    · rw [if_pos herr] at h
      obtain ⟨new, hnew, hall⟩ := ih _ _ h
      refine ⟨(EventType.ERROR, -1) :: new, by rw [hnew]; simp, List.Forall₂.cons ?_ hall⟩
      exact ⟨fun _ => rfl, fun h0 => absurd herr (by simp [h0]),
        fun h0 => absurd herr (by simp [h0])⟩
    · rw [if_neg herr] at h
      have herr' : EventQueue.hasAnError ev = false := by simpa using herr
      by_cases hsrv : q.isServerEvent ev = true
      · rw [if_pos hsrv] at h
        obtain ⟨new, hnew, hall⟩ := ih _ _ h
        refine ⟨(EventType.CLIENT_WANTS_TO_CONNECT, -1) :: new, by rw [hnew]; simp,
          List.Forall₂.cons ?_ hall⟩
        exact ⟨fun h0 => absurd h0 herr, fun _ _ => rfl,
          fun _ h0 => absurd hsrv (by simp [h0])⟩
      · rw [if_neg hsrv] at h
        cases hid : getClientID order s (EventQueue.getClientFileDescriptor ev) with
        | error x => rw [hid] at h; cases h
        | ok id =>
          rw [hid] at h
          obtain ⟨new, hnew, hall⟩ := ih _ _ h
          refine ⟨(EventType.CLIENT_WANTS_TO_SEND_DATA, id) :: new, by rw [hnew]; simp,
            List.Forall₂.cons ?_ hall⟩
          exact ⟨fun h0 => absurd h0 herr, fun _ h0 => absurd h0 hsrv,
            fun _ _ => ⟨rfl, (getClientID_ok order s _ id hid).2.2⟩⟩

theorem translateEvents_returns (order : List Int) (s : Server) (q : EventQueue)
    (horder : IterationOrder s order) :
    ∀ (events : List Event) (acc : List EventTuple),
      (∀ ev ∈ events, EventQueue.hasAnError ev = false → q.isServerEvent ev = false →
        0 ≤ ev.fd ∧ ∃ id, s.m_clientFileDescriptor id = some ev.fd) →
      ∃ tuples, translateEvents order s q events acc = .ok tuples := by
  intro events
  induction events with
  | nil => intro acc _; exact ⟨acc, rfl⟩
  | cons ev evs ih =>
    intro acc hreg
    have hreg' := fun e he => hreg e (List.mem_cons_of_mem _ he)
    rw [translateEvents]
    by_cases herr : EventQueue.hasAnError ev = true
    · rw [if_pos herr]; exact ih _ hreg'
    · rw [if_neg herr]
      by_cases hsrv : q.isServerEvent ev = true
      · rw [if_pos hsrv]; exact ih _ hreg'
      · rw [if_neg hsrv]
        obtain ⟨h0, id, hid⟩ := hreg ev (List.mem_cons_self _ _) (by simpa using herr)
          (by simpa using hsrv)
        obtain ⟨id1, hid1⟩ := getClientID_registered order s ev.fd id horder h0 hid
        simp only [EventQueue.getClientFileDescriptor, hid1]
        exact ih _ hreg'

/-! ## The epoll backend: one wait, the filter, the loop -/

theorem vectorResize_events (l : List Event) (hl : l.length ≤ MAX_EVENTS) :
    vectorResize (epollWait (.events l)).1 (epollWait (.events l)).2 = .ok l := by
  have ht : l.take MAX_EVENTS = l := List.take_of_length_le hl
  have hm : MAX_EVENTS = 2048 := rfl
  simp only [epollWait, ht, vectorResize]
  have hn : (((l.length : Int) % 2 ^ 64).toNat) = l.length := by
    rw [Int.emod_eq_of_lt (by omega) (by omega)]
    exact Int.toNat_ofNat _
  rw [hn]
  have hmax : ¬ l.length > vectorMaxSize := by
    have : vectorMaxSize = 768614336404564650 := by norm_num [vectorMaxSize]
    omega
  rw [if_neg hmax, if_pos (by simp), List.take_left']
  rfl

theorem epollWait_events_count (l : List Event) : (epollWait (.events l)).1 ≠ EVENT_ERROR := by
  simp only [epollWait, EVENT_ERROR]
  omega

theorem vectorResize_failed : vectorResize (epollWait .failed).1 (epollWait .failed).2 = .error .lengthError := by
  have h : ((-1 : Int) % 2 ^ 64).toNat > vectorMaxSize := by
    norm_num [vectorMaxSize]
  show vectorResize (-1) [] = _
  unfold vectorResize
  dsimp only
  rw [if_pos h]

theorem filterEvents_spec :
    ∀ (evs : List Event) (e : EpollKernel) (acc : List Event),
      (∀ ev ∈ evs, ev.fd ≤ 2 →
        0 ≤ ev.fd ∧ e.isOpen ev.fd = true ∧ e.kind ev.fd = .pollable) →
      ∃ e1, EventQueue.Epoll.filterEvents evs e acc =
          (.ok (acc ++ evs.filter (fun ev => decide (ev.fd > 2))), e1) ∧
        (e1.isOpen = e.isOpen ∧ e1.kind = e.kind) ∧
        ∀ x, x ∈ e1.interest ↔ x ∈ e.interest ∧ ∀ ev ∈ evs, ev.fd ≤ 2 → ev.fd ≠ x := by
  intro evs
  induction evs with
  | nil =>
    intro e acc _
    exact ⟨e, by simp [EventQueue.Epoll.filterEvents], ⟨rfl, rfl⟩, by simp⟩
  | cons ev evs ih =>
    intro e acc hopen
    have hopen' : ∀ ev1 ∈ evs, ev1.fd ≤ 2 →
        0 ≤ ev1.fd ∧ e.isOpen ev1.fd = true ∧ e.kind ev1.fd = .pollable :=
      fun ev1 h1 => hopen ev1 (List.mem_cons_of_mem _ h1)
    rw [EventQueue.Epoll.filterEvents]
    by_cases hfd : ev.fd > 2
    · rw [if_pos hfd]
      obtain ⟨e1, h1, h2, h3⟩ := ih e (acc ++ [ev]) hopen'
      refine ⟨e1, ?_, h2, ?_⟩
      · rw [h1, List.filter_cons_of_pos (by simpa using hfd)]
        simp
      · intro x
        rw [h3 x]
        constructor
        · rintro ⟨hx, hall⟩
          refine ⟨hx, ?_⟩
          intro ev1 hmem hle
          rcases List.mem_cons.mp hmem with rfl | hmem
          · omega
          · exact hall ev1 hmem hle
        · rintro ⟨hx, hall⟩
          exact ⟨hx, fun ev1 hmem => hall ev1 (List.mem_cons_of_mem _ hmem)⟩
    · rw [if_neg hfd]
      obtain ⟨h0, hop, hkind⟩ := hopen ev (List.mem_cons_self _ _) (by omega)
      have hk1 : ¬ e.kind ev.fd = .notPollable := by rw [hkind]; decide
      have hk2 : ¬ e.kind ev.fd = .epollInstance := by rw [hkind]; decide
      have hfilter : List.filter (fun ev => decide (ev.fd > 2)) (ev :: evs) =
          List.filter (fun ev => decide (ev.fd > 2)) evs :=
        List.filter_cons_of_neg (by simpa using hfd)
      rw [hfilter]
      have hbad : ¬ (ev.fd < 0 ∨ e.isOpen ev.fd = false) := by
        rw [hop]
        simp
        omega
      by_cases hmem : ev.fd ∈ e.interest
      · have hdel : epoll_ctl_del e ev.fd =
            .ok { e with interest := e.interest.filter (fun x => x ≠ ev.fd) } := by
          simp only [epoll_ctl_del, if_neg hbad, if_neg hk1, if_neg hk2, if_pos hmem]
        rw [hdel]
        obtain ⟨e1, h1, h2, h3⟩ := ih { e with interest := e.interest.filter (fun x => x ≠ ev.fd) }
          acc hopen'
        refine ⟨e1, h1, h2, ?_⟩
        intro x
        rw [h3 x]
        simp only [List.mem_filter, decide_eq_true_eq, List.mem_cons, forall_eq_or_imp]
        constructor
        · rintro ⟨⟨hx, hne⟩, hall⟩
          exact ⟨hx, fun _ => fun h => hne h.symm, hall⟩
        · rintro ⟨hx, hne, hall⟩
          exact ⟨⟨hx, fun h => hne (by omega) h.symm⟩, hall⟩
      · have hdel : epoll_ctl_del e ev.fd = .error .ENOENT := by
          simp only [epoll_ctl_del, if_neg hbad, if_neg hk1, if_neg hk2, if_neg hmem]
        rw [hdel]
        simp only [ne_eq, not_true_eq_false, if_false]
        obtain ⟨e1, h1, h2, h3⟩ := ih e acc hopen'
        refine ⟨e1, h1, h2, ?_⟩
        intro x
        rw [h3 x]
        simp only [List.mem_cons, forall_eq_or_imp]
        constructor
        · rintro ⟨hx, hall⟩
          exact ⟨hx, fun _ => fun h => hmem (h ▸ hx), hall⟩
        · rintro ⟨hx, _, hall⟩
          exact ⟨hx, hall⟩

theorem pollEvents_events (l : List Event) (ws : List WaitResult) (e : EpollKernel)
    (hl : l.length ≤ MAX_EVENTS) :
    EventQueue.Epoll.pollEvents (.events l :: ws) e =
      match EventQueue.Epoll.filterEvents l e [] with
      | (.error x, e1) => ⟨some (.error x), e1, ws⟩
      | (.ok filteredEvents, e1) =>
        if filteredEvents ≠ [] then ⟨some (.ok filteredEvents), e1, ws⟩
        else EventQueue.Epoll.pollEvents ws e1 := by
  rw [EventQueue.Epoll.pollEvents]
  simp only [vectorResize_events l hl, if_neg (epollWait_events_count l)]

/-! ## C12: `getPendingEvents` -/

theorem pollingServer_order : IterationOrder pollingServer [0, 1, 2] := by
  refine ⟨by decide, ?_⟩
  intro key
  have hfds : pollingServer.m_clientFileDescriptor =
      ((UnorderedMap.empty.assign 0 5).assign 1 6).assign 2 7 := rfl
  rw [hfds]
  simp only [UnorderedMap.assign, UnorderedMap.empty, List.mem_cons, List.mem_singleton,
    List.not_mem_nil, or_false]
  constructor
  · rintro (rfl | rfl | rfl) <;> rfl
  · intro h
    by_contra hne
    push_neg at hne
    simp [hne.1, hne.2.1, hne.2.2] at h

theorem pollingEvents_polled :
    (EventQueue.Epoll.pollEvents [.events pollingEvents] (epollWith [3, 5, 6, 7] [3, 5, 6, 7])).outcome
      = some (.ok pollingEvents) := by
  rw [pollEvents_events _ _ _ (by decide)]
  rfl

theorem getPendingEvents_pollingServer :
    getPendingEvents [0, 1, 2] pollingServer ⟨4, 3⟩ [.events pollingEvents]
        (epollWith [3, 5, 6, 7] [3, 5, 6, 7]) =
      some (.ok [(EventType.CLIENT_WANTS_TO_CONNECT, -1), (EventType.ERROR, -1),
        (EventType.CLIENT_WANTS_TO_SEND_DATA, 1), (EventType.ERROR, -1)]) := by
  simp only [getPendingEvents, pollingEvents_polled]
  decide

/-- C12: `getPendingEvents` translates the list returned by the poll element by element,
keeping length and order: an event with an error flag becomes `(ERROR, -1)`, also on the
listener; otherwise an event on the listener becomes `(CLIENT_WANTS_TO_CONNECT, -1)`;
otherwise it becomes `(CLIENT_WANTS_TO_SEND_DATA, id)` with an id that the registry maps to
the event's descriptor.  The call returns whenever every remaining descriptor is held by an
entry of the registry. -/
theorem C12_getPendingEvents_translates (order : List Int) (s : Server) (q : EventQueue)
    (waits : List WaitResult) (e : EpollKernel) (events : List Event)
    (hpoll : (EventQueue.Epoll.pollEvents waits e).outcome = some (.ok events)) :
    (∀ tuples, getPendingEvents order s q waits e = some (.ok tuples) →
      List.Forall₂ (Translates s q) events tuples ∧ tuples.length = events.length) ∧
    (IterationOrder s order →
      (∀ ev ∈ events, EventQueue.hasAnError ev = false → q.isServerEvent ev = false →
        0 ≤ ev.fd ∧ ∃ id, s.m_clientFileDescriptor id = some ev.fd) →
      ∃ tuples, getPendingEvents order s q waits e = some (.ok tuples)) := by
  have hget : getPendingEvents order s q waits e = some (translateEvents order s q events []) := by
    simp only [getPendingEvents, hpoll]
  refine ⟨?_, ?_⟩
  · intro tuples ht
    rw [hget] at ht
    obtain ⟨new, hnew, hall⟩ := translateEvents_spec order s q events [] tuples
      (Option.some.inj ht)
    simp only [List.nil_append] at hnew
    subst hnew
    exact ⟨hall, hall.length_eq.symm⟩
  · intro horder hreg
    obtain ⟨tuples, ht⟩ := translateEvents_returns order s q horder events [] hreg
    exact ⟨tuples, by rw [hget, ht]⟩

theorem C12_getPendingEvents_translates_witness :
    getEventQueue pollingServer = some ⟨4, 3⟩ ∧
    (EventQueue.Epoll.pollEvents [.events pollingEvents] (epollWith [3, 5, 6, 7] [3, 5, 6, 7])).outcome
      = some (.ok pollingEvents) ∧
    List.Forall₂ (Translates pollingServer ⟨4, 3⟩) pollingEvents
      [(EventType.CLIENT_WANTS_TO_CONNECT, -1), (EventType.ERROR, -1),
        (EventType.CLIENT_WANTS_TO_SEND_DATA, 1), (EventType.ERROR, -1)] :=
  ⟨rfl, pollingEvents_polled,
    ((C12_getPendingEvents_translates [0, 1, 2] pollingServer ⟨4, 3⟩ [.events pollingEvents]
      (epollWith [3, 5, 6, 7] [3, 5, 6, 7]) pollingEvents pollingEvents_polled).1 _
      getPendingEvents_pollingServer).1⟩

/-! ## C13: `pollEvents()` without a deadline -/

theorem pollEvents_skips :
    ∀ (pre : List (List Event)) (e : EpollKernel),
      (∀ l1 ∈ pre, l1.length ≤ MAX_EVENTS ∧ ∀ ev ∈ l1, ev.fd ≤ 2) →
      (∀ l1 ∈ pre, ∀ ev ∈ l1, 0 ≤ ev.fd ∧ e.isOpen ev.fd = true ∧ e.kind ev.fd = .pollable) →
      ∀ ws : List WaitResult, ∃ e1,
        EventQueue.Epoll.pollEvents (pre.map WaitResult.events ++ ws) e =
          EventQueue.Epoll.pollEvents ws e1 ∧
        (e1.isOpen = e.isOpen ∧ e1.kind = e.kind) ∧
        ∀ x, x ∈ e1.interest ↔ x ∈ e.interest ∧ ∀ l1 ∈ pre, ∀ ev ∈ l1, ev.fd ≠ x := by
  intro pre
  induction pre with
  | nil => intro e _ _ ws; exact ⟨e, rfl, ⟨rfl, rfl⟩, by simp⟩
  | cons l pre ih =>
    intro e hpre hopen ws
    obtain ⟨hlen, hle⟩ := hpre l (List.mem_cons_self _ _)
    obtain ⟨e1, h1, h2, h3⟩ := filterEvents_spec l e []
      (fun ev hmem _ => hopen l (List.mem_cons_self _ _) ev hmem)
    have hnone : l.filter (fun ev => decide (ev.fd > 2)) = [] := by
      rw [List.filter_eq_nil_iff]
      intro ev hmem
      have := hle ev hmem
      simp only [decide_eq_true_eq]
      omega
    rw [hnone] at h1
    obtain ⟨e2, k1, k2, k3⟩ := ih e1 (fun l1 hl1 => hpre l1 (List.mem_cons_of_mem _ hl1))
      (fun l1 hl1 ev hmem => by
        rw [h2.1, h2.2]; exact hopen l1 (List.mem_cons_of_mem _ hl1) ev hmem) ws
    refine ⟨e2, ?_, ⟨k2.1.trans h2.1, k2.2.trans h2.2⟩, ?_⟩
    · rw [List.map_cons, List.cons_append, pollEvents_events _ _ _ hlen, h1]
      simpa using k1
    · intro x
      rw [k3 x, h3 x]
      simp only [List.mem_cons, forall_eq_or_imp]
      constructor
      · rintro ⟨⟨hx, hl⟩, hp⟩
        exact ⟨hx, fun ev hmem => hl ev hmem (hle ev hmem), hp⟩
      · rintro ⟨hx, hl, hp⟩
        exact ⟨⟨hx, fun ev hmem _ => hl ev hmem⟩, hp⟩

/-- C13 (counterexample): a wait that reports one event, on descriptor 1, is not answered
with the empty subsequence of its events above 2.  `pollEvents()` deregisters descriptor 1
and waits again: with no further report it is still waiting, and when the next wait reports
descriptor 5 it returns that event. -/
theorem C13_pollEvents_repeats_excluded_wait :
    [readable 1].length ≤ MAX_EVENTS ∧
    [readable 1].filter (fun ev => decide (ev.fd > 2)) = [] ∧
    (EventQueue.Epoll.pollEvents [.events [readable 1]] (epollWith [1, 4, 5] [1, 4, 5])).outcome
      = none ∧
    (EventQueue.Epoll.pollEvents [.events [readable 1], .events [readable 5]]
      (epollWith [1, 4, 5] [1, 4, 5])).outcome = some (.ok [readable 5]) ∧
    (EventQueue.Epoll.pollEvents [.events [readable 1], .events [readable 5]]
      (epollWith [1, 4, 5] [1, 4, 5])).kernel.interest = [4, 5] := by
  have hf : EventQueue.Epoll.filterEvents [readable 1] (epollWith [1, 4, 5] [1, 4, 5]) [] =
      (.ok [], epollWith [1, 4, 5] [4, 5]) := rfl
  have h1 : ∀ ws, EventQueue.Epoll.pollEvents (.events [readable 1] :: ws)
      (epollWith [1, 4, 5] [1, 4, 5]) =
      EventQueue.Epoll.pollEvents ws (epollWith [1, 4, 5] [4, 5]) := by
    intro ws
    rw [pollEvents_events _ _ _ (by decide), hf]
    simp only [ne_eq, not_true_eq_false, if_false]
  have hg : EventQueue.Epoll.filterEvents [readable 5] (epollWith [1, 4, 5] [4, 5]) [] =
      (.ok [readable 5], epollWith [1, 4, 5] [4, 5]) := rfl
  have h2 : EventQueue.Epoll.pollEvents [.events [readable 5]] (epollWith [1, 4, 5] [4, 5]) =
      ⟨some (.ok [readable 5]), epollWith [1, 4, 5] [4, 5], []⟩ := by
    rw [pollEvents_events _ _ _ (by decide), hg]
    rfl
  refine ⟨by decide, by decide, ?_, ?_, ?_⟩
  · rw [h1]
    rfl
  · rw [h1, h2]
  · rw [h1, h2]
    rfl

/-- C13 (amended): waits whose events are all on descriptors up to 2 are not answered: their
descriptors are deregistered and the wait is repeated.  The first wait that reports at most
2048 events with at least one descriptor above 2 is answered with exactly the subsequence of
its events whose descriptor is above 2, in kernel order; no returned event has descriptor 0,
1 or 2, and every excluded descriptor (all being open descriptors of files that can be
polled, as the descriptors that an epoll instance reports on are) is off the interest list
afterwards, which is otherwise unchanged. -/
theorem C13_pollEvents_filters_first_answered_wait (pre : List (List Event)) (l : List Event)
    (rest : List WaitResult) (e : EpollKernel)
    (hpre : ∀ l1 ∈ pre, l1.length ≤ MAX_EVENTS ∧ ∀ ev ∈ l1, ev.fd ≤ 2)
    (hl : l.length ≤ MAX_EVENTS) (hsome : ∃ ev ∈ l, ev.fd > 2)
    (hopen : ∀ l1 ∈ pre ++ [l], ∀ ev ∈ l1, ev.fd ≤ 2 →
      0 ≤ ev.fd ∧ e.isOpen ev.fd = true ∧ e.kind ev.fd = .pollable) :
    ∃ e2, EventQueue.Epoll.pollEvents (pre.map WaitResult.events ++ .events l :: rest) e =
        ⟨some (.ok (l.filter (fun ev => decide (ev.fd > 2)))), e2, rest⟩ ∧
      (∀ ev ∈ l.filter (fun ev => decide (ev.fd > 2)), ev.fd ≠ 0 ∧ ev.fd ≠ 1 ∧ ev.fd ≠ 2) ∧
      (∀ x, x ∈ e2.interest ↔
        x ∈ e.interest ∧ ∀ l1 ∈ pre ++ [l], ∀ ev ∈ l1, ev.fd ≤ 2 → ev.fd ≠ x) := by
  obtain ⟨e1, h1, h2, h3⟩ := pollEvents_skips pre e hpre
    (fun l1 hl1 ev hmem => hopen l1 (List.mem_append_left _ hl1) ev hmem ((hpre l1 hl1).2 ev hmem))
    (.events l :: rest)
  obtain ⟨e2, k1, _, k3⟩ := filterEvents_spec l e1 []
    (fun ev hmem hle => by
      rw [h2.1, h2.2]
      exact hopen l (List.mem_append_right _ (List.mem_singleton_self _)) ev hmem hle)
  have hne : l.filter (fun ev => decide (ev.fd > 2)) ≠ [] := by
    obtain ⟨ev, hmem, hgt⟩ := hsome
    exact List.ne_nil_of_mem (List.mem_filter.mpr ⟨hmem, by simpa using hgt⟩)
  refine ⟨e2, ?_, ?_, ?_⟩
  · rw [h1, pollEvents_events _ _ _ hl, k1]
    simp only [List.nil_append, if_pos hne]
  · intro ev hmem
    have := (List.mem_filter.mp hmem).2
    simp only [decide_eq_true_eq] at this
    omega
  · intro x
    rw [k3 x, h3 x]
    simp only [List.mem_append, List.mem_singleton]
    constructor
    · rintro ⟨⟨hx, hp⟩, hlast⟩
      refine ⟨hx, ?_⟩
      rintro l1 (hl1 | rfl) ev hmem hle
      · exact hp l1 hl1 ev hmem
      · exact hlast ev hmem hle
    · rintro ⟨hx, hall⟩
      exact ⟨⟨hx, fun l1 hl1 ev hmem => hall l1 (Or.inl hl1) ev hmem ((hpre l1 hl1).2 ev hmem)⟩,
        fun ev hmem hle => hall l (Or.inr rfl) ev hmem hle⟩

theorem C13_pollEvents_filters_first_answered_wait_witness :
    ∃ e2, EventQueue.Epoll.pollEvents
        ([[readable 1]].map WaitResult.events ++
          .events [readable 0, readable 5, readable 2, readable 4] :: [])
        (epollWith [0, 1, 2, 4, 5] [0, 1, 4, 5]) =
        ⟨some (.ok [readable 5, readable 4]), e2, []⟩ ∧
      (∀ x, x ∈ e2.interest ↔ x ∈ [0, 1, 4, 5] ∧
        ∀ l1 ∈ [[readable 1]] ++ [[readable 0, readable 5, readable 2, readable 4]],
          ∀ ev ∈ l1, ev.fd ≤ 2 → ev.fd ≠ x) :=
  have h := C13_pollEvents_filters_first_answered_wait [[readable 1]]
    [readable 0, readable 5, readable 2, readable 4] [] (epollWith [0, 1, 2, 4, 5] [0, 1, 4, 5])
    (by decide) (by decide) ⟨readable 5, by decide, by decide⟩ (by decide)
  h.imp fun _ h2 => ⟨h2.1, h2.2.2⟩

/-! ## C15: removing a descriptor that is not registered -/

/-- C17 (evaluation at the failing input): when `epoll_wait` returns `-1`, `pollEvents()` of
the epoll backend ends in `std::length_error`, raised by `events.resize(-1)` before the
result is tested, and not in `ServerRuntime`; the kqueue backend tests the result first and
raises `ServerRuntime`. -/
theorem C17_pollEvents_failed_wait_raises_length_error (ws : List WaitResult) (e : EpollKernel)
    (removal : Nat → Option Errno) :
    (EventQueue.Epoll.pollEvents (.failed :: ws) e).outcome = some (.error .lengthError) ∧
    (EventQueue.Epoll.pollEvents (.failed :: ws) e).outcome ≠ some (.error .serverRuntime) ∧
    EventQueue.Kqueue.pollEvents .failed removal = .error .serverRuntime := by
  have h : (EventQueue.Epoll.pollEvents (.failed :: ws) e).outcome = some (.error .lengthError) := by
    rw [EventQueue.Epoll.pollEvents]
    simp only [vectorResize_failed]
  refine ⟨h, ?_, rfl⟩
  rw [h]
  decide

/-! ## C14: `pollEvents(t_timeout)` -/

theorem pollEventsUntil_crossed (timeout now : Int) (filteredEvents : List Event)
    (steps : List TimedWait) (h : timeout ≤ now) :
    EventQueue.Epoll.pollEventsUntil timeout now filteredEvents steps = some (.ok filteredEvents) := by
  cases steps with
  | nil => simp only [EventQueue.Epoll.pollEventsUntil, if_neg (not_lt.mpr h)]
  | cons st rest => simp only [EventQueue.Epoll.pollEventsUntil, if_neg (not_lt.mpr h)]

theorem pollEventsUntil_turn (timeout now : Int) (filteredEvents l : List Event) (t : Int)
    (rest : List TimedWait) (hnow : now < timeout) (hrem : 1 ≤ remainingTime timeout now)
    (hl : l.length ≤ MAX_EVENTS) :
    EventQueue.Epoll.pollEventsUntil timeout now filteredEvents (⟨.events l, t⟩ :: rest) =
      EventQueue.Epoll.pollEventsUntil timeout t (l.filter (fun ev => decide (ev.fd > 2))) rest := by
  rw [EventQueue.Epoll.pollEventsUntil]
  simp only [if_pos hnow, vectorResize_events l hl, if_neg (epollWait_events_count l),
    if_neg (show ¬ remainingTime timeout now ≤ 0 by omega)]

theorem pollEventsUntil_short_turn (timeout now : Int) (filteredEvents l : List Event)
    (t : Int) (rest : List TimedWait) (hnow : now < timeout)
    (hrem : remainingTime timeout now ≤ 0) (hl : l.length ≤ MAX_EVENTS) :
    EventQueue.Epoll.pollEventsUntil timeout now filteredEvents (⟨.events l, t⟩ :: rest) =
      some (.ok l) := by
  rw [EventQueue.Epoll.pollEventsUntil]
  simp only [if_pos hnow, vectorResize_events l hl, if_neg (epollWait_events_count l),
    if_pos hrem]

theorem pollEventsUntil_last_turn (timeout : Int) (l : List Event) (tlast : Int)
    (rest : List TimedWait) (hcross : timeout ≤ tlast) :
    ∀ (steps : List TimedWait) (now : Int) (filteredEvents : List Event),
      WaitsBeforeDeadline timeout now (steps ++ [⟨.events l, tlast⟩]) →
      EventQueue.Epoll.pollEventsUntil timeout now filteredEvents
          (steps ++ ⟨.events l, tlast⟩ :: rest) =
        some (.ok (l.filter (fun ev => decide (ev.fd > 2)))) := by
  intro steps
  induction steps with
  | nil =>
    intro now fe hb
    obtain ⟨hnow, hrem, ⟨l1, hl1, hlen⟩, _⟩ := hb
    obtain rfl : l = l1 := WaitResult.events.inj hl1
    rw [List.nil_append, pollEventsUntil_turn _ _ _ _ _ _ hnow hrem hlen]
    exact pollEventsUntil_crossed _ _ _ _ hcross
  | cons st steps ih =>
    intro now fe hb
    obtain ⟨hnow, hrem, ⟨l1, hl1, hlen⟩, hb'⟩ := hb
    obtain ⟨w, t⟩ := st
    simp only at hl1
    subst hl1
    rw [List.cons_append, pollEventsUntil_turn _ _ _ _ _ _ hnow hrem hlen]
    exact ih _ _ hb'

/-- C14 (counterexample): with a deadline of 10 ms, (a) the waits report descriptor 5 and
then descriptor 6, both before the deadline, and the call returns the event on 6 alone: the
list is emptied at every turn, so the events are not accumulated; (b) a wait that starts
with less than one millisecond left reports descriptors 1 and 6, and the call returns both:
that turn returns the unfiltered report. -/
theorem C14_pollEvents_deadline_not_accumulated :
    EventQueue.Epoll.pollEventsWithin 10 0
        [⟨.events [readable 5], 4000000⟩, ⟨.events [readable 6], 10000000⟩] =
      some (.ok [readable 6]) ∧
    EventQueue.Epoll.pollEventsWithin 10 0
        [⟨.events [readable 5], 9500000⟩, ⟨.events [readable 1, readable 6], 9600000⟩] =
      some (.ok [readable 1, readable 6]) := by
  constructor
  · show EventQueue.Epoll.pollEventsUntil 10000000 0 [] _ = _
    rw [pollEventsUntil_turn _ _ _ _ _ _ (by decide) (by decide) (by decide),
      pollEventsUntil_turn _ _ _ _ _ _ (by decide) (by decide) (by decide)]
    rfl
  · show EventQueue.Epoll.pollEventsUntil 10000000 0 [] _ = _
    rw [pollEventsUntil_turn _ _ _ _ _ _ (by decide) (by decide) (by decide),
      pollEventsUntil_short_turn _ _ _ _ _ _ (by decide) (by decide) (by decide)]

/-- C14 (amended): when every turn of the loop starts before the deadline with at least one
whole millisecond left and the clock has crossed the deadline after the last turn,
`pollEvents(t_timeout)` returns the events with descriptor above 2 of the last wait only, in
kernel order (earlier reports are dropped), and none of them is on descriptor 0, 1 or 2; with
a deadline that is not in the future it returns the empty list without waiting. -/
theorem C14_pollEvents_deadline_returns_last_wait (t_timeout now0 : Int)
    (steps : List TimedWait) (l : List Event) (tlast : Int) (rest : List TimedWait)
    (hbefore : WaitsBeforeDeadline (now0 + t_timeout * 1000000) now0
      (steps ++ [⟨.events l, tlast⟩]))
    (hcross : now0 + t_timeout * 1000000 ≤ tlast) :
    EventQueue.Epoll.pollEventsWithin t_timeout now0 (steps ++ ⟨.events l, tlast⟩ :: rest) =
      some (.ok (l.filter (fun ev => decide (ev.fd > 2)))) ∧
    (∀ ev ∈ l.filter (fun ev => decide (ev.fd > 2)), ev.fd ≠ 0 ∧ ev.fd ≠ 1 ∧ ev.fd ≠ 2) ∧
    (∀ (ms : Int) (waits : List TimedWait), ms ≤ 0 →
      EventQueue.Epoll.pollEventsWithin ms now0 waits = some (.ok [])) := by
  refine ⟨pollEventsUntil_last_turn _ l tlast rest hcross steps now0 [] hbefore, ?_, ?_⟩
  · intro ev hmem
    have := (List.mem_filter.mp hmem).2
    simp only [decide_eq_true_eq] at this
    omega
  · intro ms waits hms
    exact pollEventsUntil_crossed _ _ _ _ (by nlinarith)

theorem C14_pollEvents_deadline_returns_last_wait_witness :
    EventQueue.Epoll.pollEventsWithin 10 0
        ([⟨.events [readable 5], 4000000⟩] ++ ⟨.events [readable 1, readable 6], 10000000⟩ :: []) =
      some (.ok [readable 6]) :=
  (C14_pollEvents_deadline_returns_last_wait 10 0 [⟨.events [readable 5], 4000000⟩]
    [readable 1, readable 6] 10000000 []
    ⟨by decide, by decide, ⟨_, rfl, by decide⟩, by decide, by decide, ⟨_, rfl, by decide⟩, trivial⟩
    (by decide)).1

/-! ## C18: the constructors -/

theorem setPort_ok (s : Server) (t_port : Fin 65536) :
    setPort s t_port = .ok { s with m_port := t_port.val } := by
  have h := t_port.isLt
  unfold setPort
  rw [if_neg (by omega)]

theorem Server.finish_ok (s : Server) : s.finish = .ok { s with m_timeout := DEFAULT_TIMEOUT } := by
  simp [Server.finish, setTimeout, DEFAULT_TIMEOUT]

theorem Server.ofSocketPath_eq (garbage : Timeval) (path : Bytes) (t_port : Fin 65536)
    (n : Int) :
    Server.ofSocketPath garbage path t_port n =
      if path = [] ∨ path.length > 104 ∨ n ≤ 0 then .error .invalidArgument
      else .ok { m_timeout := DEFAULT_TIMEOUT, m_domain := LOCAL_DOMAIN,
                 m_localServerSocketPath := path, m_port := t_port.val,
                 m_maximumCurrentConnections := n, m_usesLocalDomain := true } := by
  have hdom : setDomain { m_timeout := garbage } LOCAL_DOMAIN =
      .ok { m_timeout := garbage, m_domain := LOCAL_DOMAIN } := by
    simp [setDomain, LOCAL_DOMAIN, IPV4_DOMAIN, IPV6_DOMAIN]
  unfold Server.ofSocketPath
  rw [hdom]
  by_cases h1 : path = []
  · subst h1
    simp [setLocalServerSocketPath]
  · have h1' : path.isEmpty = false := by
      cases path with
      | nil => exact absurd rfl h1
      | cons a l => rfl
    by_cases h2 : path.length > 104
    · simp [setLocalServerSocketPath, h1', h2]
    · by_cases h3 : n ≤ 0
      · simp [setLocalServerSocketPath, h1', h2, h3, setPort_ok, setMaximumCurrentConnections]
      · simp [setLocalServerSocketPath, h1, h1', h2, h3, setPort_ok, setMaximumCurrentConnections,
          Server.finish_ok, setUsesIpv4Domain, setUsesIpv6Domain, setUsesLocalDomain]

theorem Server.ofDomain_eq (garbage : Timeval) (t_domain : Int) (t_port : Fin 65536) (n : Int) :
    Server.ofDomain garbage t_domain t_port n =
      if t_domain ≠ IPV4_DOMAIN ∧ t_domain ≠ IPV6_DOMAIN ∧ t_domain ≠ LOCAL_DOMAIN then
        .error .invalidDomain
      else if n ≤ 0 then .error .invalidArgument
      else if t_domain = IPV4_DOMAIN then
        .ok { m_timeout := DEFAULT_TIMEOUT, m_domain := t_domain, m_port := t_port.val,
              m_maximumCurrentConnections := n, m_usesIpv4Domain := true }
      else if t_domain = IPV6_DOMAIN then
        .ok { m_timeout := DEFAULT_TIMEOUT, m_domain := t_domain, m_port := t_port.val,
              m_maximumCurrentConnections := n, m_usesIpv6Domain := true }
      else .error .invalidDomain := by
  unfold Server.ofDomain
  by_cases h0 : t_domain ≠ IPV4_DOMAIN ∧ t_domain ≠ IPV6_DOMAIN ∧ t_domain ≠ LOCAL_DOMAIN
  · simp [setDomain, h0]
  · have hdom : setDomain { m_timeout := garbage } t_domain =
        .ok { m_timeout := garbage, m_domain := t_domain } := by
      unfold setDomain
      rw [if_neg h0]
    rw [hdom, if_neg h0]
    by_cases h3 : n ≤ 0
    · simp [setPort_ok, setMaximumCurrentConnections, h3]
    · by_cases h4 : t_domain = IPV4_DOMAIN
      · simp [setPort_ok, setMaximumCurrentConnections, h3, h4, getDomain, Server.finish_ok,
          setUsesIpv4Domain, setUsesIpv6Domain, setUsesLocalDomain]
      · by_cases h6 : t_domain = IPV6_DOMAIN
        · simp [setPort_ok, setMaximumCurrentConnections, h3, h6, getDomain, Server.finish_ok,
            setUsesIpv4Domain, setUsesIpv6Domain, setUsesLocalDomain, IPV4_DOMAIN, IPV6_DOMAIN]
        · simp [setPort_ok, setMaximumCurrentConnections, h3, h4, h6, getDomain]

/-- C18: `Server(path, port, backlog)` raises `InvalidArgument` exactly when the path is
empty, the path is longer than 104 bytes or the backlog is not positive, and otherwise
succeeds (a path of 104 bytes included); `Server(domain, port, backlog)` with a positive
backlog succeeds exactly when the domain is IPv4 or IPv6 and raises `InvalidDomain` for every
other value, `LOCAL` included; a constructed server has exactly one domain flag set, the one
of its domain tag. -/
theorem C18_constructors_validate (garbage : Timeval) (path : Bytes) (t_domain : Int)
    (t_port : Fin 65536) (n : Int) :
    (Server.ofSocketPath garbage path t_port n = .error .invalidArgument ↔
      path = [] ∨ path.length > 104 ∨ n ≤ 0) ∧
    (¬ (path = [] ∨ path.length > 104 ∨ n ≤ 0) →
      ∃ s, Server.ofSocketPath garbage path t_port n = .ok s ∧ DomainFlagsMatch s ∧
        s.m_domain = LOCAL_DOMAIN ∧ s.m_localServerSocketPath = path) ∧
    (0 < n → ((∃ s, Server.ofDomain garbage t_domain t_port n = .ok s) ↔
      t_domain = IPV4_DOMAIN ∨ t_domain = IPV6_DOMAIN)) ∧
    (0 < n → ¬ (t_domain = IPV4_DOMAIN ∨ t_domain = IPV6_DOMAIN) →
      Server.ofDomain garbage t_domain t_port n = .error .invalidDomain) ∧
    (∀ s, Server.ofDomain garbage t_domain t_port n = .ok s →
      DomainFlagsMatch s ∧ s.m_domain = t_domain) := by
  refine ⟨?_, ?_, ?_, ?_, ?_⟩
  · rw [Server.ofSocketPath_eq]
    by_cases h : path = [] ∨ path.length > 104 ∨ n ≤ 0
    · simp only [if_pos h, true_iff]
      exact h
    · rw [if_neg h]
      exact ⟨fun h1 => (by cases h1), fun h1 => absurd h1 h⟩
  · intro h
    rw [Server.ofSocketPath_eq, if_neg h]
    exact ⟨_, rfl, by simp [DomainFlagsMatch, LOCAL_DOMAIN, IPV4_DOMAIN, IPV6_DOMAIN], rfl, rfl⟩
  · intro hn
    rw [Server.ofDomain_eq]
    by_cases h4 : t_domain = IPV4_DOMAIN
    · subst h4
      simp [IPV4_DOMAIN, IPV6_DOMAIN, LOCAL_DOMAIN, not_le.mpr hn]
    · by_cases h6 : t_domain = IPV6_DOMAIN
      · subst h6
        simp [IPV4_DOMAIN, IPV6_DOMAIN, LOCAL_DOMAIN, not_le.mpr hn]
      · simp only [h4, h6, or_self, iff_false, not_exists]
        intro s
        simp only [if_false]
        split_ifs <;> exact fun h1 => (by cases h1)
  · intro hn hd
    push_neg at hd
    rw [Server.ofDomain_eq]
    split_ifs with h1 h2 h3 h4
    · rfl
    · omega
    · exact absurd h3 hd.1
    · exact absurd h4 hd.2
    · rfl
  · intro s hs
    rw [Server.ofDomain_eq] at hs
    split_ifs at hs with h1 h2 h3 h4
    · simp only [Except.ok.injEq] at hs
      subst hs
      subst h3
      exact ⟨by simp [DomainFlagsMatch, LOCAL_DOMAIN, IPV4_DOMAIN, IPV6_DOMAIN], rfl⟩
    · simp only [Except.ok.injEq] at hs
      subst hs
      subst h4
      exact ⟨by simp [DomainFlagsMatch, LOCAL_DOMAIN, IPV4_DOMAIN, IPV6_DOMAIN], rfl⟩

theorem C18_constructors_validate_witness :
    (∃ s, Server.ofSocketPath ⟨7, 7⟩ (List.replicate 104 'a') 8080 4 = .ok s ∧
      DomainFlagsMatch s ∧ s.m_domain = LOCAL_DOMAIN ∧
      s.m_localServerSocketPath = List.replicate 104 'a') ∧
    Server.ofDomain ⟨7, 7⟩ LOCAL_DOMAIN 8080 4 = .error .invalidDomain ∧
    (∃ s, Server.ofDomain ⟨7, 7⟩ IPV6_DOMAIN 8080 4 = .ok s) :=
  ⟨(C18_constructors_validate ⟨7, 7⟩ (List.replicate 104 'a') LOCAL_DOMAIN 8080 4).2.1
      (by decide),
    (C18_constructors_validate ⟨7, 7⟩ (List.replicate 104 'a') LOCAL_DOMAIN 8080 4).2.2.2.1
      (by decide) (by decide),
    ((C18_constructors_validate ⟨7, 7⟩ [] IPV6_DOMAIN 8080 4).2.2.1 (by decide)).mpr
      (Or.inr rfl)⟩

/-! ## C19: the timeout -/

/-- C19: `setTimeout t` raises `InvalidArgument` exactly when `t.tv_sec < 0`, `t.tv_usec < 0`
or `t.tv_usec > 999999`; when it raises the object, the stored timeout included, is
unchanged, otherwise it returns and the stored timeout is `t`; a server built by either
constructor has the timeout 60 s, 0 us, whatever the member held before. -/
theorem C19_setTimeout_validates (s : Server) (t garbage : Timeval) (path : Bytes)
    (t_domain : Int) (t_port : Fin 65536) (n : Int) :
    ((setTimeout s t).1 = .error .invalidArgument ↔
      t.tv_sec < 0 ∨ t.tv_usec < 0 ∨ t.tv_usec > 999999) ∧
    ((setTimeout s t).1 = .error .invalidArgument →
      (setTimeout s t).2 = s ∧ getTimeout (setTimeout s t).2 = getTimeout s) ∧
    ((setTimeout s t).1 ≠ .error .invalidArgument →
      (setTimeout s t).1 = .ok () ∧ (setTimeout s t).2 = { s with m_timeout := t } ∧
        getTimeout (setTimeout s t).2 = t) ∧
    (∀ s1, Server.ofDomain garbage t_domain t_port n = .ok s1 → getTimeout s1 = ⟨60, 0⟩) ∧
    (∀ s1, Server.ofSocketPath garbage path t_port n = .ok s1 → getTimeout s1 = ⟨60, 0⟩) := by
  refine ⟨?_, ?_, ?_, ?_, ?_⟩
  · unfold setTimeout
    split_ifs with h
    · simp [h]
    · exact ⟨fun h1 => (by cases h1), fun h1 => absurd h1 h⟩
  · unfold setTimeout
    split_ifs with h
    · intro _; exact ⟨rfl, rfl⟩
    · intro h1; cases h1
  · unfold setTimeout
    split_ifs with h
    · intro h1; exact absurd rfl h1
    · intro _; exact ⟨rfl, rfl, rfl⟩
  · intro s1 hs
    rw [Server.ofDomain_eq] at hs
    split_ifs at hs <;>
    · simp only [Except.ok.injEq] at hs
      subst hs
      rfl
  · intro s1 hs
    rw [Server.ofSocketPath_eq] at hs
    split_ifs at hs
    simp only [Except.ok.injEq] at hs
    subst hs
    rfl

theorem C19_setTimeout_validates_witness :
    (setTimeout (freshServer 4) ⟨5, 1000000⟩).2 = freshServer 4 ∧
    getTimeout (setTimeout (freshServer 4) ⟨5, 999999⟩).2 = ⟨5, 999999⟩ :=
  ⟨((C19_setTimeout_validates (freshServer 4) ⟨5, 1000000⟩ ⟨0, 0⟩ [] 0 0 0).2.1
      (by decide)).1,
    ((C19_setTimeout_validates (freshServer 4) ⟨5, 999999⟩ ⟨0, 0⟩ [] 0 0 0).2.2.1
      (by decide)).2.2⟩

/-! ## C20: the path that `startServer` binds -/

theorem takeWhile_append_stop {α : Type} (p : α → Bool) :
    ∀ (l1 l2 : List α), (∀ a ∈ l1, p a = true) → (∀ a ∈ l2, p a = false) →
      (l1 ++ l2).takeWhile p = l1 := by
  intro l1
  induction l1 with
  | nil =>
    intro l2 _ h2
    cases l2 with
    | nil => rfl
    | cons a l =>
      rw [List.nil_append, List.takeWhile_cons, h2 a (List.mem_cons_self _ _)]
      rfl
  | cons a l ih =>
    intro l2 h1 h2
    rw [List.cons_append, List.takeWhile_cons, h1 a (List.mem_cons_self _ _)]
    simp only [if_true]
    rw [ih l2 (fun b hb => h1 b (List.mem_cons_of_mem _ hb)) h2]

theorem cString_c_str (path : Bytes) (hnul : NUL ∉ path) : cString (c_str path) = path := by
  unfold cString c_str
  apply takeWhile_append_stop
  · intro a ha
    simp only [bne_iff_ne, ne_eq]
    rintro rfl
    exact hnul ha
  · intro a ha
    rw [List.mem_singleton.mp ha]
    simp

theorem cString_strncpy (path : Bytes) (n : Nat) (hnul : NUL ∉ path) :
    cString (strncpy (List.replicate SUN_PATH_SIZE NUL) (c_str path) n) = path.take n := by
  unfold strncpy
  simp only [cString_c_str path hnul]
  unfold cString
  rw [List.append_assoc]
  apply takeWhile_append_stop
  · intro a ha
    simp only [bne_iff_ne, ne_eq]
    rintro rfl
    exact hnul (List.mem_of_mem_take ha)
  · intro a ha
    have ha' : a = NUL := by
      rcases List.mem_append.mp ha with h | h
      · exact (List.mem_replicate.mp h).2
      · exact (List.mem_replicate.mp (List.mem_of_mem_drop h)).2
    rw [ha']
    simp

theorem startServer.openEventQueue_syscalls (p : Platform) (s : Server) :
    ∃ extra, (startServer.openEventQueue p s).2.syscalls = s.syscalls ++ extra := by
  unfold startServer.openEventQueue
  split
  · exact ⟨[.epollCreate], rfl⟩
  · split
    · split_ifs
      · exact ⟨[.epollCreate], rfl⟩
      · exact ⟨[.epollCreate, .epollCtlAdd (getServerFileDescriptor s)], by simp [Server.log]⟩
    · exact ⟨[.epollCreate, .epollCtlAdd (getServerFileDescriptor s)], by
        simp [setEventQueue, Server.log]⟩

theorem startServer.goOnline_syscalls (p : Platform) (s : Server) :
    (startServer.goOnline p s).2.syscalls = s.syscalls := by
  unfold startServer.goOnline setStartTime setIsServerOnline
  split_ifs
  · rfl
  · cases p.currentDate with
    | none => rfl
    | some date =>
      cases p.currentTime with
      | none => rfl
      | some time =>
        simp only [setStartDate]
        split_ifs <;> rfl

theorem startServer_syscalls (p : Platform) (s s1 s2 : Server)
    (h1 : startServer.openSocket p s = (.ok (), s1))
    (h2 : (startServer.bindAddress p s1).2 = s2) :
    ∃ extra, (startServer p s).2.syscalls = s2.syscalls ++ extra := by
  unfold startServer
  rw [h1]
  simp only []
  subst h2
  rcases hb : startServer.bindAddress p s1 with ⟨r, s2⟩
  cases r with
  | error x => exact ⟨[], by simp⟩
  | ok u =>
    simp only []
    obtain ⟨extra, he⟩ := startServer.openEventQueue_syscalls p s2
    rcases hq : startServer.openEventQueue p s2 with ⟨r3, s3⟩
    rw [hq] at he
    cases r3 with
    | error x => exact ⟨extra, he⟩
    | ok u3 =>
      simp only []
      rw [startServer.goOnline_syscalls]
      exact ⟨extra, he⟩

theorem startServer.openSocket_local (p : Platform) (s : Server) (hsyscalls : s.syscalls = [])
    (hdom : s.m_domain = LOCAL_DOMAIN) (hsock : p.socketResult ≠ -1)
    (hopt : p.setsockoptResult ≠ -1) :
    startServer.openSocket p s =
      (.ok (), { s with m_serverFileDescriptor := p.socketResult,
                        syscalls := [.socket LOCAL_DOMAIN, .setsockopt p.socketResult] }) := by
  unfold startServer.openSocket setServerFileDescriptor
  rw [if_neg hsock]
  simp only [if_neg hopt, Server.log, getDomain, getServerFileDescriptor, hsyscalls, hdom,
    List.nil_append, List.cons_append]

theorem startServer.bindAddress_local (p : Platform) (s : Server)
    (h4 : s.m_usesIpv4Domain = false) (h6 : s.m_usesIpv6Domain = false)
    (hl : s.m_usesLocalDomain = true)
    (hunlink : ¬ (p.unlinkResult = -1 ∧ p.unlinkNoEntry = false)) :
    (startServer.bindAddress p s).2.syscalls =
      s.syscalls ++ [.unlink (cString (c_str s.m_localServerSocketPath)),
        .bindLocal s.m_serverFileDescriptor
          ⟨s.m_domain, strncpy (List.replicate SUN_PATH_SIZE NUL)
            (c_str s.m_localServerSocketPath) p.sizeofString⟩] := by
  unfold startServer.bindAddress
  simp only [usesIpv4Domain, usesIpv6Domain, usesLocalDomain, h4, h6, hl, if_true,
    Bool.false_eq_true, if_false, if_neg hunlink, getDomain, getLocalServerSocketPath,
    getServerFileDescriptor, setServerAddressLocal, Server.log]
  split_ifs <;> simp

/-- C20 (what the code does): for a LOCAL server built with the path `p` (free of NUL
bytes), `startServer` calls `socket`, `setsockopt`, `unlink` on `p` and then `bind` on an
address record whose path is the first `sizeof(std::string)` bytes of `p`: the count passed
to `strncpy` is the size of the string object, not the byte length of `p`.  The bound path
is `p` when `p` is no longer than that size, and differs from `p`, and from the path that
was unlinked, when `p` is longer. -/
theorem C20_startServer_binds_truncated_path (pf : Platform) (garbage : Timeval)
    (path : Bytes) (t_port : Fin 65536) (n : Int) (s : Server)
    (hs : Server.ofSocketPath garbage path t_port n = .ok s)
    (hnul : NUL ∉ path) (hsock : pf.socketResult ≠ -1) (hopt : pf.setsockoptResult ≠ -1)
    (hunlink : ¬ (pf.unlinkResult = -1 ∧ pf.unlinkNoEntry = false)) :
    ∃ sun_path extra,
      (startServer pf s).2.syscalls =
        [.socket LOCAL_DOMAIN, .setsockopt pf.socketResult, .unlink path,
          .bindLocal pf.socketResult ⟨LOCAL_DOMAIN, sun_path⟩] ++ extra ∧
      cString sun_path = path.take pf.sizeofString ∧
      (path.length ≤ pf.sizeofString → cString sun_path = path) ∧
      (pf.sizeofString < path.length → cString sun_path ≠ path) := by
  rw [Server.ofSocketPath_eq] at hs
  split_ifs at hs with hbad
  simp only [Except.ok.injEq] at hs
  subst hs
  have h1 := startServer.openSocket_local pf
    { m_timeout := DEFAULT_TIMEOUT, m_domain := LOCAL_DOMAIN, m_localServerSocketPath := path,
      m_port := t_port.val, m_maximumCurrentConnections := n, m_usesLocalDomain := true }
    rfl rfl hsock hopt
  have h2 := startServer.bindAddress_local pf
    { m_timeout := DEFAULT_TIMEOUT, m_domain := LOCAL_DOMAIN, m_localServerSocketPath := path,
      m_port := t_port.val, m_maximumCurrentConnections := n, m_usesLocalDomain := true,
      m_serverFileDescriptor := pf.socketResult,
      syscalls := [.socket LOCAL_DOMAIN, .setsockopt pf.socketResult] }
    rfl rfl rfl hunlink
  obtain ⟨extra, he⟩ := startServer_syscalls pf _ _ _ h1 rfl
  rw [h2] at he
  refine ⟨strncpy (List.replicate SUN_PATH_SIZE NUL) (c_str path) pf.sizeofString, extra, ?_,
    cString_strncpy path _ hnul, ?_, ?_⟩
  · rw [he]
    simp only [cString_c_str path hnul, List.cons_append, List.nil_append]
  · intro hle
    rw [cString_strncpy path _ hnul, List.take_of_length_le hle]
  · intro hlt
    rw [cString_strncpy path _ hnul]
    intro heq
    have := congrArg List.length heq
    rw [List.length_take] at this
    omega

theorem C20_startServer_binds_truncated_path_witness :
    ∃ sun_path extra,
      (startServer linuxPlatform
        { m_timeout := DEFAULT_TIMEOUT, m_domain := LOCAL_DOMAIN,
          m_localServerSocketPath := longSocketPath, m_port := 0,
          m_maximumCurrentConnections := 4, m_usesLocalDomain := true }).2.syscalls =
        [.socket LOCAL_DOMAIN, .setsockopt 3, .unlink longSocketPath,
          .bindLocal 3 ⟨LOCAL_DOMAIN, sun_path⟩] ++ extra ∧
      cString sun_path = "/tmp/".toList ++ List.replicate 27 'a' ∧
      cString sun_path ≠ longSocketPath :=
  have h := C20_startServer_binds_truncated_path linuxPlatform ⟨0, 0⟩ longSocketPath 0 4
    { m_timeout := DEFAULT_TIMEOUT, m_domain := LOCAL_DOMAIN,
      m_localServerSocketPath := longSocketPath, m_port := 0,
      m_maximumCurrentConnections := 4, m_usesLocalDomain := true }
    rfl (by decide) (by decide) (by decide) (by decide)
  h.imp fun _ h1 => h1.imp fun _ h2 => ⟨h2.1, h2.2.1.trans (by decide), h2.2.2.2 (by decide)⟩

/-! ## C28: one occurrence of the delimiter -/

theorem scanDelimiters_once (dataBuffer t_x : Bytes) (fuel : Nat) :
    scanDelimiters dataBuffer t_x 1 (fuel + 1) 0 0 =
      match find dataBuffer t_x 0 with
      | some pos => .found (pos + t_x.length)
      | none => .notYet 0 0 := by
  rw [scanDelimiters]
  cases find dataBuffer t_x 0 with
  | none => rfl
  | some pos => simp

theorem readTillXComesYTimesDataLoop_once (t_clientID : Int) (t_x : Bytes) :
    ∀ (steps : List ReadStep) (dataBuffer : Bytes) (s : Server),
      readTillXComesYTimesDataLoop t_clientID t_x 1 0 0 dataBuffer s steps =
        readTillXDataLoop t_clientID t_x dataBuffer s steps := by
  intro steps
  induction steps with
  | nil => intro dataBuffer s; rfl
  | cons step steps ih =>
    intro dataBuffer s
    rw [readTillXComesYTimesDataLoop, readTillXDataLoop]
    split_ifs with h1 h2 h3
    · rfl
    · rfl
    · cases hr : step.rcv with
      | failed eintr =>
        cases eintr with
        | true => simp only [ih]
        | false => rfl
      | bytes data =>
        simp only
        split_ifs with h4
        · rfl
        · rw [scanDelimiters_once]
          cases find (dataBuffer ++ data) t_x 0 with
          | none => simp only [ih]
          | some pos => rfl
    · exact ih dataBuffer s

/-- C28: `readTillXComesYTimesData` with count 1 coincides with `readTillXData`: for every
server, client id, delimiter and sequence of readiness and read outcomes, the two calls end
in the same way (success or the same error), leave the same object behind, the stored
payload included, and leave the same reads unconsumed. -/
theorem C28_readTillXComesYTimesData_once (s : Server) (t_clientID : Int) (t_x : Bytes)
    (steps : List ReadStep) :
    readTillXComesYTimesData s t_clientID t_x 1 steps = readTillXData s t_clientID t_x steps := by
  unfold readTillXComesYTimesData readTillXData
  cases getClientFileDescriptor s t_clientID with
  | error e => rfl
  | ok fd =>
    simp only
    split_ifs with h1 h2 h3
    · rfl
    · rfl
    · omega
    · exact readTillXComesYTimesDataLoop_once _ _ _ _ _

/-! ## What the accept path leaves untouched, without assumptions on the registry -/

theorem SameConfig.refl (s : Server) : SameConfig s s := rfl

theorem SameConfig.log (s : Server) (c : Syscall) : SameConfig s (s.log c) := rfl

theorem SameConfig.setClientFileDescriptor (s : Server) (i fd : Int) :
    SameConfig s (setClientFileDescriptor s i fd) := rfl

theorem closeDisconnectedClientsLoop_frame (k : Kernel) :
    ∀ (n : Nat) (i : Int) (s : Server),
      SameConfig s (closeDisconnectedClientsLoop k n i s).2 ∧
      getCurrentClientID (closeDisconnectedClientsLoop k n i s).2 = getCurrentClientID s := by
  intro n
  induction n with
  | zero => intro i s; exact ⟨rfl, rfl⟩
  | succ n ih =>
    intro i s
    rw [closeDisconnectedClientsLoop]
    split_ifs with h
    · cases isDisconnected k s i with
      | error e => exact ⟨rfl, rfl⟩
      | ok b =>
        cases b with
        | false => exact ih _ _
        | true =>
          cases getClientFileDescriptor s i with
          | error e => exact ⟨rfl, rfl⟩
          | ok fd =>
            simp only
            have hs : (match EventQueue.removeClient k fd with
                | .error _ => s.log (.epollCtlDel fd)
                | .ok () => s.log (.epollCtlDel fd)) = s.log (.epollCtlDel fd) := by
              cases EventQueue.removeClient k fd <;> rfl
            rw [hs]
            obtain ⟨h1, h2⟩ := ih (i + 1)
              (setClientFileDescriptor ((s.log (.epollCtlDel fd)).log (.close fd)) i (-1))
            have e : SameConfig s (setClientFileDescriptor
              ((s.log (.epollCtlDel fd)).log (.close fd)) i (-1)) := rfl
            exact ⟨e.trans h1, h2⟩
    · exact ⟨rfl, rfl⟩

theorem copyClientAddress_frame (s s' : Server) (c i : Int)
    (h : copyClientAddress s c i = .ok s') :
    SameConfig s s' ∧ getCurrentClientID s' = getCurrentClientID s := by
  unfold copyClientAddress at h
  split_ifs at h
  · cases ha : getClientAddressIpv4 s i with
    | error e => rw [ha] at h; cases h
    | ok a =>
      rw [ha] at h
      simp only [setClientAddressIpv4, Except.ok.injEq] at h
      subst h
      exact ⟨rfl, rfl⟩
  · cases ha : getClientAddressIpv6 s i with
    | error e => rw [ha] at h; cases h
    | ok a =>
      rw [ha] at h
      simp only [setClientAddressIpv6, Except.ok.injEq] at h
      subst h
      exact ⟨rfl, rfl⟩
  · cases ha : getClientAddressLocal s i with
    | error e => rw [ha] at h; cases h
    | ok a =>
      rw [ha] at h
      simp only [setClientAddressLocal, Except.ok.injEq] at h
      subst h
      exact ⟨rfl, rfl⟩
  · simp only [Except.ok.injEq] at h
    subst h
    exact ⟨rfl, rfl⟩

theorem rearrangeSweep_frame :
    ∀ (n : Nat) (i c : Int) (s : Server),
      SameConfig s (rearrangeSweep n i c s).2 ∧
      getCurrentClientID (rearrangeSweep n i c s).2 = getCurrentClientID s ∧
      ∀ c', (rearrangeSweep n i c s).1 = .ok c' → i ≤ getCurrentClientID s →
        c ≤ c' ∧ c' + i ≤ c + getCurrentClientID s := by
  intro n
  induction n with
  | zero =>
    intro i c s
    refine ⟨rfl, rfl, ?_⟩
    intro c' h hi
    simp only [rearrangeSweep, Except.ok.injEq] at h
    omega
  | succ n ih =>
    intro i c s
    rw [rearrangeSweep]
    by_cases h : i < getCurrentClientID s
    · rw [if_pos h]
      cases getClientFileDescriptor s i with
      | error e => exact ⟨rfl, rfl, fun c' h' => (by cases h')⟩
      | ok fd =>
        simp only
        by_cases hfd : fd ≠ -1
        · rw [if_pos hfd]
          by_cases hne : i ≠ c
          · rw [if_pos hne]
            cases hc : copyClientAddress (setClientFileDescriptor s c fd) c i with
            | error e => exact ⟨rfl, rfl, fun c' h' => (by cases h')⟩
            | ok s2 =>
              simp only
              obtain ⟨f1, f2⟩ := copyClientAddress_frame _ _ _ _ hc
              obtain ⟨h1, h2, h3⟩ := ih (i + 1) (c + 1) s2
              have hcur : getCurrentClientID s2 = getCurrentClientID s := f2
              refine ⟨SameConfig.trans (SameConfig.trans
                (SameConfig.setClientFileDescriptor s c fd) f1) h1, h2.trans hcur, ?_⟩
              intro c' hc' hi
              have := h3 c' hc' (by omega)
              omega
          · rw [if_neg hne]
            obtain ⟨h1, h2, h3⟩ := ih (i + 1) (c + 1) s
            refine ⟨h1, h2, ?_⟩
            intro c' hc' hi
            have := h3 c' hc' (by omega)
            omega
        · rw [if_neg hfd]
          obtain ⟨h1, h2, h3⟩ := ih (i + 1) c s
          refine ⟨h1, h2, ?_⟩
          intro c' hc' hi
          have := h3 c' hc' (by omega)
          omega
    · rw [if_neg h]
      refine ⟨rfl, rfl, ?_⟩
      intro c' h' hi
      simp only [Except.ok.injEq] at h'
      omega

theorem rearrangeClientIDs_frame (k : Kernel) (s : Server) :
    SameConfig s (rearrangeClientIDs k s).2 ∧
    (0 ≤ getCurrentClientID s →
      0 ≤ getCurrentClientID (rearrangeClientIDs k s).2 ∧
      getCurrentClientID (rearrangeClientIDs k s).2 ≤ getCurrentClientID s) := by
  unfold rearrangeClientIDs
  obtain ⟨f1, f2⟩ := closeDisconnectedClientsLoop_frame k (getCurrentClientID s).toNat 0 s
  rcases h1 : closeDisconnectedClients k s with ⟨r1, s1⟩
  have e1 : (closeDisconnectedClientsLoop k (getCurrentClientID s).toNat 0 s).2 = s1 :=
    congrArg Prod.snd h1
  rw [e1] at f1 f2
  cases r1 with
  | error e => exact ⟨f1, fun h => ⟨by simpa [f2] using h, le_of_eq f2⟩⟩
  | ok u =>
    simp only
    obtain ⟨g1, g2, g3⟩ := rearrangeSweep_frame (getCurrentClientID s1).toNat 0 0 s1
    rcases h2 : rearrangeSweep (getCurrentClientID s1).toNat 0 0 s1 with ⟨r2, s2⟩
    rw [h2] at g1 g2 g3
    simp only at g1 g2 g3
    cases r2 with
    | error e => exact ⟨f1.trans g1, fun h => ⟨by rw [g2, f2]; exact h, by rw [g2, f2]⟩⟩
    | ok c =>
      simp only
      unfold setCurrentClientID
      split_ifs with hc
      · exact ⟨f1.trans g1, fun h => ⟨by rw [g2, f2]; exact h, by rw [g2, f2]⟩⟩
      · refine ⟨f1.trans (g1.trans rfl), ?_⟩
        intro h
        have := g3 c rfl (by rw [f2]; exact h)
        simp only [getCurrentClientID] at this f2 ⊢
        omega

theorem acceptIntoRegistry_frame (k : Kernel) (s : Server) (c : Int) :
    SameConfig s (acceptIntoRegistry k s c).2 ∧
    getCurrentClientID (acceptIntoRegistry k s c).2 = getCurrentClientID s := by
  unfold acceptIntoRegistry
  simp only [setClientAddressIpv4, setClientAddressIpv6, setClientAddressLocal]
  split_ifs <;> exact ⟨rfl, rfl⟩

theorem acceptClient_frame (k : Kernel) (s : Server) :
    SameConfig s (acceptClient k s).2 ∧
    (0 ≤ getCurrentClientID s → getCurrentClientID s ≤ getMaximumCurrentConnections s →
      0 ≤ getCurrentClientID (acceptClient k s).2 ∧
      getCurrentClientID (acceptClient k s).2 ≤ getMaximumCurrentConnections s ∧
      ∀ id, (acceptClient k s).1 = .ok id → 0 ≤ id ∧ id < getMaximumCurrentConnections s) := by
  unfold acceptClient
  obtain ⟨f1, f2⟩ := rearrangeClientIDs_frame k s
  rcases h1 : rearrangeClientIDs k s with ⟨r1, s1⟩
  rw [h1] at f1 f2
  simp only at f1 f2
  have hmax : getMaximumCurrentConnections s1 = getMaximumCurrentConnections s := f1.maximum
  have hsame : ∀ s' : Server, SameConfig s1 s' → getCurrentClientID s' = getCurrentClientID s1 →
      ∀ e : Exn, SameConfig s ((Except.error e : Except Exn Int), s').2 ∧
      (0 ≤ getCurrentClientID s → getCurrentClientID s ≤ getMaximumCurrentConnections s →
        0 ≤ getCurrentClientID ((Except.error e : Except Exn Int), s').2 ∧
        getCurrentClientID ((Except.error e : Except Exn Int), s').2 ≤
          getMaximumCurrentConnections s ∧
        ∀ id, ((Except.error e : Except Exn Int), s').1 = .ok id →
          0 ≤ id ∧ id < getMaximumCurrentConnections s) := by
    intro s' hs' hcur e
    refine ⟨f1.trans hs', fun h0 hb => ⟨?_, ?_, fun id h => (by cases h)⟩⟩
    · simp only [hcur]; exact (f2 h0).1
    · simp only [hcur]; have := (f2 h0).2; omega
  cases r1 with
  | error e => exact hsame s1 rfl rfl e
  | ok u =>
    dsimp only
    by_cases hfull : getCurrentClientID s1 ≥ getMaximumCurrentConnections s1
    · rw [if_pos hfull]
      exact hsame s1 rfl rfl _
    · rw [if_neg hfull]
      obtain ⟨g1, g2⟩ := acceptIntoRegistry_frame k s1 (getCurrentClientID s1)
      rcases h2 : acceptIntoRegistry k s1 (getCurrentClientID s1) with ⟨r2, s2⟩
      rw [h2] at g1 g2
      simp only at g1 g2
      cases r2 with
      | error e => exact hsame s2 g1 g2 e
      | ok u2 =>
        dsimp only
        cases getClientFileDescriptor s2 (getCurrentClientID s1) with
        | error e => exact hsame s2 g1 g2 e
        | ok fd =>
          dsimp only
          cases EventQueue.addClient k fd with
          | error e => exact hsame (s2.log (.epollCtlAdd fd)) (g1.trans rfl) g2 e
          | ok u3 =>
            dsimp only
            unfold setCurrentClientID
            by_cases hneg : getCurrentClientID s1 + 1 < 0
            · rw [if_pos hneg]
              exact hsame (s2.log (.epollCtlAdd fd)) (g1.trans rfl) g2 _
            · rw [if_neg hneg]
              dsimp only
              refine ⟨f1.trans (g1.trans rfl), fun h0 hb => ?_⟩
              have b1 := (f2 h0).1
              simp only [getCurrentClientID, getMaximumCurrentConnections] at *
              refine ⟨by omega, by omega, ?_⟩
              intro id hid
              simp only [Except.ok.injEq] at hid
              omega

/-! ## C29: compaction and the payload buffers -/

/-- C29: `rearrangeClientIDs`, and hence `acceptClient`, leaves the map from ids to payloads
as it was, whatever the registry and the kernel's answers: `getData` gives for every id what
it gave before, so after a client has moved to a lower slot `getData` of that slot still
returns the payload stored under that id before the move. -/
theorem C29_compaction_leaves_payloads (k : Kernel) (s : Server) (t_clientID : Int) :
    (rearrangeClientIDs k s).2.m_data = s.m_data ∧
    (acceptClient k s).2.m_data = s.m_data ∧
    getData (rearrangeClientIDs k s).2 t_clientID = getData s t_clientID ∧
    getData (acceptClient k s).2 t_clientID = getData s t_clientID := by
  have h1 := (rearrangeClientIDs_frame k s).1.data
  have h2 := (acceptClient_frame k s).1.data
  exact ⟨h1, h2, by simp only [getData, h1], by simp only [getData, h2]⟩

theorem compaction_moves_descriptor_not_payload :
    (rearrangeClientIDs (kernelWith [5] 8 80) threeClientsWithData).1 = .ok () ∧
    getClientFileDescriptor threeClientsWithData 1 = .ok 6 ∧
    getData threeClientsWithData 1 = .ok ['B'] ∧
    getClientFileDescriptor (rearrangeClientIDs (kernelWith [5] 8 80) threeClientsWithData).2 0
      = .ok 6 ∧
    getData (rearrangeClientIDs (kernelWith [5] 8 80) threeClientsWithData).2 0 = .ok ['A'] := by
  decide

/-! ## C30: the id counter and the backlog -/

theorem runCalls_bounds :
    ∀ (calls : List RegistryCall) (s : Server),
      0 ≤ getCurrentClientID s → getCurrentClientID s ≤ getMaximumCurrentConnections s →
      getMaximumCurrentConnections (runCalls calls s) = getMaximumCurrentConnections s ∧
      0 ≤ getCurrentClientID (runCalls calls s) ∧
      getCurrentClientID (runCalls calls s) ≤ getMaximumCurrentConnections s := by
  intro calls
  induction calls with
  | nil => intro s h0 hb; exact ⟨rfl, h0, hb⟩
  | cons c cs ih =>
    intro s h0 hb
    rw [runCalls]
    cases c with
    | accept k =>
      obtain ⟨f1, f2⟩ := acceptClient_frame k s
      obtain ⟨b1, b2, _⟩ := f2 h0 hb
      have hmax := f1.maximum
      obtain ⟨i1, i2, i3⟩ := ih (acceptClient k s).2 b1 (by rw [hmax]; exact b2)
      exact ⟨i1.trans hmax, i2, by rw [← hmax]; exact i3⟩
    | compact k =>
      obtain ⟨f1, f2⟩ := rearrangeClientIDs_frame k s
      obtain ⟨b1, b2⟩ := f2 h0
      have hmax := f1.maximum
      obtain ⟨i1, i2, i3⟩ := ih (rearrangeClientIDs k s).2 b1 (by rw [hmax]; omega)
      exact ⟨i1.trans hmax, i2, by rw [← hmax]; exact i3⟩

/-- C30: from a server with next-id 0 and backlog `b > 0`, after any sequence of
`acceptClient` calls (successful or failing) and compactions, with any answers of the
kernel, the backlog is still `b`, `0 ≤ next-id ≤ b`, and every id that a further
`acceptClient` returns lies in `[0, b)`. -/
theorem C30_next_id_within_backlog (calls : List RegistryCall) (s0 : Server)
    (hnext : getCurrentClientID s0 = 0) (hb : 0 < getMaximumCurrentConnections s0) :
    getMaximumCurrentConnections (runCalls calls s0) = getMaximumCurrentConnections s0 ∧
    0 ≤ getCurrentClientID (runCalls calls s0) ∧
    getCurrentClientID (runCalls calls s0) ≤ getMaximumCurrentConnections s0 ∧
    ∀ (k : Kernel) (id : Int), (acceptClient k (runCalls calls s0)).1 = .ok id →
      0 ≤ id ∧ id < getMaximumCurrentConnections s0 := by
  obtain ⟨h1, h2, h3⟩ := runCalls_bounds calls s0 (by omega) (by omega)
  refine ⟨h1, h2, h3, ?_⟩
  intro k id hid
  have := ((acceptClient_frame k (runCalls calls s0)).2 h2 (by rw [h1]; exact h3)).2.2 id hid
  rw [h1] at this
  exact this

theorem C30_next_id_within_backlog_witness :
    getCurrentClientID (runCalls [.accept (kernelWith [] 5 50), .accept (kernelWith [] 6 60),
      .accept (kernelWith [] 7 70), .compact (kernelWith [5] 8 80)] (freshServer 2)) ≤ 2 ∧
    (acceptClient (kernelWith [] 6 60) (runCalls [.accept (kernelWith [] 5 50)]
      (freshServer 2))).1 = .ok 1 ∧ (0 : Int) ≤ 1 ∧ (1 : Int) < 2 :=
  ⟨(C30_next_id_within_backlog [.accept (kernelWith [] 5 50), .accept (kernelWith [] 6 60),
      .accept (kernelWith [] 7 70), .compact (kernelWith [5] 8 80)] (freshServer 2)
      rfl (by decide)).2.2.1,
    by decide,
    (C30_next_id_within_backlog [.accept (kernelWith [] 5 50)] (freshServer 2)
      rfl (by decide)).2.2.2 (kernelWith [] 6 60) 1 (by decide)⟩

/-! ## C27: the descriptor getter at the border of the id range -/

theorem getClientFileDescriptor_above (s : Server) (t_clientID : Int)
    (h : getCurrentClientID s < t_clientID) :
    getClientFileDescriptor s t_clientID = .error .outOfRange := by
  simp [getClientFileDescriptor, thisClientDoesNotExist, h]

theorem getClientFileDescriptor_upto (s : Server) (t_clientID : Int)
    (h : t_clientID ≤ getCurrentClientID s) :
    getClientFileDescriptor s t_clientID = s.m_clientFileDescriptor.lookupAt t_clientID := by
  simp [getClientFileDescriptor, thisClientDoesNotExist, not_lt.mpr h]

/-- C27 (evaluation at the failing input): clients 0, 1, 2 are accepted on descriptors 5, 6,
7, the peers of 5 and 6 close and a fourth client is accepted.  Next-id is then 2, so 2 is
not an assigned id, but slot 2 still holds the descriptor 7 that compaction copied to slot 0:
`getClientFileDescriptor 2` returns 7 instead of raising `out_of_range`, because the guard
is `id > next-id`.  Ids above next-id and negative ids do raise. -/
theorem C27_getClientFileDescriptor_at_next_id :
    getCurrentClientID lookupScenario = 2 ∧
    getClientFileDescriptor lookupScenario 2 = .ok 7 ∧
    getClientFileDescriptor lookupScenario 0 = .ok 7 ∧
    getClientFileDescriptor lookupScenario 3 = .error .outOfRange ∧
    getClientFileDescriptor lookupScenario (-1) = .error .outOfRange := by
  decide

/-! ## C26: the disconnect test -/

theorem isDisconnectedPeeks_retries (s : Server) (t_clientID fd : Int)
    (hfd : getClientFileDescriptor s t_clientID = .ok fd) (h0 : 0 ≤ fd) :
    ∀ (n : Nat) (peeks : List PeekOutcome),
      isDisconnectedPeeks s t_clientID (List.replicate n wouldBlock ++ peeks) =
        isDisconnectedPeeks s t_clientID peeks := by
  intro n
  induction n with
  | zero => intro peeks; rfl
  | succ n ih =>
    intro peeks
    rw [List.replicate_succ, List.cons_append, isDisconnectedPeeks, hfd]
    simp only [wouldBlock, if_neg (not_lt.mpr h0)]
    exact ih peeks

theorem isDisconnectedPeeks_returns (s : Server) (t_clientID fd : Int)
    (hfd : getClientFileDescriptor s t_clientID = .ok fd) (h0 : 0 ≤ fd) :
    ∀ (peeks : List PeekOutcome) (b : Bool),
      isDisconnectedPeeks s t_clientID peeks = some (.ok b) →
      ∃ (n : Nat) (p : PeekOutcome) (rest : List PeekOutcome),
        peeks = List.replicate n wouldBlock ++ p :: rest ∧ p ≠ wouldBlock := by
  intro peeks
  induction peeks with
  | nil =>
    intro b h
    simp [isDisconnectedPeeks, hfd, not_lt.mpr h0] at h
  | cons p ps ih =>
    intro b h
    by_cases hp : p = wouldBlock
    · subst hp
      rw [isDisconnectedPeeks, hfd] at h
      simp only [wouldBlock, if_neg (not_lt.mpr h0)] at h
      obtain ⟨n, q, rest, hps, hq⟩ := ih b h
      exact ⟨n + 1, q, rest, by rw [hps, List.replicate_succ, List.cons_append], hq⟩
    · exact ⟨0, p, ps, rfl, hp⟩

theorem isDisconnectedPeeks_decided (s : Server) (t_clientID fd : Int)
    (hfd : getClientFileDescriptor s t_clientID = .ok fd) (h0 : 0 ≤ fd)
    (n : Nat) (p : PeekOutcome) (rest : List PeekOutcome) (hp : p ≠ wouldBlock) :
    isDisconnectedPeeks s t_clientID (List.replicate n wouldBlock ++ p :: rest) =
      some (.ok (decide (p.bytesRead = 0 ∨ p.bytesRead = -1))) := by
  rw [isDisconnectedPeeks_retries s t_clientID fd hfd h0, isDisconnectedPeeks, hfd]
  simp only [if_neg (not_lt.mpr h0)]
  by_cases hz : p.bytesRead = 0
  · simp [hz]
  · rw [if_neg hz]
    by_cases hm : p.bytesRead = -1
    · have ha : p.again = false := by
        cases hag : p.again with
        | false => rfl
        | true =>
          exfalso
          apply hp
          cases p
          simp only [wouldBlock, PeekOutcome.mk.injEq]
          exact ⟨hm, hag⟩
      simp [hm, ha]
    · simp [hz, hm]

/-- C26: for a client whose slot holds a valid descriptor, `isDisconnected` is decided by the
first peek that does not answer would-block: it returns `true` when that peek returns zero
bytes or fails with another error, `false` when it returns a positive count; while every
recorded peek answers would-block it has not returned; and whenever it returns, some peek
gave an answer other than would-block. -/
theorem C26_isDisconnected_first_definitive_peek (s : Server) (t_clientID fd : Int)
    (hfd : getClientFileDescriptor s t_clientID = .ok fd) (h0 : 0 ≤ fd)
    (n : Nat) (p : PeekOutcome) (rest : List PeekOutcome) (hp : p ≠ wouldBlock) :
    isDisconnectedPeeks s t_clientID (List.replicate n wouldBlock ++ p :: rest) =
      some (.ok (decide (p.bytesRead = 0 ∨ p.bytesRead = -1))) ∧
    (0 < p.bytesRead →
      isDisconnectedPeeks s t_clientID (List.replicate n wouldBlock ++ p :: rest) =
        some (.ok false)) ∧
    isDisconnectedPeeks s t_clientID (List.replicate n wouldBlock) = none ∧
    (∀ (peeks : List PeekOutcome) (b : Bool),
      isDisconnectedPeeks s t_clientID peeks = some (.ok b) →
      ∃ (m : Nat) (q : PeekOutcome) (rest1 : List PeekOutcome),
        peeks = List.replicate m wouldBlock ++ q :: rest1 ∧ q ≠ wouldBlock) := by
  have hmain := isDisconnectedPeeks_decided s t_clientID fd hfd h0 n p rest hp
  refine ⟨hmain, ?_, ?_, isDisconnectedPeeks_returns s t_clientID fd hfd h0⟩
  · intro hpos
    rw [hmain]
    have : ¬ (p.bytesRead = 0 ∨ p.bytesRead = -1) := by omega
    simp [this]
  · have := isDisconnectedPeeks_retries s t_clientID fd hfd h0 n []
    rw [List.append_nil] at this
    rw [this]
    simp [isDisconnectedPeeks, hfd, not_lt.mpr h0]

theorem C26_isDisconnected_first_definitive_peek_witness :
    isDisconnectedPeeks oneClient 0 (List.replicate 2 wouldBlock ++ ⟨0, false⟩ :: []) =
      some (.ok true) ∧
    isDisconnectedPeeks oneClient 0 (List.replicate 2 wouldBlock) = none :=
  have h := C26_isDisconnected_first_definitive_peek oneClient 0 5 (by decide) (by decide) 2
    ⟨0, false⟩ [] (by decide)
  ⟨h.1, h.2.2.1⟩

theorem isDisconnectedPeeks_verdict (k : Kernel) (s : Server) (t_clientID fd : Int)
    (hfd : getClientFileDescriptor s t_clientID = .ok fd) (h0 : 0 ≤ fd)
    (n : Nat) (p : PeekOutcome) (rest : List PeekOutcome) (hp : p ≠ wouldBlock)
    (hk : k.peerGone fd = decide (p.bytesRead = 0 ∨ p.bytesRead = -1)) :
    isDisconnectedPeeks s t_clientID (List.replicate n wouldBlock ++ p :: rest) =
      some (isDisconnected k s t_clientID) := by
  rw [isDisconnectedPeeks_decided s t_clientID fd hfd h0 n p rest hp]
  simp [isDisconnected, hfd, hk, not_lt.mpr h0]

/-! ## C23, C24: `stopServer` -/

theorem stopServerLoop_frame (k : Kernel) :
    ∀ (n : Nat) (i : Int) (s : Server),
      (stopServerLoop k n i s).2 = { s with syscalls := (stopServerLoop k n i s).2.syscalls } := by
  intro n
  induction n with
  | zero => intro i s; rfl
  | succ n ih =>
    intro i s
    rw [stopServerLoop]
    by_cases h : i < getCurrentClientID s
    · rw [if_pos h]
      cases isDisconnected k s i with
      | error e => rfl
      | ok b =>
        cases b with
        | true => exact ih _ _
        | false =>
          dsimp only
          cases getClientFileDescriptor s i with
          | error e => rfl
          | ok fd =>
            dsimp only
            have := ih (i + 1) (s.log (.close fd))
            rw [this]
            rfl
    · rw [if_neg h]

theorem stopServerLoop_returns (k : Kernel) :
    ∀ (n : Nat) (i : Int) (s : Server),
      (∀ j : Int, i ≤ j → j < getCurrentClientID s → (s.m_clientFileDescriptor j).isSome = true) →
      (stopServerLoop k n i s).1 = .ok () := by
  intro n
  induction n with
  | zero => intro i s _; rfl
  | succ n ih =>
    intro i s hslots
    rw [stopServerLoop]
    by_cases h : i < getCurrentClientID s
    · rw [if_pos h]
      obtain ⟨fd, hfd⟩ := Option.isSome_iff_exists.mp (hslots i le_rfl h)
      have hget : getClientFileDescriptor s i = .ok fd := by
        simp [getClientFileDescriptor, thisClientDoesNotExist, not_lt.mpr (le_of_lt h),
          UnorderedMap.lookupAt, hfd]
      have hdis : isDisconnected k s i = .ok (decide (fd < 0) || k.peerGone fd) := by
        simp only [isDisconnected, hget]
      rw [hdis]
      cases (decide (fd < 0) || k.peerGone fd) with
      | true => exact ih _ _ (fun j hj => hslots j (by omega))
      | false =>
        dsimp only
        rw [hget]
        exact ih _ _ (fun j hj => hslots j (by omega))
    · rw [if_neg h]

/-- C23 (counterexample): on a server that is online, when `close` on the listener fails,
`stopServer` raises `ServerRuntime` before it touches the flags: the server is still online
and its start timestamp is unchanged.  On a server that was constructed and never started
the listener is `-1`, `close` fails and `stopServer` raises as well. -/
theorem C23_stopServer_close_failure_stays_online :
    isServerOnline onlineServer = true ∧
    (stopServer (kernelWith [] 0 0) true onlineServer).1 = .error .serverRuntime ∧
    isServerOnline (stopServer (kernelWith [] 0 0) true onlineServer).2 = true ∧
    getStartTime (stopServer (kernelWith [] 0 0) true onlineServer).2 = 1700000000 ∧
    Server.destructor (kernelWith [] 0 0) true onlineServer = none ∧
    (Server.ofDomain ⟨0, 0⟩ IPV4_DOMAIN 8080 4).toOption = some neverStarted ∧
    (stopServer (kernelWith [] 0 0) false neverStarted).1 = .error .serverRuntime := by
  refine ⟨by decide, by decide, by decide, by decide, ?_, ?_, by decide⟩
  · have h : (stopServer (kernelWith [] 0 0) true onlineServer).1 = .error .serverRuntime := by
      decide
    unfold Server.destructor
    rcases hs : stopServer (kernelWith [] 0 0) true onlineServer with ⟨r, s1⟩
    rw [hs] at h
    simp only at h
    subst h
    rfl
  · rw [Server.ofDomain_eq]
    rfl

/-- C23 (amended): whenever `stopServer` returns, the server is offline and its start
timestamp is 0; whenever it raises, both fields are as they were.  With a descriptor entry
in every slot below next-id, it returns when `close` on the listener succeeds and raises
`ServerRuntime` when that `close` fails, which is the case on a listener value of `-1` (a
server that was never started).  The destructor reaches the offline state whenever its call
of `stopServer` returns. -/
theorem C23_stopServer_offline_when_it_returns (k : Kernel) (closeFails : Bool) (s : Server) :
    ((stopServer k closeFails s).1 = .ok () →
      isServerOnline (stopServer k closeFails s).2 = false ∧
      getStartTime (stopServer k closeFails s).2 = 0) ∧
    ((stopServer k closeFails s).1 ≠ .ok () →
      isServerOnline (stopServer k closeFails s).2 = isServerOnline s ∧
      getStartTime (stopServer k closeFails s).2 = getStartTime s) ∧
    (closeListener closeFails (getServerFileDescriptor s) = -1 →
      (stopServer k closeFails s).1 ≠ .ok ()) ∧
    (SlotsPresent s → closeListener closeFails (getServerFileDescriptor s) ≠ -1 →
      (stopServer k closeFails s).1 = .ok ()) ∧
    (SlotsPresent s → closeListener closeFails (getServerFileDescriptor s) = -1 →
      (stopServer k closeFails s).1 = .error .serverRuntime) ∧
    (SlotsPresent s → getServerFileDescriptor s = -1 →
      (stopServer k closeFails s).1 = .error .serverRuntime) ∧
    (∀ s1, Server.destructor k closeFails s = some s1 →
      isServerOnline s1 = false ∧ getStartTime s1 = 0) := by
  have hminus : getServerFileDescriptor s = -1 →
      closeListener closeFails (getServerFileDescriptor s) = -1 := by
    intro h
    rw [h]
    simp [closeListener]
  have hframe := stopServerLoop_frame k (getCurrentClientID s).toNat 0 s
  have hret := stopServerLoop_returns k (getCurrentClientID s).toNat 0 s
  unfold Server.destructor stopServer
  rcases hl : stopServerLoop k (getCurrentClientID s).toNat 0 s with ⟨r, s1⟩
  rw [hl] at hframe hret
  simp only at hframe hret
  have hfd : getServerFileDescriptor s1 = getServerFileDescriptor s := by
    rw [hframe]; rfl
  have hon : isServerOnline s1 = isServerOnline s := by rw [hframe]; rfl
  have hst : getStartTime s1 = getStartTime s := by rw [hframe]; rfl
  cases r with
  | error e =>
    dsimp only
    have hno : SlotsPresent s → False := by
      intro hslots
      have := hret (fun j hj => hslots j hj)
      cases this
    exact ⟨fun h => (by cases h), fun _ => ⟨hon, hst⟩, fun _ h => (by cases h),
      fun hslots _ => (hno hslots).elim, fun hslots _ => (hno hslots).elim,
      fun hslots _ => (hno hslots).elim, fun s2 h => (by cases h)⟩
  | ok u =>
    dsimp only
    rw [hfd]
    by_cases hc : closeListener closeFails (getServerFileDescriptor s) = -1
    · rw [if_pos hc]
      exact ⟨fun h => (by cases h), fun _ => ⟨hon, hst⟩, fun _ h => (by cases h),
        fun _ h => absurd hc h, fun _ _ => rfl, fun _ _ => rfl, fun s2 h => (by cases h)⟩
    · rw [if_neg hc]
      unfold setStartTime
      rw [if_neg (lt_irrefl (0 : Int))]
      dsimp only
      refine ⟨fun _ => ⟨rfl, rfl⟩, fun h => absurd rfl h, fun h => absurd h hc,
        fun _ _ => rfl, fun _ h => absurd h hc, fun _ h => absurd (hminus h) hc, ?_⟩
      intro s2 h
      simp only [Option.some.injEq] at h
      subst h
      exact ⟨rfl, rfl⟩

theorem C23_stopServer_offline_when_it_returns_witness :
    (stopServer (kernelWith [] 0 0) false onlineServer).1 = .ok () ∧
    isServerOnline (stopServer (kernelWith [] 0 0) false onlineServer).2 = false ∧
    getStartTime (stopServer (kernelWith [] 0 0) false onlineServer).2 = 0 :=
  have h := C23_stopServer_offline_when_it_returns (kernelWith [] 0 0) false onlineServer
  have hr := h.2.2.2.1 (fun i h0 h3 => by
    have h3' : i < 3 := h3
    interval_cases i <;> rfl) (by decide)
  ⟨hr, h.1 hr⟩

/-- C24 (evaluation at the failing input): clients 0, 1, 2 hold the descriptors 5, 6, 7 and
the peer of descriptor 6 has disconnected, its slot not yet reaped.  `stopServer` returns
after closing 5, 7 and the listener 3: descriptor 6, still stored in slot 1, is never closed,
because the loop closes a slot only if `isDisconnected` is false for it. -/
theorem C24_stopServer_leaves_disconnected_peer_open :
    getCurrentClientID (threeClients 4) = 3 ∧
    (threeClients 4).m_clientFileDescriptor 1 = some 6 ∧
    (stopServer (kernelWith [6] 0 0) false (threeClients 4)).1 = .ok () ∧
    (stopServer (kernelWith [6] 0 0) false (threeClients 4)).2.syscalls =
      [.close 5, .close 7, .close 3] ∧
    Syscall.close 6 ∉ (stopServer (kernelWith [6] 0 0) false (threeClients 4)).2.syscalls := by
  decide

/-! ## C21: the socket path of a LOCAL client -/

theorem client_ofSocketPath_eq (t_socketPath : Bytes) (t_port : Fin 65536) :
    Client.ofSocketPath t_socketPath t_port =
      if t_socketPath = [] then .error .invalidArgument
      else .ok { m_serverDomain := LOCAL_DOMAIN, m_serverSocketPath := t_socketPath,
                 m_serverPort := t_port.val, m_usesLocalDomain := true } := by
  have hdom : Client.setServerDomain {} LOCAL_DOMAIN = .ok { m_serverDomain := LOCAL_DOMAIN } := by
    simp [Client.setServerDomain, LOCAL_DOMAIN, IPV4_DOMAIN, IPV6_DOMAIN]
  have hport : ∀ c : Client, c.setServerPort t_port = .ok { c with m_serverPort := t_port.val } := by
    intro c
    have h := t_port.isLt
    unfold Client.setServerPort
    rw [if_neg (by omega)]
  unfold Client.ofSocketPath
  rw [hdom]
  cases t_socketPath with
  | nil => rfl
  | cons a l =>
    simp [Client.setServerSocketPath, hport, Client.setTimeout, DEFAULT_TIMEOUT,
      Client.setUsesIpv4Domain, Client.setUsesIpv6Domain, Client.setUsesLocalDomain]

/-- C21 (counterexample): constructing a LOCAL client with a socket path of 105 bytes
succeeds, and the client holds the 105-byte path: `Client::setServerSocketPath` rejects the
empty path only. -/
theorem C21_client_accepts_long_socket_path :
    ∃ c, Client.ofSocketPath (List.replicate 105 'a') 0 = .ok c ∧
      (Client.getServerSocketPath c).length = 105 := by
  refine ⟨_, (client_ofSocketPath_eq _ _).trans (if_neg (by decide)), by decide⟩

/-- C21 (amended): constructing a LOCAL client is rejected with `InvalidArgument` exactly
when the socket path is empty; for every other path, of any length, it succeeds and the
client holds that path, so every constructed LOCAL client has a path of at least one byte
and no upper bound is enforced. -/
theorem C21_client_socket_path_nonempty (t_socketPath : Bytes) (t_port : Fin 65536) :
    (Client.ofSocketPath t_socketPath t_port = .error .invalidArgument ↔ t_socketPath = []) ∧
    (∀ c, Client.ofSocketPath t_socketPath t_port = .ok c →
      Client.getServerSocketPath c = t_socketPath ∧ 1 ≤ (Client.getServerSocketPath c).length) ∧
    ((∃ c, Client.ofSocketPath t_socketPath t_port = .ok c) ↔ t_socketPath ≠ []) := by
  rw [client_ofSocketPath_eq]
  by_cases h : t_socketPath = []
  · simp [h]
  · rw [if_neg h]
    refine ⟨⟨fun h1 => (by cases h1), fun h1 => absurd h1 h⟩, ?_, ⟨fun _ => h, fun _ => ⟨_, rfl⟩⟩⟩
    intro c hc
    simp only [Except.ok.injEq] at hc
    subst hc
    refine ⟨rfl, ?_⟩
    cases t_socketPath with
    | nil => exact absurd rfl h
    | cons a l => simp [Client.getServerSocketPath]

/-! ## C22: the client reads against the server reads -/

theorem getData_setData (s : Server) (t_clientID : Int) (t_data : Bytes) :
    getData (setData s t_clientID t_data) t_clientID = .ok t_data := by
  simp [getData, setData, UnorderedMap.lookupAt, UnorderedMap.assign]

theorem client_readXDataLoop_corresponds (t_clientID : Int) (t_x : Int) :
    ∀ (steps : List ReadStep) (totalBytesRead : Int) (dataBuffer : Bytes) (s : Server)
      (c : Client), getData s t_clientID = .ok c.getData →
      Corresponds t_clientID (readXDataLoop t_clientID t_x totalBytesRead dataBuffer s steps)
        (Client.readXDataLoop t_x totalBytesRead dataBuffer c steps) := by
  intro steps
  induction steps with
  | nil => intro _ _ s c h; exact ⟨rfl, rfl, h⟩
  | cons step steps ih =>
    intro totalBytesRead dataBuffer s c h
    obtain ⟨sel, rcv⟩ := step
    rw [readXDataLoop, Client.readXDataLoop]
    cases rcv with
    | failed e =>
      cases e <;> dsimp only <;> split_ifs <;>
        first
        | exact ⟨rfl, rfl, h⟩
        | exact ih _ _ _ _ h
    | bytes data =>
      dsimp only
      split_ifs <;>
        first
        | exact ⟨rfl, rfl, h⟩
        | exact ih _ _ _ _ h
        | exact ⟨rfl, rfl, getData_setData _ _ _⟩

theorem client_readTillXDataLoop_corresponds (t_clientID : Int) (t_x : Bytes) :
    ∀ (steps : List ReadStep) (dataBuffer : Bytes) (s : Server) (c : Client),
      getData s t_clientID = .ok c.getData →
      Corresponds t_clientID (readTillXDataLoop t_clientID t_x dataBuffer s steps)
        (Client.readTillXDataLoop t_x dataBuffer c steps) := by
  intro steps
  induction steps with
  | nil => intro _ s c h; exact ⟨rfl, rfl, h⟩
  | cons step steps ih =>
    intro dataBuffer s c h
    obtain ⟨sel, rcv⟩ := step
    rw [readTillXDataLoop, Client.readTillXDataLoop]
    cases rcv with
    | failed e =>
      cases e <;> dsimp only <;> split_ifs <;>
        first
        | exact ⟨rfl, rfl, h⟩
        | exact ih _ _ _ h
    | bytes data =>
      dsimp only
      cases find (dataBuffer ++ data) t_x 0 with
      | none =>
        dsimp only
        split_ifs <;>
          first
          | exact ⟨rfl, rfl, h⟩
          | exact ih _ _ _ h
      | some pos =>
        dsimp only
        split_ifs <;>
          first
          | exact ⟨rfl, rfl, h⟩
          | exact ih _ _ _ h
          | exact ⟨rfl, rfl, getData_setData _ _ _⟩

theorem client_readTillXComesYTimesDataLoop_corresponds (t_clientID : Int) (t_x : Bytes)
    (t_y : Int) :
    ∀ (steps : List ReadStep) (count : Int) (bufferPos : Nat) (dataBuffer : Bytes) (s : Server)
      (c : Client), getData s t_clientID = .ok c.getData →
      Corresponds t_clientID
        (readTillXComesYTimesDataLoop t_clientID t_x t_y count bufferPos dataBuffer s steps)
        (Client.readTillXComesYTimesDataLoop t_x t_y count bufferPos dataBuffer c steps) := by
  intro steps
  induction steps with
  | nil => intro _ _ _ s c h; exact ⟨rfl, rfl, h⟩
  | cons step steps ih =>
    intro count bufferPos dataBuffer s c h
    obtain ⟨sel, rcv⟩ := step
    rw [readTillXComesYTimesDataLoop, Client.readTillXComesYTimesDataLoop]
    cases rcv with
    | failed e =>
      cases e <;> dsimp only <;> split_ifs <;>
        first
        | exact ⟨rfl, rfl, h⟩
        | exact ih _ _ _ _ _ h
    | bytes data =>
      dsimp only
      cases scanDelimiters (dataBuffer ++ data) t_x t_y ((dataBuffer ++ data).length + 1)
          count bufferPos with
      | notYet count1 bufferPos1 =>
        dsimp only
        split_ifs <;>
          first
          | exact ⟨rfl, rfl, h⟩
          | exact ih _ _ _ _ _ h
      | found bufferPos1 =>
        dsimp only
        split_ifs <;>
          first
          | exact ⟨rfl, rfl, h⟩
          | exact ih _ _ _ _ _ h
          | exact ⟨rfl, rfl, getData_setData _ _ _⟩

/-- C22: for a server client whose descriptor is not `-1` and a client object whose
descriptor is not `-1`, for every argument value and every sequence of readiness and read
outcomes, each of `Client::readXData`, `readTillXData` and `readTillXComesYTimesData` ends as
the server variant does: success for success, `InvalidArgument` for `InvalidArgument`,
`ClientRuntime` for `ServerRuntime`, `ClientTimeout` for `ServerTimeout`, at the same step
(the same reads are left unconsumed), and the payload it stores is the payload the server
variant stores for that client. -/
theorem C22_client_reads_correspond (s : Server) (t_clientID fd : Int)
    (hfd : getClientFileDescriptor s t_clientID = .ok fd) (hfd1 : fd ≠ -1)
    (c : Client) (hc : c.getServerFileDescriptor ≠ -1)
    (n : Int) (d : Bytes) (y : Int) (steps : List ReadStep) :
    Corresponds t_clientID (readXData s t_clientID n steps) (c.readXData n steps) ∧
    Corresponds t_clientID (readTillXData s t_clientID d steps) (c.readTillXData d steps) ∧
    Corresponds t_clientID (readTillXComesYTimesData s t_clientID d y steps)
      (c.readTillXComesYTimesData d y steps) := by
  have h0 : getData (setData s t_clientID []) t_clientID = .ok (c.setData []).getData :=
    getData_setData _ _ _
  refine ⟨?_, ?_, ?_⟩
  · simp only [readXData, hfd, if_neg hfd1, Client.readXData, if_neg hc]
    split_ifs
    · exact ⟨rfl, rfl, h0⟩
    · exact client_readXDataLoop_corresponds _ _ _ _ _ _ _ h0
  · simp only [readTillXData, hfd, if_neg hfd1, Client.readTillXData, if_neg hc]
    split_ifs
    · exact ⟨rfl, rfl, h0⟩
    · exact client_readTillXDataLoop_corresponds _ _ _ _ _ _ h0
  · simp only [readTillXComesYTimesData, hfd, if_neg hfd1, Client.readTillXComesYTimesData,
      if_neg hc]
    split_ifs
    · exact ⟨rfl, rfl, h0⟩
    · exact ⟨rfl, rfl, h0⟩
    · exact client_readTillXComesYTimesDataLoop_corresponds _ _ _ _ _ _ _ _ _ h0

theorem C22_client_reads_correspond_witness :
    (connectedClient.readTillXData "\n".toList [readOf "PI", readOf "NG\nrest"]).outcome =
      (readTillXData oneClient 0 "\n".toList [readOf "PI", readOf "NG\nrest"]).outcome.map
        (Except.mapError toClientKind) ∧
    getData (readTillXData oneClient 0 "\n".toList [readOf "PI", readOf "NG\nrest"]).server 0 =
      .ok (connectedClient.readTillXData "\n".toList [readOf "PI", readOf "NG\nrest"]).client.getData :=
  have h := (C22_client_reads_correspond oneClient 0 5 (by decide) (by decide) connectedClient
    (by decide) 0 "\n".toList 0 [readOf "PI", readOf "NG\nrest"]).2.1
  ⟨h.1, h.2.2⟩

/-! ## C25: locks and data races -/

theorem reachable_mem_of_closed (c0 : Config) (R : List Config) (hstart : c0 ∈ R)
    (hclosed : ∀ c ∈ R, ∀ c1 ∈ c.successors, c1 ∈ R) :
    ∀ c, Reachable c0 c → c ∈ R := by
  intro c h
  induction h with
  | start => exact hstart
  | left _ hstep ih =>
    apply hclosed _ ih
    simp [Config.successors, hstep]
  | right _ hstep ih =>
    apply hclosed _ ih
    simp [Config.successors, hstep]

theorem race_free_of_explored (p q : List Action) (n : Nat)
    (hstart : (⟨⟨p, []⟩, ⟨q, []⟩⟩ : Config) ∈ explore n [⟨⟨p, []⟩, ⟨q, []⟩⟩])
    (hclosed : ∀ c ∈ explore n [⟨⟨p, []⟩, ⟨q, []⟩⟩], ∀ c1 ∈ c.successors,
      c1 ∈ explore n [⟨⟨p, []⟩, ⟨q, []⟩⟩])
    (hsafe : ∀ c ∈ explore n [⟨⟨p, []⟩, ⟨q, []⟩⟩], c.racy = false) :
    ¬ DataRace p q := by
  rintro ⟨c, hreach, hracy⟩
  have hmem := reachable_mem_of_closed _ _ hstart hclosed c hreach
  rw [hsafe c hmem] at hracy
  cases hracy

theorem locked_fields_race_free (f : Field) (hf : f ≠ .timeout) :
    ¬ DataRace (setterActions f) (getterActions f) ∧
    ¬ DataRace (setterActions f) (setterActions f) := by
  cases f <;>
    first
    | exact absurd rfl hf
    | exact ⟨race_free_of_explored _ _ 6 (by decide) (by decide) (by decide),
        race_free_of_explored _ _ 6 (by decide) (by decide) (by decide)⟩

/-- C25 (evaluation at the failing input): one thread calls `setTimeout` while another calls
`getTimeout` (as every bulk read does first), or `setTimeout` as well.  Neither body takes a
lock, `m_timeout` having no mutex: the write and the other access are both enabled at once,
a data race.  The field `port`, accessed under its mutex, has none. -/
theorem C25_timeout_accessed_without_lock :
    DataRace (setterActions .timeout) (getterActions .timeout) ∧
    DataRace (setterActions .timeout) (setterActions .timeout) ∧
    (∀ a ∈ setterActions .timeout ++ getterActions .timeout,
      a ≠ .lockShared .timeout ∧ a ≠ .lockExclusive .timeout) ∧
    ¬ DataRace (setterActions .port) (getterActions .port) :=
  ⟨⟨_, .start, rfl⟩, ⟨_, .start, rfl⟩, by decide,
    (locked_fields_race_free .port (by decide)).1⟩

/-! ## C16: creating the event queue -/

theorem startServer.openSocket_ok (p : Platform) (s : Server) (hsock : p.socketResult ≠ -1)
    (hopt : p.setsockoptResult ≠ -1) : (startServer.openSocket p s).1 = .ok () := by
  unfold startServer.openSocket setServerFileDescriptor
  rw [if_neg hsock]
  dsimp only
  rw [if_neg hopt]

theorem startServer.bindAddress_ok (p : Platform) (s : Server) (hbind : p.bindResult ≠ -1)
    (hunlink : ¬ (p.unlinkResult = -1 ∧ p.unlinkNoEntry = false)) :
    (startServer.bindAddress p s).1 = .ok () := by
  unfold startServer.bindAddress
  simp only [if_neg hbind, if_neg hunlink, setServerAddressIpv4, setServerAddressIpv6,
    setServerAddressLocal]
  split_ifs <;> rfl

theorem startServer.openEventQueue_creation_refused (p : Platform) (s : Server)
    (h : p.epollCreateResult < 0) :
    (startServer.openEventQueue p s).1 = .error .serverCreation := by
  unfold startServer.openEventQueue EventQueue.Epoll.create
  rw [if_pos h]
  rfl

/-- C16 (counterexample): when `epoll_create1` returns `-1` the constructor of `EventQueue`
raises `ServerRuntime`, the kind its header documents, and not `ServerCreation`. -/
theorem C16_eventQueue_creation_raises_serverRuntime :
    EventQueue.Epoll.create (-1) = .error .serverRuntime ∧
    EventQueue.Epoll.create (-1) ≠ .error .serverCreation := by
  decide

/-- C16 (amended): constructing an `EventQueue` fails with the `ServerRuntime` kind exactly
when the creation call returns a negative value, and otherwise succeeds with the returned
descriptor stored and no listener set; `startServer`, once its socket is created, configured
and bound, catches that `ServerRuntime` and raises `ServerCreation` in its place. -/
theorem C16_eventQueue_creation (created : Int) (p : Platform) (s : Server) :
    (EventQueue.Epoll.create created = .error .serverRuntime ↔ created < 0) ∧
    (EventQueue.Epoll.create created =
        .ok { m_eventQueueFileDescriptor := created, m_serverFileDescriptor := -1 } ↔
      ¬ created < 0) ∧
    (p.socketResult ≠ -1 → p.setsockoptResult ≠ -1 → p.bindResult ≠ -1 →
      ¬ (p.unlinkResult = -1 ∧ p.unlinkNoEntry = false) → p.epollCreateResult < 0 →
      EventQueue.Epoll.create p.epollCreateResult = .error .serverRuntime ∧
      (startServer p s).1 = .error .serverCreation) := by
  refine ⟨?_, ?_, ?_⟩
  · unfold EventQueue.Epoll.create
    by_cases h : created < 0
    · simp [h]
    · simp [h]
  · unfold EventQueue.Epoll.create
    by_cases h : created < 0
    · simp [h]
    · simp [h]
  · intro hsock hopt hbind hunlink hcreate
    refine ⟨by unfold EventQueue.Epoll.create; rw [if_pos hcreate], ?_⟩
    unfold startServer
    have h1 := startServer.openSocket_ok p s hsock hopt
    rcases hs1 : startServer.openSocket p s with ⟨r1, s1⟩
    rw [hs1] at h1
    dsimp only at h1
    subst h1
    dsimp only
    have h2 := startServer.bindAddress_ok p s1 hbind hunlink
    rcases hs2 : startServer.bindAddress p s1 with ⟨r2, s2⟩
    rw [hs2] at h2
    dsimp only at h2
    subst h2
    dsimp only
    have h3 := startServer.openEventQueue_creation_refused p s2 hcreate
    rcases hs3 : startServer.openEventQueue p s2 with ⟨r3, s3⟩
    rw [hs3] at h3
    dsimp only at h3
    subst h3
    rfl

theorem C16_eventQueue_creation_witness :
    EventQueue.Epoll.create (-1) = .error .serverRuntime ∧
    (startServer { linuxPlatform with epollCreateResult := -1 } neverStarted).1 =
      .error .serverCreation :=
  (C16_eventQueue_creation 0 { linuxPlatform with epollCreateResult := -1 } neverStarted).2.2
    (by decide) (by decide) (by decide) (by decide) (by decide)

end FBNetwork
